import Mathlib

/-!
# Verification of the Python codebase-conventions pipeline

A shallow embedding of the two-stage core of the repository:

* `parsePythonFiles` (src/codebase-conventions/src/lib/python-parser.ts) —
  the regex-first Python parser, hand-compiled here to character-level
  functions that reproduce the JavaScript regular-expression semantics on
  the inputs the parser handles (single lines, ASCII-oriented whitespace).
* `buildKnowledgeGraphFromParsedModules` (the graph builder module) —
  the deterministic knowledge-graph builder, with JavaScript `Map`s
  modelled as insertion-ordered association lists (the iteration order
  guaranteed by the JavaScript specification).

All definitions are executable; theorems about the claims of the
specification follow the definitions.
-/

namespace PyConv

/-- JavaScript whitespace as it occurs inside one source line after the
parser's newline normalisation: space or tab (`\s` and `[\t ]` agree on
the line-local characters the parser can see). -/
def isSpaceChar (c : Char) : Bool :=
  c = ' ' || c = '\t'

/-- `\w` of JavaScript: ASCII letters, digits and underscore. -/
def isWordChar (c : Char) : Bool :=
  ('a' ≤ c && c ≤ 'z') || ('A' ≤ c && c ≤ 'Z') || ('0' ≤ c && c ≤ '9') || c = '_'

/-- `[A-Za-z_]`, the leading character of an identifier. -/
def isIdentStart (c : Char) : Bool :=
  ('a' ≤ c && c ≤ 'z') || ('A' ≤ c && c ≤ 'Z') || c = '_'

/-- `[\w.]`, an identifier character or a dot (dotted name chains). -/
def isWordDotChar (c : Char) : Bool :=
  isWordChar c || c = '.'

/-- Remove leading and trailing whitespace characters (JavaScript
`String.prototype.trim` restricted to the characters reachable here). -/
def trimChars (l : List Char) : List Char :=
  ((l.dropWhile isSpaceChar).reverse.dropWhile isSpaceChar).reverse

/-- JavaScript `s.trim()`. -/
def jsTrim (s : String) : String :=
  String.mk (trimChars s.data)

/-- JavaScript `s.split(sep)` for a one-character separator, on the
character list. Splitting the empty list yields one empty part, exactly
as in JavaScript. -/
def splitCharAux (sep : Char) : List Char → List Char → List (List Char)
  | [], acc => [acc.reverse]
  | c :: cs, acc =>
    if c = sep then acc.reverse :: splitCharAux sep cs []
    else splitCharAux sep cs (c :: acc)

/-- JavaScript `s.split(sep)` for a one-character separator. -/
def jsSplit (sep : Char) (s : String) : List String :=
  (splitCharAux sep s.data []).map String.mk

/-- JavaScript `s.includes(t)` for a one-character `t`. -/
def jsIncludes (s : String) (c : Char) : Bool :=
  s.data.any (· = c)

/-- JavaScript `s.startsWith(p)` for a one-character prefix. -/
def jsStartsWithChar (s : String) (c : Char) : Bool :=
  match s.data with
  | [] => false
  | d :: _ => d = c

/-- JavaScript `s.endsWith(t)`. -/
def jsEndsWith (s suffix : String) : Bool :=
  suffix.data.isSuffixOf s.data

/-- First index of `pattern` as a sublist of `l` (JavaScript `indexOf`
on strings, `-1` rendered as `none`). -/
def findSubIdx : List Char → List Char → Option Nat
  | _, [] => none
  | pattern, l@(_ :: rest) =>
    if pattern.isPrefixOf l then some 0
    else (findSubIdx pattern rest).map (· + 1)

/-- `findSubIdx` where the pattern is also allowed at the very end
(empty remainder): JavaScript `indexOf` finds an occurrence whenever the
pattern is a prefix of some suffix, including the empty suffix for the
empty pattern.  All patterns used in the sources are nonempty, so the
`[]` base case above (no occurrence in the empty string) is faithful. -/
def jsIndexOfSub (s pattern : String) : Option Nat :=
  findSubIdx pattern.data s.data

/-- JavaScript truthiness of a `string | undefined` value: `undefined`
and the empty string are falsy. -/
def jsTruthy : Option String → Bool
  | none => false
  | some s => s ≠ ""

/-- JavaScript `a ?? b` on a possibly-undefined value. -/
def jsNullish {α : Type} (a : Option α) (b : Option α) : Option α :=
  match a with
  | some v => some v
  | none => b

/-- JavaScript `a || b` for strings (empty string is falsy). -/
def jsOrStr (a b : String) : String :=
  if a = "" then b else a

/-- JavaScript `a || b` for `string | undefined` values. -/
def jsOrOptStr (a b : Option String) : Option String :=
  match a with
  | some s => if s = "" then b else some s
  | none => b

/-- The leading run of tabs and spaces of a line
(`getIndent`, python-parser.ts). -/
def getIndent (s : String) : String :=
  String.mk (s.data.takeWhile isSpaceChar)

/-- Length (in characters) of the leading indentation of a line. -/
def indentLen (s : String) : Nat :=
  (s.data.takeWhile isSpaceChar).length

/-- A line that is blank or a `#` comment after trimming — the lines
`findBlockEnd` treats as tentative block members. -/
def isBlankOrComment (line : String) : Bool :=
  jsTrim line = "" || jsStartsWithChar (jsTrim line) '#'

/-- The scanning loop of `findBlockEnd` (python-parser.ts): walk the
lines after the header, remembering in `e` the last line scanned, and
stop at the first non-blank, non-comment line whose indentation is at
most the header's. -/
def findBlockEndGo (defIndentLen : Nat) : List String → Nat → Nat → Nat
  | [], _, e => e
  | line :: rest, i, e =>
    if isBlankOrComment line then
      findBlockEndGo defIndentLen rest (i + 1) i
    else if indentLen line ≤ defIndentLen then e
    else findBlockEndGo defIndentLen rest (i + 1) i

/-- `findBlockEnd(lines, startIdx, defIndentLen)` of python-parser.ts:
the index of the last line belonging to the block opened at `startIdx`. -/
def findBlockEnd (lines : List String) (startIdx defIndentLen : Nat) : Nat :=
  findBlockEndGo defIndentLen (lines.drop (startIdx + 1)) (startIdx + 1) startIdx

/-- A line terminating a block: non-blank, non-comment, and indented no
deeper than the block header. -/
def isDedentLine (defIndentLen : Nat) (line : String) : Bool :=
  !(isBlankOrComment line) && indentLen line ≤ defIndentLen

theorem findBlockEndGo_spec (d : Nat) :
    ∀ (rest : List String) (i e : Nat), e + 1 = i →
      (∃ j, j < rest.length ∧ isDedentLine d (rest.getD j "") = true ∧
        (∀ k, k < j → isDedentLine d (rest.getD k "") = false) ∧
        findBlockEndGo d rest i e = i + j - 1)
      ∨ ((∀ k, k < rest.length → isDedentLine d (rest.getD k "") = false) ∧
        findBlockEndGo d rest i e = i + rest.length - 1) := by
  intro rest
  induction rest with
  | nil =>
    intro i e hie
    right
    constructor
    · intro k hk; simp at hk
    · simp [findBlockEndGo]; omega
  | cons line rest ih =>
    intro i e hie
    by_cases hb : isBlankOrComment line = true
    · have hded : isDedentLine d line = false := by
        simp [isDedentLine, hb]
      rcases ih (i + 1) i rfl with ⟨j, hj, hdj, hmin, heq⟩ | ⟨hall, heq⟩
      · left
        refine ⟨j + 1, by simpa using hj, by simpa using hdj, ?_, ?_⟩
        · intro k hk
          match k with
          | 0 => simpa using hded
          | k + 1 => simpa using hmin k (by omega)
        · have : findBlockEndGo d (line :: rest) i e = findBlockEndGo d rest (i + 1) i := by
            simp [findBlockEndGo, hb]
          rw [this, heq]; omega
      · right
        refine ⟨?_, ?_⟩
        · intro k hk
          match k with
          | 0 => simpa using hded
          | k + 1 => simpa using hall k (by simp at hk; omega)
        · have : findBlockEndGo d (line :: rest) i e = findBlockEndGo d rest (i + 1) i := by
            simp [findBlockEndGo, hb]
          rw [this, heq]; simp only [List.length_cons]; omega
    · by_cases hd : indentLen line ≤ d
      · left
        refine ⟨0, by simp, ?_, ?_, ?_⟩
        · simp [isDedentLine, hb, hd]
        · intro k hk; omega
        · have : findBlockEndGo d (line :: rest) i e = e := by
            simp [findBlockEndGo, hb, hd]
          rw [this]; omega
      · have hded : isDedentLine d line = false := by
          simp [isDedentLine, hb, hd]
        rcases ih (i + 1) i rfl with ⟨j, hj, hdj, hmin, heq⟩ | ⟨hall, heq⟩
        · left
          refine ⟨j + 1, by simpa using hj, by simpa using hdj, ?_, ?_⟩
          · intro k hk
            match k with
            | 0 => simpa using hded
            | k + 1 => simpa using hmin k (by omega)
          · have : findBlockEndGo d (line :: rest) i e = findBlockEndGo d rest (i + 1) i := by
              simp [findBlockEndGo, hb, hd]
            rw [this, heq]; omega
        · right
          refine ⟨?_, ?_⟩
          · intro k hk
            match k with
            | 0 => simpa using hded
            | k + 1 => simpa using hall k (by simp at hk; omega)
          · have : findBlockEndGo d (line :: rest) i e = findBlockEndGo d rest (i + 1) i := by
              simp [findBlockEndGo, hb, hd]
            rw [this, heq]; simp only [List.length_cons]; omega

/-- C9: `findBlockEnd` returns the index of the last line of the header's
block: if some line after the header is non-blank, non-comment and
indented no deeper than the header (a dedent), the result is the index
just before the first such line (blank and comment lines scanned before
the dedent are included, but do not extend the block past it); if no
dedent exists, the block extends to the last line of the file. -/
theorem c9_findBlockEnd_block_extent (lines : List String) (s d : Nat)
    (hs : s < lines.length) :
    (∃ i, s < i ∧ i < lines.length ∧ isDedentLine d (lines.getD i "") = true ∧
      (∀ k, s < k → k < i → isDedentLine d (lines.getD k "") = false) ∧
      findBlockEnd lines s d = i - 1)
    ∨ ((∀ k, s < k → k < lines.length → isDedentLine d (lines.getD k "") = false) ∧
      findBlockEnd lines s d = lines.length - 1) := by
  have hgo := findBlockEndGo_spec d (lines.drop (s + 1)) (s + 1) s rfl
  have hlen : (lines.drop (s + 1)).length = lines.length - (s + 1) := by
    simp
  have hget : ∀ j, (lines.drop (s + 1)).getD j "" = lines.getD (s + 1 + j) "" := by
    intro j
    simp [List.getD, List.getElem?_drop]
  rcases hgo with ⟨j, hj, hdj, hmin, heq⟩ | ⟨hall, heq⟩
  · left
    refine ⟨s + 1 + j, by omega, by omega, ?_, ?_, ?_⟩
    · rw [← hget]; exact hdj
    · intro k hk1 hk2
      have hk : k = s + 1 + (k - (s + 1)) := by omega
      rw [hk, ← hget]
      exact hmin (k - (s + 1)) (by omega)
    · unfold findBlockEnd; rw [heq]
  · right
    refine ⟨?_, ?_⟩
    · intro k hk1 hk2
      have hk : k = s + 1 + (k - (s + 1)) := by omega
      rw [hk, ← hget]
      exact hall (k - (s + 1)) (by omega)
    · unfold findBlockEnd; rw [heq, hlen]; omega

/-- Witness for C9 at a concrete input: a two-line body followed by a
dedent line. -/
theorem c9_findBlockEnd_block_extent_witness :
    (0 < (["def f():", "    x()", "", "y = 1"] : List String).length) ∧
    ((∃ i, 0 < i ∧ i < (["def f():", "    x()", "", "y = 1"] : List String).length ∧
      isDedentLine 0 ((["def f():", "    x()", "", "y = 1"] : List String).getD i "") = true ∧
      (∀ k, 0 < k → k < i →
        isDedentLine 0 ((["def f():", "    x()", "", "y = 1"] : List String).getD k "") = false) ∧
      findBlockEnd ["def f():", "    x()", "", "y = 1"] 0 0 = i - 1)
    ∨ ((∀ k, 0 < k → k < (["def f():", "    x()", "", "y = 1"] : List String).length →
        isDedentLine 0 ((["def f():", "    x()", "", "y = 1"] : List String).getD k "") = false) ∧
      findBlockEnd ["def f():", "    x()", "", "y = 1"] 0 0 =
        (["def f():", "    x()", "", "y = 1"] : List String).length - 1)) :=
  ⟨by decide, c9_findBlockEnd_block_extent ["def f():", "    x()", "", "y = 1"] 0 0 (by decide)⟩

/-! ## Parsed data model (src/lib/types.ts) -/

/-- A call site found inside a function body (`ParsedCall`). -/
structure ParsedCall where
  name : String
  line : Nat
  column : Option Nat := none
  qualified : Option String := none
deriving Repr, DecidableEq, Inhabited

/-- A parsed function or method (`ParsedFunction`). -/
structure ParsedFunction where
  name : String
  parameters : List String
  returnHint : Option String := none
  isAsync : Bool
  isPrivate : Bool
  decorators : List String
  lineStart : Nat
  lineEnd : Nat
  docstring : Option String := none
  codeExcerpt : Option String := none
  calls : List ParsedCall
deriving Repr, DecidableEq, Inhabited

/-- A parsed class with its methods (`ParsedClass`). -/
structure ParsedClass where
  name : String
  baseClasses : List String
  decorators : List String
  docstring : Option String := none
  lineStart : Nat
  lineEnd : Nat
  codeExcerpt : Option String := none
  methods : List ParsedFunction
deriving Repr, DecidableEq, Inhabited

/-- The two recognised import statement forms. -/
inductive ImportKind where
  | importStmt
  | fromStmt
deriving Repr, DecidableEq, Inhabited

/-- One `(name, alias?)` pair of an import statement (`alias` is a Lean
keyword, so the field is called `aliasName`). -/
structure ImportName where
  name : String
  aliasName : Option String := none
deriving Repr, DecidableEq, Inhabited

/-- A parsed import statement (`ParsedImport`). -/
structure ParsedImport where
  importType : ImportKind
  module : String
  names : List ImportName
  line : Nat
  code : String
deriving Repr, DecidableEq, Inhabited

/-- A parsed top-level variable assignment (`ParsedVariable`). -/
structure ParsedVariable where
  name : String
  valueSnippet : Option String := none
  line : Nat
deriving Repr, DecidableEq, Inhabited

/-- A parsed file (`ParsedModule`). -/
structure ParsedModule where
  filePath : String
  moduleName : String
  classes : List ParsedClass
  functions : List ParsedFunction
  imports : List ParsedImport
  vars : List ParsedVariable
deriving Repr, DecidableEq, Inhabited

/-- An input file handed to the parser (`UploadedFile`). -/
structure UploadedFile where
  name : String
  content : String
  path : Option String := none
deriving Repr, DecidableEq, Inhabited

/-- Options of the parser (`ParseOptions`; the dialect and comment flags
are never read by the implementation). -/
structure ParseOptions where
  includeDocstrings : Option Bool := none
deriving Repr, DecidableEq, Inhabited

/-! ## The parser (python-parser.ts), hand-compiled from its regexes -/

/-- `content.replace(/\r\n?/g, "\n")`: normalise line endings. -/
def normalizeNewlines : List Char → List Char
  | [] => []
  | '\r' :: '\n' :: rest => '\n' :: normalizeNewlines rest
  | '\r' :: rest => '\n' :: normalizeNewlines rest
  | c :: rest => c :: normalizeNewlines rest

/-- `trimRightMax`: trim, then cap at 120 characters with an ellipsis. -/
def trimRightMax (s : String) : String :=
  let t := jsTrim s
  if t.data.length ≤ 120 then t else String.mk (t.data.take 120) ++ "…"

/-- `deriveModuleName`: strip the directory part (last `/` or `\`) and a
trailing `.py` extension from a file name. -/
def lastIndexOfChar (c : Char) (l : List Char) : Option Nat :=
  l.enum.foldl (fun acc p => if p.2 = c then some p.1 else acc) none

/-- `deriveModuleName` of python-parser.ts. -/
def deriveModuleName (filename : String) : String :=
  let lastSlash : Option Nat :=
    match lastIndexOfChar '/' filename.data, lastIndexOfChar '\\' filename.data with
    | none, none => none
    | some a, none => some a
    | none, some b => some b
    | some a, some b => some (max a b)
  let base :=
    match lastSlash with
    | some p => String.mk (filename.data.drop (p + 1))
    | none => filename
  if jsEndsWith base ".py" then String.mk (base.data.take (base.data.length - 3)) else base

/-- The `^([\w\.]+)\s+as\s+([\w_]+)$` pattern of the import parsers:
`name as alias`. -/
def matchAsPattern (t : String) : Option (String × String) :=
  let cs := t.data
  let w1 := cs.takeWhile isWordDotChar
  let r1 := cs.dropWhile isWordDotChar
  if w1 = [] then none
  else
    let sp1 := r1.takeWhile isSpaceChar
    let r2 := r1.dropWhile isSpaceChar
    if sp1 = [] then none
    else
      match r2 with
      | 'a' :: 's' :: r3 =>
        let sp2 := r3.takeWhile isSpaceChar
        let r4 := r3.dropWhile isSpaceChar
        if sp2 = [] then none
        else
          let w2 := r4.takeWhile isWordChar
          let r5 := r4.dropWhile isWordChar
          if w2 = [] then none
          else if r5 = [] then some (String.mk w1, String.mk w2)
          else none
      | _ => none

/-- Parse the right-hand side of an import statement into
`(name, alias?)` pairs: split on commas, trim, drop empties, and match
the `as` pattern on each token. -/
def parseImportNames (rhs : String) : List ImportName :=
  (((jsSplit ',' rhs).map jsTrim).filter (· ≠ "")).map fun t =>
    match matchAsPattern t with
    | some (n, a) => { name := n, aliasName := some a }
    | none => { name := t }

/-- The `^\s*from\s+([\w\.]+)\s+import\s+(.+)$` regex: returns the
`from`-module and the raw right-hand side.  The final `\s+(.+)$` admits
one backtracking step when the line ends in whitespace (the last
whitespace character is then captured by `.+`), reproduced here. -/
def matchFromImport (line : String) : Option (String × String) :=
  let cs := line.data.dropWhile isSpaceChar
  if ("from".data).isPrefixOf cs then
    let r0 := cs.drop 4
    let sp1 := r0.takeWhile isSpaceChar
    let r1 := r0.dropWhile isSpaceChar
    if sp1 = [] then none
    else
      let w := r1.takeWhile isWordDotChar
      let r2 := r1.dropWhile isWordDotChar
      if w = [] then none
      else
        let sp2 := r2.takeWhile isSpaceChar
        let r3 := r2.dropWhile isSpaceChar
        if sp2 = [] then none
        else if ("import".data).isPrefixOf r3 then
          let r4 := r3.drop 6
          let sp3 := r4.takeWhile isSpaceChar
          let r5 := r4.dropWhile isSpaceChar
          if sp3 = [] then none
          else if r5 ≠ [] then some (String.mk w, String.mk r5)
          else if 2 ≤ sp3.length then some (String.mk w, String.mk [sp3.getLastD ' '])
          else none
        else none
  else none

/-- The `^\s*import\s+(.+)$` regex: returns the raw right-hand side,
with the same trailing-whitespace backtracking as `matchFromImport`. -/
def matchImportStmt (line : String) : Option String :=
  let cs := line.data.dropWhile isSpaceChar
  if ("import".data).isPrefixOf cs then
    let r0 := cs.drop 6
    let sp := r0.takeWhile isSpaceChar
    let r1 := r0.dropWhile isSpaceChar
    if sp = [] then none
    else if r1 ≠ [] then some (String.mk r1)
    else if 2 ≤ sp.length then some (String.mk [sp.getLastD ' '])
    else none
  else none

/-- `parseImports` of python-parser.ts. -/
def parseImports (lines : List String) : List ParsedImport :=
  lines.enum.filterMap fun p =>
    let i := p.1
    let line := p.2
    let trimmed := jsTrim line
    if jsStartsWithChar trimmed '#' || trimmed = "" then none
    else
      match matchFromImport line with
      | some (m, rhs) =>
        some { importType := .fromStmt, module := m, names := parseImportNames rhs,
               line := i + 1, code := trimmed }
      | none =>
        match matchImportStmt line with
        | some rhs =>
          let names := parseImportNames rhs
          let moduleName := match names with | [] => "" | n :: _ => n.name
          some { importType := .importStmt, module := moduleName, names := names,
                 line := i + 1, code := trimmed }
        | none => none

/-- The `^([\t ]*)([A-Za-z_]\w*)\s*=\s*([^=].*)$` assignment regex
(called only on zero-indent lines): returns the name and the raw
right-hand side.  `\s*([^=].*)` backtracks one whitespace character when
the text after `=` begins with whitespace followed by another `=`. -/
def matchAssign (line : String) : Option (String × String) :=
  match line.data with
  | [] => none
  | c :: rest =>
    if isIdentStart c then
      let r1 := rest.dropWhile isWordChar
      let r2 := r1.dropWhile isSpaceChar
      match r2 with
      | '=' :: r3 =>
        let sp2 := r3.takeWhile isSpaceChar
        let r4 := r3.dropWhile isSpaceChar
        let nm := String.mk (c :: rest.takeWhile isWordChar)
        match r4 with
        | [] => none
        | d :: _ =>
          if d ≠ '=' then some (nm, String.mk r4)
          else if sp2 ≠ [] then some (nm, String.mk (sp2.getLastD ' ' :: r4))
          else none
      | _ => none
    else none

/-- `parseTopLevelVariables` of python-parser.ts. -/
def parseTopLevelVariables (lines : List String) : List ParsedVariable :=
  lines.enum.filterMap fun p =>
    let i := p.1
    let line := p.2
    if indentLen line ≠ 0 then none
    else
      let trimmed := jsTrim line
      if trimmed = "" || jsStartsWithChar trimmed '#' then none
      else
        (matchAssign line).map fun nr =>
          { name := nr.1, valueSnippet := some (trimRightMax nr.2), line := i + 1 }

/-- The class-header regex
`^(\t|\s)*class\s+([A-Za-z_]\w*)(?:\(([^)]*)\))?\s*:`; returns the class
name and the raw base-class list (the capture of `([^)]*)`, absent when
the parenthesised group is absent). -/
def matchClassHeader (line : String) : Option (String × Option String) :=
  let cs := line.data.dropWhile isSpaceChar
  if ("class".data).isPrefixOf cs then
    let r0 := cs.drop 5
    let sp := r0.takeWhile isSpaceChar
    let r1 := r0.dropWhile isSpaceChar
    if sp = [] then none
    else
      match r1 with
      | [] => none
      | c :: rest =>
        if isIdentStart c then
          let name := String.mk (c :: rest.takeWhile isWordChar)
          let r2 := rest.dropWhile isWordChar
          match r2 with
          | '(' :: r3 =>
            let basesRaw := r3.takeWhile (· ≠ ')')
            let r4 := r3.dropWhile (· ≠ ')')
            match r4 with
            | ')' :: r5 =>
              let r6 := r5.dropWhile isSpaceChar
              match r6 with
              | ':' :: _ => some (name, some (String.mk basesRaw))
              | _ => none
            | _ => none
          | _ =>
            let r3 := r2.dropWhile isSpaceChar
            match r3 with
            | ':' :: _ => some (name, none)
            | _ => none
        else none
  else none

/-- The function-header regex
`^(\t|\s)*(async\s+)?def\s+([A-Za-z_]\w*)\s*\(([^)]*)\)\s*(?:->\s*([^:]+))?\s*:`;
returns `(isAsync, name, rawParams, rawReturnHint?)`.  The optional
return-hint group backtracks one whitespace character when `->` is
followed by whitespace and then directly by `:`. -/
def matchDefHeader (line : String) : Option (Bool × String × String × Option String) :=
  let cs0 := line.data.dropWhile isSpaceChar
  let firstTry :=
    if ("async".data).isPrefixOf cs0 then
      let r := cs0.drop 5
      if r.takeWhile isSpaceChar ≠ [] then some (r.dropWhile isSpaceChar) else none
    else none
  let (isAsync, cs) :=
    match firstTry with
    | some r => (true, r)
    | none => (false, cs0)
  if ("def".data).isPrefixOf cs then
    let r0 := cs.drop 3
    let sp := r0.takeWhile isSpaceChar
    let r1 := r0.dropWhile isSpaceChar
    if sp = [] then none
    else
      match r1 with
      | [] => none
      | c :: rest =>
        if isIdentStart c then
          let name := String.mk (c :: rest.takeWhile isWordChar)
          let r2 := (rest.dropWhile isWordChar).dropWhile isSpaceChar
          match r2 with
          | '(' :: r3 =>
            let params := String.mk (r3.takeWhile (· ≠ ')'))
            let r4 := r3.dropWhile (· ≠ ')')
            match r4 with
            | ')' :: r5 =>
              let r6 := r5.dropWhile isSpaceChar
              match r6 with
              | '-' :: '>' :: r7 =>
                let sp2 := r7.takeWhile isSpaceChar
                let r8 := r7.dropWhile isSpaceChar
                let hint := r8.takeWhile (· ≠ ':')
                let r9 := r8.dropWhile (· ≠ ':')
                if hint ≠ [] then
                  match r9 with
                  | ':' :: _ => some (isAsync, name, params, some (String.mk hint))
                  | _ => none
                else
                  match r8 with
                  | ':' :: _ =>
                    if sp2 ≠ [] then
                      some (isAsync, name, params, some (String.mk [sp2.getLastD ' ']))
                    else none
                  | _ => none
              | ':' :: _ => some (isAsync, name, params, none)
              | _ => none
            | _ => none
          | _ => none
        else none
  else none

/-- `(mDef[5] ?? "").trim() || undefined`: the return hint as stored on
the parsed function. -/
def hintOf (raw : Option String) : Option String :=
  let t := jsTrim (raw.getD "")
  if t = "" then none else some t

/-- `(mClass[3] ?? "")` split on commas, trimmed, empties dropped: the
base-class list. -/
def basesOf (raw : Option String) : List String :=
  ((jsSplit ',' (raw.getD "")).map jsTrim).filter (· ≠ "")

/-- The docstring-opening regex `^[ruRU]{0,2}("""|''')` applied to a
trimmed line: returns the length of the prefix-character run actually
used and the quote characters. -/
def isRUChar (c : Char) : Bool :=
  c = 'r' || c = 'u' || c = 'R' || c = 'U'

/-- Three-character quote at the head of the list, `"""` tried before
`'''` as in the regex alternation. -/
def quoteAt : List Char → Option (List Char)
  | '\"' :: '\"' :: '\"' :: _ => some ['\"', '\"', '\"']
  | '\'' :: '\'' :: '\'' :: _ => some ['\'', '\'', '\'']
  | _ => none

/-- Match `^[ruRU]{0,2}("""|''')` (greedy prefix run). -/
def matchTriple (l : List Char) : Option (Nat × List Char) :=
  match l with
  | c1 :: c2 :: rest =>
    if isRUChar c1 then
      if isRUChar c2 then (quoteAt rest).map ((2, ·))
      else (quoteAt (c2 :: rest)).map ((1, ·))
    else (quoteAt l).map ((0, ·))
  | _ => (quoteAt l).map ((0, ·))

/-- `captureMultilineString`'s scanning loop: accumulate lines until one
contains the closing quote. -/
def captureGo (quote : List Char) : List String → Nat → List Char → List Char × Nat
  | [], i, acc => (acc, i - 1)
  | line :: rest, i, acc =>
    match findSubIdx quote line.data with
    | some p => (acc ++ line.data.take p, i)
    | none => captureGo quote rest (i + 1) (acc ++ line.data ++ ['\n'])

/-- `captureMultilineString` of python-parser.ts. -/
def captureMultilineString (lines : List String) (startIdx : Nat) (quote : List Char) :
    String × Nat :=
  let startLine := lines.getD startIdx ""
  let startPos := (findSubIdx quote startLine.data).getD 0
  let acc0 := startLine.data.drop (startPos + 3) ++ ['\n']
  let r := captureGo quote (lines.drop (startIdx + 1)) (startIdx + 1) acc0
  (String.mk (trimChars r.1), r.2)

/-- The scanning loop of `extractDocstringIfFirst`: find the first
non-blank, non-comment line of the body and check it for a triple-quoted
string. -/
def extractDocGo (lines : List String) (endIdx defIndentLen : Nat) :
    Nat → Nat → Option String × Nat
  | 0, _ => (none, min (endIdx + 1) (lines.length - 1))
  | fuel + 1, i =>
  if i ≤ endIdx then
    let line := lines.getD i ""
    let trimmed := jsTrim line
    if trimmed = "" || jsStartsWithChar trimmed '#' then
      extractDocGo lines endIdx defIndentLen fuel (i + 1)
    else if indentLen line ≤ defIndentLen then (none, i)
    else
      match matchTriple trimmed.data with
      | some kq =>
        let quote := kq.2
        let sliced := trimmed.data.drop (kq.1 + 3)
        if (findSubIdx quote sliced).isSome then
          let idx0 := (findSubIdx quote trimmed.data).getD 0
          let after := trimmed.data.drop (idx0 + 3)
          let inner :=
            match findSubIdx quote after with
            | some p => after.take p
            | none => after
          (some (String.mk (trimChars inner)), i + 1)
        else
          let r := captureMultilineString lines i quote
          (some r.1, r.2 + 1)
      | none => (none, i)
  else (none, min (endIdx + 1) (lines.length - 1))

/-- `extractDocstringIfFirst` of python-parser.ts: the docstring (when
enabled and present) and the index of the first body line after it. -/
def extractDocstringIfFirst (lines : List String) (startIdx endIdx defIndentLen : Nat)
    (includeDocstrings : Bool) : Option String × Nat :=
  if !includeDocstrings then (none, startIdx + 1)
  else extractDocGo lines endIdx defIndentLen (endIdx + 2) (startIdx + 1)

/-- The keyword denylist of `extractCalls`. -/
def KEYWORD_CALL_DENYLIST : List String :=
  ["if", "for", "while", "with", "return", "yield", "raise", "except", "class",
   "def", "await", "lambda", "try", "assert", "del", "global", "nonlocal",
   "pass", "break", "continue"]

/-- The call-site regex loop `([A-Za-z_][\w\.]*)\s*\(` with `exec`-style
advancement: after a match the scan resumes after the opening
parenthesis; after a failed start position it moves one character on. -/
def scanCallsGo (lineNo : Nat) : Nat → List Char → Nat → List ParsedCall
  | 0, _, _ => []
  | _, [], _ => []
  | fuel + 1, c :: rest, p =>
    if isIdentStart c then
      let nameTail := rest.takeWhile isWordDotChar
      let afterName := rest.dropWhile isWordDotChar
      let sp := afterName.takeWhile isSpaceChar
      let afterSp := afterName.dropWhile isSpaceChar
      match afterSp with
      | '(' :: restParen =>
        let name := String.mk (c :: nameTail)
        let base := if jsIncludes name '.' then (jsSplit '.' name).headD "" else name
        let restCalls := scanCallsGo lineNo fuel restParen (p + 1 + nameTail.length + sp.length + 1)
        if KEYWORD_CALL_DENYLIST.contains base then restCalls
        else { name := name, line := lineNo, column := some (p + 1),
               qualified := some name } :: restCalls
      | _ => scanCallsGo lineNo fuel rest (p + 1)
    else scanCallsGo lineNo fuel rest (p + 1)

/-- The line loop of `extractCalls`. -/
def extractCallsGo (lines : List String) (endIdx : Nat) : Nat → Nat → List ParsedCall
  | 0, _ => []
  | fuel + 1, i =>
    if i ≤ endIdx then
      if i < lines.length then
        let line := lines.getD i ""
        let trimmed := jsTrim line
        let here :=
          if trimmed = "" || jsStartsWithChar trimmed '#' then []
          else scanCallsGo (i + 1) (line.data.length + 1) line.data 0
        here ++ extractCallsGo lines endIdx fuel (i + 1)
      else []
    else []

/-- `extractCalls` of python-parser.ts. -/
def extractCalls (lines : List String) (startIdx endIdx : Nat) : List ParsedCall :=
  extractCallsGo lines endIdx (endIdx + 2) startIdx

/-- `sliceLines` of python-parser.ts: join `lines.slice(start, end+1)`
with newlines. -/
def sliceLines (lines : List String) (startIdx endIdx : Nat) : String :=
  let stop := min (lines.length - 1) endIdx + 1
  String.intercalate "\n" ((lines.drop startIdx).take (stop - startIdx))

/-- `splitParams` of python-parser.ts: naive split on commas. -/
def splitParams (paramsRaw : String) : List String :=
  let s := jsTrim paramsRaw
  if s = "" then []
  else ((jsSplit ',' s).map jsTrim).filter (· ≠ "")

/-- The decorator-collection loops: gather contiguous `@...` lines
(blank lines allowed within the run, and recorded as empty strings, as
in the source) from `j` up to the exclusive `bound`; returns the
collected list and the index of the first line after the run. -/
def collectDecorators (lines : List String) (bound : Nat) :
    Nat → List String → Nat → List String × Nat
  | 0, acc, j => (acc, j)
  | fuel + 1, acc, j =>
    if j < bound then
      let t := jsTrim (lines.getD j "")
      if jsStartsWithChar t '@' then collectDecorators lines bound fuel (acc ++ [t]) (j + 1)
      else if t = "" then collectDecorators lines bound fuel (acc ++ [t]) (j + 1)
      else (acc, j)
    else (acc, j)

theorem findBlockEndGo_ge (d : Nat) :
    ∀ (rest : List String) (i e : Nat), e ≤ i → e ≤ findBlockEndGo d rest i e := by
  intro rest
  induction rest with
  | nil => intro i e h; simp [findBlockEndGo]
  | cons line rest ih =>
    intro i e h
    unfold findBlockEndGo
    by_cases hb : isBlankOrComment line = true
    · simp only [hb, if_pos]
      exact Nat.le_trans h (ih (i + 1) i (by omega))
    · simp only [hb]
      by_cases hd : indentLen line ≤ d
      · simp [hd]
      · simp only [hd, if_neg, Bool.false_eq_true, not_false_eq_true, if_false]
        exact Nat.le_trans h (ih (i + 1) i (by omega))

theorem findBlockEnd_ge (lines : List String) (s d : Nat) : s ≤ findBlockEnd lines s d := by
  unfold findBlockEnd
  exact findBlockEndGo_ge d _ (s + 1) s (by omega)

/-- The method-extraction loop inside a class block
(`parseClassesAndFunctions`, inner `while (j <= blockEnd)` loop).  The
index advances by at least one each iteration (`collectDecorators` and
`findBlockEnd` never move backwards), so the fuel of `blockEnd + 2`
supplied by the caller always reaches the `blockEnd < j` exit. -/
def parseMethods (lines : List String) (includeDoc : Bool) (classIndentLen blockEnd : Nat) :
    Nat → Nat → List ParsedFunction
  | 0, _ => []
  | fuel + 1, j =>
    if blockEnd < j then []
    else
      let cd := collectDecorators lines (blockEnd + 1) (blockEnd + 2) [] j
      if blockEnd < cd.2 then []
      else
        let methodLine := lines.getD cd.2 ""
        let methodIndentLen := indentLen methodLine
        match matchDefHeader methodLine with
        | some hdr =>
          if classIndentLen < methodIndentLen then
            let methodEndIdx := findBlockEnd lines cd.2 methodIndentLen
            let dr := extractDocstringIfFirst lines cd.2 methodEndIdx methodIndentLen includeDoc
            let fn : ParsedFunction := {
              name := hdr.2.1,
              parameters := splitParams hdr.2.2.1,
              returnHint := hintOf hdr.2.2.2,
              isAsync := hdr.1,
              isPrivate := jsStartsWithChar hdr.2.1 '_',
              decorators := cd.1.filter (jsStartsWithChar · '@'),
              lineStart := cd.2 + 1,
              lineEnd := methodEndIdx + 1,
              docstring := dr.1,
              codeExcerpt := some (sliceLines lines cd.2 methodEndIdx),
              calls := extractCalls lines dr.2 methodEndIdx }
            fn :: parseMethods lines includeDoc classIndentLen blockEnd fuel (methodEndIdx + 1)
          else parseMethods lines includeDoc classIndentLen blockEnd fuel (cd.2 + 1)
        | none => parseMethods lines includeDoc classIndentLen blockEnd fuel (cd.2 + 1)

/-- The main scanning loop of `parseClassesAndFunctions`.  The loop
index advances by at least one on every iteration, so a fuel of
`lines.length + 1` (supplied by `parseClassesAndFunctions`) is enough to
reach the `i ≥ n` exit. -/
def parseCFGo (lines : List String) (includeDoc : Bool) :
    Nat → Nat → List ParsedClass → List ParsedFunction →
    List ParsedClass × List ParsedFunction
  | 0, _, cAcc, fAcc => (cAcc, fAcc)
  | fuel + 1, i, cAcc, fAcc =>
    if lines.length ≤ i then (cAcc, fAcc)
    else
      let line := lines.getD i ""
      let trimmed := jsTrim line
      if trimmed = "" then parseCFGo lines includeDoc fuel (i + 1) cAcc fAcc
      else
        let cd := collectDecorators lines lines.length (lines.length + 1) [] i
        let decorators := cd.1
        let i2 := if 0 < decorators.length then cd.2 else i
        if lines.length ≤ i2 then (cAcc, fAcc)
        else
          let curr := lines.getD i2 ""
          let ind := indentLen curr
          match matchClassHeader curr with
          | some nb =>
            let blockEnd := findBlockEnd lines i2 ind
            let dr := extractDocstringIfFirst lines i2 blockEnd ind includeDoc
            let bodyStart := min blockEnd dr.2
            let methods := parseMethods lines includeDoc ind blockEnd (blockEnd + 2) bodyStart
            let cls : ParsedClass := {
              name := nb.1,
              baseClasses := basesOf nb.2,
              decorators := decorators.filter (jsStartsWithChar · '@'),
              docstring := dr.1,
              lineStart := i2 + 1,
              lineEnd := blockEnd + 1,
              codeExcerpt := some (sliceLines lines i2 blockEnd),
              methods := methods }
            parseCFGo lines includeDoc fuel (blockEnd + 1) (cAcc ++ [cls]) fAcc
          | none =>
            match matchDefHeader curr with
            | some hdr =>
              let endIdx := findBlockEnd lines i2 ind
              let dr := extractDocstringIfFirst lines i2 endIdx ind includeDoc
              let fn : ParsedFunction := {
                name := hdr.2.1,
                parameters := splitParams hdr.2.2.1,
                returnHint := hintOf hdr.2.2.2,
                isAsync := hdr.1,
                isPrivate := jsStartsWithChar hdr.2.1 '_',
                decorators := decorators.filter (jsStartsWithChar · '@'),
                lineStart := i2 + 1,
                lineEnd := endIdx + 1,
                docstring := dr.1,
                codeExcerpt := some (sliceLines lines i2 endIdx),
                calls := extractCalls lines dr.2 endIdx }
              parseCFGo lines includeDoc fuel (endIdx + 1) cAcc (fAcc ++ [fn])
            | none => parseCFGo lines includeDoc fuel (i2 + 1) cAcc fAcc

/-- `parseClassesAndFunctions` of python-parser.ts. -/
def parseClassesAndFunctions (lines : List String) (includeDoc : Bool) :
    List ParsedClass × List ParsedFunction :=
  parseCFGo lines includeDoc (lines.length + 1) 0 [] []

/-- `parseSingleFile` of python-parser.ts. -/
def parseSingleFile (file : UploadedFile) (includeDocstrings : Bool) : ParsedModule :=
  let filePath := file.path.getD file.name
  let moduleName := deriveModuleName file.name
  let content := String.mk (normalizeNewlines file.content.data)
  let lines := jsSplit '\n' content
  let cf := parseClassesAndFunctions lines includeDocstrings
  { filePath := filePath,
    moduleName := moduleName,
    classes := cf.1,
    functions := cf.2,
    imports := parseImports lines,
    vars := parseTopLevelVariables lines }

/-- `parsePythonFiles`: parse each uploaded file (the `async` wrapper of
the source is pure). -/
def parsePythonFiles (files : List UploadedFile) (options : Option ParseOptions) :
    List ParsedModule :=
  let includeDocstrings := (options.bind (fun o => o.includeDocstrings)).getD true
  files.map (fun f => parseSingleFile f includeDocstrings)

/-! ## Graph data model (types.ts) and JavaScript `Map` semantics -/

/-- Values stored in the free-form `metadata` record of nodes and edges. -/
inductive MetaVal where
  | str (s : String)
  | nat (n : Nat)
  | bool (b : Bool)
  | strList (l : List String)
  | optStr (s : Option String)
  | strMap (m : List (String × String))
deriving Repr, DecidableEq, Inhabited

/-- `CodeNode` of types.ts.  `metadata` is an insertion-ordered record. -/
structure CodeNode where
  id : String
  label : String
  type : String
  filePath : Option String := none
  line : Option Nat := none
  column : Option Nat := none
  metadata : List (String × MetaVal) := []
deriving Repr, DecidableEq, Inhabited

/-- `CodeEdge` of types.ts. -/
structure CodeEdge where
  id : String
  source : String
  target : String
  relation : String
  metadata : List (String × MetaVal) := []
deriving Repr, DecidableEq, Inhabited

/-- `KnowledgeGraph` of types.ts. -/
structure KnowledgeGraph where
  nodes : List CodeNode
  edges : List CodeEdge
deriving Repr, DecidableEq, Inhabited

/-- JavaScript `Map.get`: the value of the (unique) entry with this key. -/
def mapGet? {α : Type} (m : List (String × α)) (k : String) : Option α :=
  (m.find? (fun p => p.1 = k)).map (fun p => p.2)

/-- JavaScript `Map.has`. -/
def mapHas {α : Type} (m : List (String × α)) (k : String) : Bool :=
  m.any (fun p => p.1 = k)

/-- JavaScript `Map.set`: overwrite in place when the key exists
(keeping its original insertion position), append otherwise. -/
def mapSet {α : Type} (m : List (String × α)) (k : String) (v : α) : List (String × α) :=
  if mapHas m k then m.map (fun p => if p.1 = k then (k, v) else p)
  else m ++ [(k, v)]

/-- JavaScript `Set.add` on an insertion-ordered string set. -/
def setAdd (l : List String) (x : String) : List String :=
  if l.contains x then l else l ++ [x]

/-- The object spread `{ ...a, ...b }` on metadata records: `b`'s
entries overwrite `a`'s values on key conflicts (in place), new keys of
`b` are appended in order. -/
def spreadMerge (a b : List (String × MetaVal)) : List (String × MetaVal) :=
  b.foldl (fun acc p => mapSet acc p.1 p.2) a

/-! ## The graph builder (`buildKnowledgeGraphFromParsedModules`) -/

/-- The mutable state of one builder invocation: the node map, the
edge-weight map, and the three resolution indexes. -/
structure BuildState where
  nodeById : List (String × CodeNode)
  edgeWeightByKey : List (String × Nat)
  topLevelFuncByModuleAndName : List (String × String)
  classByModuleAndName : List (String × String)
  methodByModuleClassAndName : List (String × String)
deriving Repr, DecidableEq, Inhabited

/-- The empty builder state. -/
def initState : BuildState :=
  { nodeById := [], edgeWeightByKey := [], topLevelFuncByModuleAndName := [],
    classByModuleAndName := [], methodByModuleClassAndName := [] }

/-- The merge of an existing node with a newly seen node of the same
identifier (`upsertNode`'s merge object): scalar fields keep the
existing value when truthy (`||` for strings, `??` for numbers), and
metadata is `{ ...(node.metadata ?? {}), ...(existing.metadata ?? {}) }`
— the existing entries win on key conflicts. -/
def mergeNode (existing node : CodeNode) : CodeNode :=
  { existing with
    label := jsOrStr existing.label node.label,
    type := jsOrStr existing.type node.type,
    filePath := jsOrOptStr existing.filePath node.filePath,
    line := jsNullish existing.line node.line,
    column := jsNullish existing.column node.column,
    metadata := spreadMerge node.metadata existing.metadata }

/-- `upsertNode` of the builder: insert the node, or merge it into the
existing node of the same identifier; returns the stored node. -/
def upsertNode (st : BuildState) (node : CodeNode) : BuildState × CodeNode :=
  match mapGet? st.nodeById node.id with
  | none => ({ st with nodeById := mapSet st.nodeById node.id node }, node)
  | some existing =>
    let merged := mergeNode existing node
    ({ st with nodeById := mapSet st.nodeById node.id merged }, merged)

/-- The edge key `${source}|${relation}|${target}` of `addEdge`. -/
def edgeKey (source relation target : String) : String :=
  source ++ "|" ++ relation ++ "|" ++ target

/-- `addEdge` of the builder: bump the weight counter of the edge key. -/
def addEdge (st : BuildState) (source relation target : String) : BuildState :=
  let key := edgeKey source relation target
  let prev := (mapGet? st.edgeWeightByKey key).getD 0
  { st with edgeWeightByKey := mapSet st.edgeWeightByKey key (prev + 1) }

/-- `moduleNodeId` of the builder. -/
def moduleNodeId (moduleName : String) : String :=
  moduleName ++ ":module:" ++ moduleName ++ ":1"

/-- `classNodeId` of the builder. -/
def classNodeId (moduleName className : String) (line : Nat) : String :=
  moduleName ++ ":class:" ++ className ++ ":" ++ toString line

/-- `functionNodeId` of the builder. -/
def functionNodeId (moduleName name : String) (line : Nat) : String :=
  moduleName ++ ":function:" ++ name ++ ":" ++ toString line

/-- `variableNodeId` of the builder. -/
def variableNodeId (moduleName name : String) (line : Nat) : String :=
  moduleName ++ ":variable:" ++ name ++ ":" ++ toString line

/-- `externalModuleNodeId` of the builder. -/
def externalModuleNodeId (moduleName : String) : String :=
  "external:module:" ++ moduleName ++ ":0"

/-- `externalFunctionNodeId` of the builder. -/
def externalFunctionNodeId (qualified : String) : String :=
  "external:function:" ++ qualified ++ ":0"

/-- The identifier minted by the builder's `externalClass` helper. -/
def externalClassNodeId (className : String) : String :=
  "external:class:" ++ className ++ ":0"

/-- `ensureModuleNode` of the builder. -/
def ensureModuleNode (st : BuildState) (mod : ParsedModule) : BuildState × CodeNode :=
  upsertNode st
    { id := moduleNodeId mod.moduleName,
      label := mod.moduleName,
      type := "module",
      filePath := some mod.filePath,
      line := some 1,
      metadata := [("moduleName", .str mod.moduleName)] }

/-- Declaration pass, one method: create the method node (labelled
`Class.method`), index it, and add the `class defines method` edge. -/
def processMethodPass1 (moduleName filePath clsName clsId : String) (st : BuildState)
    (m : ParsedFunction) : BuildState :=
  let qualifiedName := clsName ++ "." ++ m.name
  let fnId := functionNodeId moduleName qualifiedName m.lineStart
  let st := (upsertNode st
    { id := fnId, label := qualifiedName, type := "function",
      filePath := some filePath, line := some m.lineStart,
      metadata := [("module", .str moduleName), ("class", .str clsName),
        ("parameters", .strList m.parameters), ("returnHint", .optStr m.returnHint),
        ("isAsync", .bool m.isAsync), ("isPrivate", .bool m.isPrivate),
        ("decorators", .strList m.decorators), ("docstring", .optStr m.docstring),
        ("code", .optStr m.codeExcerpt)] }).1
  let methodKey := moduleName ++ "::" ++ clsName ++ "::" ++ m.name
  let st := { st with methodByModuleClassAndName := mapSet st.methodByModuleClassAndName methodKey fnId }
  addEdge st clsId "defines" fnId

/-- Declaration pass, one class: create the class node, index it, add
the `module defines class` edge, and process its methods. -/
def processClassPass1 (moduleName filePath modNodeIdv : String) (st : BuildState)
    (cls : ParsedClass) : BuildState :=
  let clsId := classNodeId moduleName cls.name cls.lineStart
  let st := (upsertNode st
    { id := clsId, label := cls.name, type := "class",
      filePath := some filePath, line := some cls.lineStart,
      metadata := [("module", .str moduleName), ("baseClasses", .strList cls.baseClasses),
        ("decorators", .strList cls.decorators), ("docstring", .optStr cls.docstring),
        ("code", .optStr cls.codeExcerpt)] }).1
  let classKey := moduleName ++ "::" ++ cls.name
  let st := { st with classByModuleAndName := mapSet st.classByModuleAndName classKey clsId }
  let st := addEdge st modNodeIdv "defines" clsId
  cls.methods.foldl (processMethodPass1 moduleName filePath cls.name clsId) st

/-- Declaration pass, one top-level function. -/
def processFunctionPass1 (moduleName filePath modNodeIdv : String) (st : BuildState)
    (fn : ParsedFunction) : BuildState :=
  let fnId := functionNodeId moduleName fn.name fn.lineStart
  let st := (upsertNode st
    { id := fnId, label := fn.name, type := "function",
      filePath := some filePath, line := some fn.lineStart,
      metadata := [("module", .str moduleName),
        ("parameters", .strList fn.parameters), ("returnHint", .optStr fn.returnHint),
        ("isAsync", .bool fn.isAsync), ("isPrivate", .bool fn.isPrivate),
        ("decorators", .strList fn.decorators), ("docstring", .optStr fn.docstring),
        ("code", .optStr fn.codeExcerpt)] }).1
  let funcKey := moduleName ++ "::" ++ fn.name
  let st := { st with topLevelFuncByModuleAndName := mapSet st.topLevelFuncByModuleAndName funcKey fnId }
  addEdge st modNodeIdv "defines" fnId

/-- Declaration pass, one top-level variable. -/
def processVariablePass1 (moduleName filePath modNodeIdv : String) (st : BuildState)
    (v : ParsedVariable) : BuildState :=
  let varId := variableNodeId moduleName v.name v.line
  let st := (upsertNode st
    { id := varId, label := v.name, type := "variable",
      filePath := some filePath, line := some v.line,
      metadata := [("module", .str moduleName),
        ("valueSnippet", .optStr v.valueSnippet)] }).1
  addEdge st modNodeIdv "defines" varId

/-- Declaration pass over one module (the builder's first `for` loop). -/
def processModulePass1 (st : BuildState) (mod : ParsedModule) : BuildState :=
  let r := ensureModuleNode st mod
  let st := r.1
  let modNodeIdv := r.2.id
  let st := mod.classes.foldl (processClassPass1 mod.moduleName mod.filePath modNodeIdv) st
  let st := mod.functions.foldl (processFunctionPass1 mod.moduleName mod.filePath modNodeIdv) st
  mod.vars.foldl (processVariablePass1 mod.moduleName mod.filePath modNodeIdv) st

/-- The per-module alias table and imported-module set (the loop over
`mod.imports` of the reference pass): maps each locally bound name to
its fully qualified source, and collects top-level imported module
names in first-seen order. -/
def importTablesStep (acc : List (String × String) × List String) (imp : ParsedImport) :
    List (String × String) × List String :=
  match imp.importType with
  | .importStmt =>
    imp.names.foldl (fun acc2 n =>
      let raw := n.name
      let asName := n.aliasName.getD ((jsSplit '.' raw).headD "")
      (mapSet acc2.1 asName raw, setAdd acc2.2 ((jsSplit '.' raw).headD ""))) acc
  | .fromStmt =>
    let acc2 := imp.names.foldl (fun a n =>
      let sym := n.aliasName.getD n.name
      (mapSet a.1 sym (imp.module ++ "." ++ n.name), a.2)) acc
    (acc2.1, setAdd acc2.2 ((jsSplit '.' imp.module).headD ""))

/-- Alias table and imported modules of one parsed module. -/
def importTablesOf (mod : ParsedModule) : List (String × String) × List String :=
  mod.imports.foldl importTablesStep ([], [])

/-- Attach the alias map to the module node's metadata
(`modNodeByIdSetMetadata`): the new `importAliases` entry overwrites an
existing one (`{ ...(node.metadata ?? {}), ...md }`). -/
def attachImportAliases (st : BuildState) (modNodeIdv : String)
    (aliasEntries : List (String × String)) : BuildState :=
  match mapGet? st.nodeById modNodeIdv with
  | some modNode =>
    let newNode := { modNode with metadata := spreadMerge modNode.metadata [("importAliases", .strMap aliasEntries)] }
    { st with nodeById := mapSet st.nodeById modNodeIdv newNode }
  | none => st

/-- One call site of `linkCallsForFunction` (the body of its `for` loop
over `fn.calls`), resolved with the builder's precedence rules. -/
def resolveCall (st : BuildState) (sourceId moduleName : String)
    (withinClass : Option String) (aliasToQualified : List (String × String))
    (c : ParsedCall) : BuildState :=
  let name := c.name
  if jsIncludes name '.' then
    let parts := jsSplit '.' name
    let base := parts.headD ""
    let methodName := parts.tail.getLastD ""
    if base = "self" || base = "cls" then
      let targetId? :=
        if jsTruthy withinClass then
          mapGet? st.methodByModuleClassAndName
            (moduleName ++ "::" ++ withinClass.getD "" ++ "::" ++ methodName)
        else none
      if jsTruthy targetId? then addEdge st sourceId "calls" (targetId?.getD "")
      else
        let extId := externalFunctionNodeId methodName
        let st := (upsertNode st
          { id := extId, label := methodName, type := "function",
            metadata := [("external", .bool true)] }).1
        addEdge st sourceId "uses" extId
    else
      let classTargetId? := mapGet? st.classByModuleAndName (moduleName ++ "::" ++ base)
      let methTargetId? :=
        if jsTruthy classTargetId? then
          mapGet? st.methodByModuleClassAndName
            (moduleName ++ "::" ++ base ++ "::" ++ methodName)
        else none
      if jsTruthy classTargetId? && jsTruthy methTargetId? then
        addEdge st sourceId "calls" (methTargetId?.getD "")
      else
        let qualified := (mapGet? aliasToQualified base).getD name
        let extId := externalFunctionNodeId qualified
        let st := (upsertNode st
          { id := extId, label := qualified, type := "function",
            metadata := [("external", .bool true)] }).1
        addEdge st sourceId "uses" extId
  else
    let sameModuleFn? := mapGet? st.topLevelFuncByModuleAndName (moduleName ++ "::" ++ name)
    if jsTruthy sameModuleFn? then addEdge st sourceId "calls" (sameModuleFn?.getD "")
    else
      let sameClassMethod? :=
        if jsTruthy withinClass then
          mapGet? st.methodByModuleClassAndName
            (moduleName ++ "::" ++ withinClass.getD "" ++ "::" ++ name)
        else none
      if jsTruthy sameClassMethod? then
        addEdge st sourceId "calls" (sameClassMethod?.getD "")
      else
        let qualified? := mapGet? aliasToQualified name
        if jsTruthy qualified? then
          let extId := externalFunctionNodeId (qualified?.getD "")
          let st := (upsertNode st
            { id := extId, label := qualified?.getD "", type := "function",
              metadata := [("external", .bool true)] }).1
          addEdge st sourceId "uses" extId
        else
          let extId := externalFunctionNodeId name
          let st := (upsertNode st
            { id := extId, label := name, type := "function",
              metadata := [("external", .bool true)] }).1
          addEdge st sourceId "uses" extId

/-- `linkCallsForFunction` of the builder. -/
def linkCallsForFunction (st : BuildState) (mod : ParsedModule) (fn : ParsedFunction)
    (withinClass : Option String) (aliasToQualified : List (String × String)) : BuildState :=
  let sourceId? :=
    if jsTruthy withinClass then
      mapGet? st.methodByModuleClassAndName
        (mod.moduleName ++ "::" ++ withinClass.getD "" ++ "::" ++ fn.name)
    else
      mapGet? st.topLevelFuncByModuleAndName (mod.moduleName ++ "::" ++ fn.name)
  if jsTruthy sourceId? then
    fn.calls.foldl
      (fun st c => resolveCall st (sourceId?.getD "") mod.moduleName withinClass
        aliasToQualified c) st
  else st

/-- `findClassByNameAnyModule` of the builder: the first index entry (in
insertion order) whose key ends in `::className`. -/
def findClassByNameAnyModule (st : BuildState) (className : String) : Option String :=
  (st.classByModuleAndName.find? (fun p => jsEndsWith p.1 ("::" ++ className))).map (fun p => p.2)

/-- `externalClass` of the builder: mint (and upsert) an external class
placeholder. -/
def externalClassUpsert (st : BuildState) (className : String) : BuildState × String :=
  let id := externalClassNodeId className
  ((upsertNode st
    { id := id, label := className, type := "class",
      metadata := [("external", .bool true)] }).1, id)

/-- One declared base class of the inheritance loop: resolve the base
(same module first, then any module, then an external placeholder) and
record `base inherits derived`. -/
def processInheritBase (moduleName derived : String) (st : BuildState) (base : String) :
    BuildState :=
  match mapGet? st.classByModuleAndName (moduleName ++ "::" ++ base) with
  | some bid => addEdge st bid "inherits" derived
  | none =>
    match findClassByNameAnyModule st base with
    | some bid => addEdge st bid "inherits" derived
    | none =>
      let r := externalClassUpsert st base
      addEdge r.1 r.2 "inherits" derived

/-- Inheritance edges of one class (the reference pass's final loop). -/
def processInheritanceClass (st : BuildState) (moduleName : String) (cls : ParsedClass) :
    BuildState :=
  let derivedId? := mapGet? st.classByModuleAndName (moduleName ++ "::" ++ cls.name)
  if jsTruthy derivedId? then
    cls.baseClasses.foldl (processInheritBase moduleName (derivedId?.getD "")) st
  else st

/-- The import, alias and call/use phases of the reference pass over one
module (everything before the inheritance loop). -/
def processModulePass2Calls (st : BuildState) (mod : ParsedModule) : BuildState :=
  let modNodeIdVal := moduleNodeId mod.moduleName
  let tables := importTablesOf mod
  let aliasToQualified := tables.1
  let importedModules := tables.2
  let st := importedModules.foldl (fun st mName =>
    let extModId := externalModuleNodeId mName
    let st := (upsertNode st
      { id := extModId, label := mName, type := "module",
        metadata := [("external", .bool true)] }).1
    addEdge st modNodeIdVal "imports" extModId) st
  let st := attachImportAliases st modNodeIdVal aliasToQualified
  let st := mod.functions.foldl
    (fun st fn => linkCallsForFunction st mod fn none aliasToQualified) st
  mod.classes.foldl (fun st cls =>
    cls.methods.foldl
      (fun st m => linkCallsForFunction st mod m (some cls.name) aliasToQualified) st) st

/-- Reference pass over one module (the builder's second `for` loop):
the import edges, alias metadata, call/use edges, inheritance edges. -/
def processModulePass2 (st : BuildState) (mod : ParsedModule) : BuildState :=
  mod.classes.foldl (fun st cls => processInheritanceClass st mod.moduleName cls)
    (processModulePass2Calls st mod)

/-- The builder state after the declaration pass. -/
def pass1State (modules : List ParsedModule) : BuildState :=
  modules.foldl processModulePass1 initState

/-- The builder state after both passes. -/
def buildState (modules : List ParsedModule) : BuildState :=
  modules.foldl processModulePass2 (pass1State modules)

/-- Edge materialisation: `key.split("|")` destructured into the first
three parts, the full key kept as the edge identifier, and the weight
stored in the metadata. -/
def materializeEdge (p : String × Nat) : CodeEdge :=
  let parts := jsSplit '|' p.1
  { id := p.1,
    source := parts.getD 0 "",
    target := parts.getD 2 "",
    relation := parts.getD 1 "",
    metadata := [("weight", MetaVal.nat p.2)] }

/-- JavaScript string `<`: lexicographic comparison of the character
sequences (code-unit order; all characters here are in the basic
plane, where code-unit and code-point order agree). -/
def charListLt : List Char → List Char → Bool
  | [], [] => false
  | [], _ :: _ => true
  | _ :: _, [] => false
  | a :: as, b :: bs =>
    if a.toNat < b.toNat then true
    else if b.toNat < a.toNat then false
    else charListLt as bs

/-- JavaScript `a < b` on strings. -/
def jsStrLt (a b : String) : Bool := charListLt a.data b.data

/-- The ascending-by-identifier comparison used by the final sorts
(the comparator `(a, b) => a.id < b.id ? -1 : a.id > b.id ? 1 : 0`). -/
def nodeLe (a b : CodeNode) : Bool := !(jsStrLt b.id a.id)

/-- The ascending-by-identifier comparison for edges. -/
def edgeLe (a b : CodeEdge) : Bool := !(jsStrLt b.id a.id)

/-- Insert into a sorted list (the model of the comparison sort). -/
def insertLe {α : Type} (le : α → α → Bool) (x : α) : List α → List α
  | [] => [x]
  | y :: ys => if le x y then x :: y :: ys else y :: insertLe le x ys

/-- The result of `Array.prototype.sort` with an ascending comparator:
on the duplicate-free identifier lists the builder sorts, every
comparison sort (in particular the engine's stable sort) produces this
unique sorted permutation. -/
def sortByLe {α : Type} (le : α → α → Bool) : List α → List α
  | [] => []
  | x :: xs => insertLe le x (sortByLe le xs)

/-- `buildKnowledgeGraphFromParsedModules`: both passes, edge
materialisation, and the deterministic sort of nodes and edges. -/
def buildKnowledgeGraphFromParsedModules (modules : List ParsedModule) : KnowledgeGraph :=
  let st := buildState modules
  let edges := st.edgeWeightByKey.map materializeEdge
  { nodes := sortByLe nodeLe (st.nodeById.map (fun p => p.2)),
    edges := sortByLe edgeLe edges }

/-- The whole pipeline: parse the uploaded files, then build the graph. -/
def pipelineGraph (files : List UploadedFile) (options : Option ParseOptions) :
    KnowledgeGraph :=
  buildKnowledgeGraphFromParsedModules (parsePythonFiles files options)

/-! ## Map and fold lemmas -/

theorem foldl_preserves {α σ : Type} {P : σ → Prop} (step : σ → α → σ) (l : List α)
    (h : ∀ s x, x ∈ l → P s → P (step s x)) :
    ∀ init, P init → P (l.foldl step init) := by
  induction l with
  | nil => intro init h0; simpa using h0
  | cons x l ih =>
    intro init h0
    simp only [List.foldl_cons]
    exact ih (fun s y hy => h s y (List.mem_cons_of_mem x hy)) _
      (h init x (List.mem_cons_self x l) h0)

theorem mem_mapSet {α : Type} {m : List (String × α)} {k : String} {v : α} {p : String × α}
    (hp : p ∈ mapSet m k v) : p ∈ m ∨ p = (k, v) := by
  unfold mapSet at hp
  split at hp
  · rcases List.mem_map.mp hp with ⟨q, hq, hqe⟩
    by_cases h : q.1 = k
    · right; rw [← hqe]; simp [h]
    · left; rw [← hqe]; simpa [h] using hq
  · rcases List.mem_append.mp hp with h | h
    · exact Or.inl h
    · right; simpa using h

theorem find?_map_set_self {α : Type} (m : List (String × α)) (k : String) (v : α)
    (h : mapHas m k = true) :
    List.find? (fun p => p.1 = k) (m.map (fun p => if p.1 = k then (k, v) else p)) =
      some (k, v) := by
  induction m with
  | nil => simp [mapHas] at h
  | cons q m ih =>
    by_cases hq : q.1 = k
    · simp [hq]
    · have hm : mapHas m k = true := by
        simp only [mapHas, List.any_cons] at h
        rcases Bool.or_eq_true_iff.mp h with h1 | h1
        · exact absurd (by simpa using h1) hq
        · simpa [mapHas] using h1
      simpa [hq] using ih hm

theorem mapGet?_set_self {α : Type} (m : List (String × α)) (k : String) (v : α) :
    mapGet? (mapSet m k v) k = some v := by
  unfold mapSet
  split
  · next h => simp [mapGet?, find?_map_set_self m k v h]
  · next h =>
    have hn : List.find? (fun p => p.1 = k) m = none := by
      rw [List.find?_eq_none]
      intro x hx hxk
      exact h (by simp only [mapHas]; exact List.any_eq_true.mpr ⟨x, hx, hxk⟩)
    simp [mapGet?, List.find?_append, hn]

theorem find?_map_set_ne {α : Type} (m : List (String × α)) (k k' : String) (v : α)
    (h : k' ≠ k) :
    List.find? (fun p => p.1 = k') (m.map (fun p => if p.1 = k then (k, v) else p)) =
      List.find? (fun p => p.1 = k') m := by
  induction m with
  | nil => simp
  | cons q m ih =>
    simp only [List.map_cons]
    by_cases hq : q.1 = k
    · rw [if_pos hq]
      rw [List.find?_cons_of_neg _ (by simpa using fun hh : k = k' => h hh.symm),
        List.find?_cons_of_neg _ (by rw [hq]; simpa using fun hh : k = k' => h hh.symm)]
      exact ih
    · rw [if_neg hq]
      by_cases hq' : q.1 = k'
      · rw [List.find?_cons_of_pos _ (by simpa using hq'),
          List.find?_cons_of_pos _ (by simpa using hq')]
      · rw [List.find?_cons_of_neg _ (by simpa using hq'),
          List.find?_cons_of_neg _ (by simpa using hq')]
        exact ih

theorem mapGet?_set_ne {α : Type} (m : List (String × α)) (k k' : String) (v : α)
    (h : k' ≠ k) : mapGet? (mapSet m k v) k' = mapGet? m k' := by
  unfold mapSet
  split
  · simp [mapGet?, find?_map_set_ne m k k' v h]
  · have : List.find? (fun p => p.1 = k') ([(k, v)] : List (String × α)) = none := by
      rw [List.find?_eq_none]
      intro x hx
      have hxe : x = (k, v) := by simpa using hx
      subst hxe
      simpa using fun hh : k = k' => h hh.symm
    simp [mapGet?, List.find?_append, this]

theorem mapGet?_mem {α : Type} {m : List (String × α)} {k : String} {v : α}
    (h : mapGet? m k = some v) : (k, v) ∈ m := by
  unfold mapGet? at h
  rcases Option.map_eq_some'.mp h with ⟨p, hp, hpv⟩
  have h1 : p.1 = k := by simpa using List.find?_some hp
  have h2 : p ∈ m := List.mem_of_find?_eq_some hp
  have : p = (k, v) := by
    cases p
    simp only at h1 hpv
    subst h1; subst hpv; rfl
  rwa [this] at h2

/-- Distinctness of map keys — the `Map` representation invariant. -/
def KeysDistinct {α : Type} (m : List (String × α)) : Prop :=
  m.Pairwise (fun p q => p.1 ≠ q.1)

theorem keysDistinct_mapSet {α : Type} (m : List (String × α)) (k : String) (v : α)
    (h : KeysDistinct m) : KeysDistinct (mapSet m k v) := by
  unfold mapSet
  split
  · unfold KeysDistinct at h ⊢
    rw [List.pairwise_map]
    refine h.imp_of_mem ?_
    intro p q _ _ hpq
    by_cases h1 : p.1 = k <;> by_cases h2 : q.1 = k <;> simp [h1, h2] at hpq ⊢ <;> tauto
  · next hhas =>
    unfold KeysDistinct at h ⊢
    rw [List.pairwise_append]
    refine ⟨h, by simp, ?_⟩
    intro p hp q hq
    have : q = (k, v) := by simpa using hq
    subst this
    intro hcon
    exact hhas (by simp only [mapHas]; exact List.any_eq_true.mpr ⟨p, hp, by simp [hcon]⟩)

/-! ## Projection lemmas for the builder's primitive operations -/

theorem upsertNode_edges (st : BuildState) (n : CodeNode) :
    (upsertNode st n).1.edgeWeightByKey = st.edgeWeightByKey := by
  unfold upsertNode; split <;> rfl

theorem upsertNode_topLevel (st : BuildState) (n : CodeNode) :
    (upsertNode st n).1.topLevelFuncByModuleAndName = st.topLevelFuncByModuleAndName := by
  unfold upsertNode; split <;> rfl

theorem upsertNode_classIdx (st : BuildState) (n : CodeNode) :
    (upsertNode st n).1.classByModuleAndName = st.classByModuleAndName := by
  unfold upsertNode; split <;> rfl

theorem upsertNode_methodIdx (st : BuildState) (n : CodeNode) :
    (upsertNode st n).1.methodByModuleClassAndName = st.methodByModuleClassAndName := by
  unfold upsertNode; split <;> rfl

theorem addEdge_nodeById (st : BuildState) (s r t : String) :
    (addEdge st s r t).nodeById = st.nodeById := rfl

theorem addEdge_topLevel (st : BuildState) (s r t : String) :
    (addEdge st s r t).topLevelFuncByModuleAndName = st.topLevelFuncByModuleAndName := rfl

theorem addEdge_classIdx (st : BuildState) (s r t : String) :
    (addEdge st s r t).classByModuleAndName = st.classByModuleAndName := rfl

theorem addEdge_methodIdx (st : BuildState) (s r t : String) :
    (addEdge st s r t).methodByModuleClassAndName = st.methodByModuleClassAndName := rfl

theorem addEdge_edges (st : BuildState) (s r t : String) :
    (addEdge st s r t).edgeWeightByKey =
      mapSet st.edgeWeightByKey (edgeKey s r t)
        ((mapGet? st.edgeWeightByKey (edgeKey s r t)).getD 0 + 1) := rfl

theorem attachImportAliases_edges (st : BuildState) (mid : String)
    (al : List (String × String)) :
    (attachImportAliases st mid al).edgeWeightByKey = st.edgeWeightByKey := by
  unfold attachImportAliases; split <;> rfl

theorem attachImportAliases_topLevel (st : BuildState) (mid : String)
    (al : List (String × String)) :
    (attachImportAliases st mid al).topLevelFuncByModuleAndName =
      st.topLevelFuncByModuleAndName := by
  unfold attachImportAliases; split <;> rfl

theorem attachImportAliases_classIdx (st : BuildState) (mid : String)
    (al : List (String × String)) :
    (attachImportAliases st mid al).classByModuleAndName = st.classByModuleAndName := by
  unfold attachImportAliases; split <;> rfl

theorem attachImportAliases_methodIdx (st : BuildState) (mid : String)
    (al : List (String × String)) :
    (attachImportAliases st mid al).methodByModuleClassAndName =
      st.methodByModuleClassAndName := by
  unfold attachImportAliases; split <;> rfl

/-! ## The master identifier invariant over builder states

`StateQ Q st` says: every node identifier stored in the state (as a map
key, a node's `id`, or an index value) satisfies `Q`, every edge key is
`source|relation|target` for `Q`-identifiers and one of the five
relations, and the maps hold no duplicate keys.  It is preserved by
every builder operation, provided every identifier the build mints
satisfies `Q`. -/

/-- Keys of the node map coincide with the stored node identifiers, and
are distinct. -/
def NodeMapWFm (m : List (String × CodeNode)) : Prop :=
  KeysDistinct m ∧ ∀ p ∈ m, p.1 = p.2.id

/-- All stored node identifiers satisfy `Q`. -/
def NodesQ (Q : String → Prop) (m : List (String × CodeNode)) : Prop :=
  ∀ p ∈ m, Q p.2.id

/-- All values of a resolution index satisfy `Q`. -/
def IdxQ (Q : String → Prop) (m : List (String × String)) : Prop :=
  ∀ p ∈ m, Q p.2

/-- The closed relation vocabulary. -/
def IsRelation (r : String) : Prop :=
  r = "defines" ∨ r = "imports" ∨ r = "calls" ∨ r = "inherits" ∨ r = "uses"

/-- Every edge key decomposes as `source|relation|target` with
`Q`-identifiers and a vocabulary relation. -/
def EdgesQ (Q : String → Prop) (m : List (String × Nat)) : Prop :=
  ∀ p ∈ m, ∃ s r t, p.1 = edgeKey s r t ∧ Q s ∧ Q t ∧ IsRelation r

/-- The full invariant over a builder state. -/
def StateQ (Q : String → Prop) (st : BuildState) : Prop :=
  NodesQ Q st.nodeById ∧
  IdxQ Q st.topLevelFuncByModuleAndName ∧
  IdxQ Q st.classByModuleAndName ∧
  IdxQ Q st.methodByModuleClassAndName ∧
  EdgesQ Q st.edgeWeightByKey ∧
  NodeMapWFm st.nodeById ∧
  KeysDistinct st.edgeWeightByKey

theorem stateQ_init (Q : String → Prop) : StateQ Q initState := by
  refine ⟨?_, ?_, ?_, ?_, ?_, ⟨?_, ?_⟩, ?_⟩ <;> simp [initState, NodesQ, IdxQ, EdgesQ,
    NodeMapWFm, KeysDistinct]

theorem stateQ_upsert {Q : String → Prop} {st : BuildState} {n : CodeNode}
    (h : StateQ Q st) (hn : Q n.id) : StateQ Q (upsertNode st n).1 := by
  obtain ⟨h1, h2, h3, h4, h5, ⟨h6a, h6b⟩, h7⟩ := h
  unfold upsertNode
  split
  · refine ⟨?_, h2, h3, h4, h5, ⟨keysDistinct_mapSet _ _ _ h6a, ?_⟩, h7⟩
    · intro p hp
      rcases mem_mapSet hp with hp | hp
      · exact h1 p hp
      · rw [hp]; exact hn
    · intro p hp
      rcases mem_mapSet hp with hp | hp
      · exact h6b p hp
      · rw [hp]
  · next existing hex =>
    have hmem : (n.id, existing) ∈ st.nodeById := mapGet?_mem hex
    have hid : existing.id = n.id := (h6b _ hmem).symm
    refine ⟨?_, h2, h3, h4, h5, ⟨keysDistinct_mapSet _ _ _ h6a, ?_⟩, h7⟩
    · intro p hp
      rcases mem_mapSet hp with hp | hp
      · exact h1 p hp
      · rw [hp]
        show Q (mergeNode existing n).id
        have : (mergeNode existing n).id = existing.id := rfl
        rw [this, hid]; exact hn
    · intro p hp
      rcases mem_mapSet hp with hp | hp
      · exact h6b p hp
      · rw [hp]
        show n.id = (mergeNode existing n).id
        have : (mergeNode existing n).id = existing.id := rfl
        rw [this, hid]

theorem stateQ_upsert_ret {Q : String → Prop} {st : BuildState} {n : CodeNode}
    (h : StateQ Q st) : (upsertNode st n).2.id = n.id := by
  obtain ⟨_, _, _, _, _, ⟨_, h6b⟩, _⟩ := h
  unfold upsertNode
  split
  · rfl
  · next existing hex =>
    have hmem : (n.id, existing) ∈ st.nodeById := mapGet?_mem hex
    exact (h6b _ hmem).symm

theorem stateQ_addEdge {Q : String → Prop} {st : BuildState} {s r t : String}
    (h : StateQ Q st) (hs : Q s) (ht : Q t) (hr : IsRelation r) :
    StateQ Q (addEdge st s r t) := by
  obtain ⟨h1, h2, h3, h4, h5, h6, h7⟩ := h
  refine ⟨h1, h2, h3, h4, ?_, h6, keysDistinct_mapSet _ _ _ h7⟩
  intro p hp
  rcases mem_mapSet hp with hp | hp
  · exact h5 p hp
  · exact ⟨s, r, t, by rw [hp], hs, ht, hr⟩

theorem stateQ_setTopLevel {Q : String → Prop} {st : BuildState} {k v : String}
    (h : StateQ Q st) (hv : Q v) :
    StateQ Q { st with topLevelFuncByModuleAndName := mapSet st.topLevelFuncByModuleAndName k v } := by
  obtain ⟨h1, h2, h3, h4, h5, h6, h7⟩ := h
  refine ⟨h1, ?_, h3, h4, h5, h6, h7⟩
  intro p hp
  rcases mem_mapSet hp with hp | hp
  · exact h2 p hp
  · rw [hp]; exact hv

theorem stateQ_setClassIdx {Q : String → Prop} {st : BuildState} {k v : String}
    (h : StateQ Q st) (hv : Q v) :
    StateQ Q { st with classByModuleAndName := mapSet st.classByModuleAndName k v } := by
  obtain ⟨h1, h2, h3, h4, h5, h6, h7⟩ := h
  refine ⟨h1, h2, ?_, h4, h5, h6, h7⟩
  intro p hp
  rcases mem_mapSet hp with hp | hp
  · exact h3 p hp
  · rw [hp]; exact hv

theorem stateQ_setMethodIdx {Q : String → Prop} {st : BuildState} {k v : String}
    (h : StateQ Q st) (hv : Q v) :
    StateQ Q { st with methodByModuleClassAndName := mapSet st.methodByModuleClassAndName k v } := by
  obtain ⟨h1, h2, h3, h4, h5, h6, h7⟩ := h
  refine ⟨h1, h2, h3, ?_, h5, h6, h7⟩
  intro p hp
  rcases mem_mapSet hp with hp | hp
  · exact h4 p hp
  · rw [hp]; exact hv

theorem stateQ_attach {Q : String → Prop} {st : BuildState} {mid : String}
    {al : List (String × String)} (h : StateQ Q st) :
    StateQ Q (attachImportAliases st mid al) := by
  obtain ⟨h1, h2, h3, h4, h5, ⟨h6a, h6b⟩, h7⟩ := h
  unfold attachImportAliases
  split
  · next modNode hmn =>
    have hmem : (mid, modNode) ∈ st.nodeById := mapGet?_mem hmn
    have hid : mid = modNode.id := h6b _ hmem
    refine ⟨?_, h2, h3, h4, h5, ⟨keysDistinct_mapSet _ _ _ h6a, ?_⟩, h7⟩
    · intro p hp
      rcases mem_mapSet hp with hp | hp
      · exact h1 p hp
      · rw [hp]
        exact h1 (mid, modNode) hmem
    · intro p hp
      rcases mem_mapSet hp with hp | hp
      · exact h6b p hp
      · rw [hp]; exact hid
  · exact ⟨h1, h2, h3, h4, h5, ⟨h6a, h6b⟩, h7⟩

theorem jsTruthy_some {o : Option String} (h : jsTruthy o = true) : o = some (o.getD "") := by
  cases o with
  | none => simp [jsTruthy] at h
  | some s => rfl

theorem idxQ_get {Q : String → Prop} {m : List (String × String)} {k v : String}
    (h : IdxQ Q m) (hv : mapGet? m k = some v) : Q v :=
  h _ (mapGet?_mem hv)

theorem isRelation_defines : IsRelation "defines" := Or.inl rfl
theorem isRelation_imports : IsRelation "imports" := Or.inr (Or.inl rfl)
theorem isRelation_calls : IsRelation "calls" := Or.inr (Or.inr (Or.inl rfl))
theorem isRelation_inherits : IsRelation "inherits" := Or.inr (Or.inr (Or.inr (Or.inl rfl)))
theorem isRelation_uses : IsRelation "uses" := Or.inr (Or.inr (Or.inr (Or.inr rfl)))

theorem truthy_if_lookup {P : Prop} [inst : Decidable P] {m : List (String × String)}
    {k : String} {Q : String → Prop} (hidx : IdxQ Q m)
    (h : jsTruthy (if P then mapGet? m k else none) = true) :
    Q ((if P then mapGet? m k else none).getD "") := by
  by_cases hp : P
  · simp only [if_pos hp] at h ⊢
    exact idxQ_get hidx (jsTruthy_some h)
  · simp only [if_neg hp] at h
    simp [jsTruthy] at h

theorem stateQ_resolveCall {Q : String → Prop} {st : BuildState}
    {sourceId moduleName : String} {withinClass : Option String}
    {aliasToQualified : List (String × String)} {c : ParsedCall}
    (h : StateQ Q st) (hsrc : Q sourceId)
    (halias : ∀ p ∈ aliasToQualified, Q (externalFunctionNodeId p.2))
    (hname : Q (externalFunctionNodeId c.name))
    (hmeth : Q (externalFunctionNodeId ((jsSplit '.' c.name).tail.getLastD ""))) :
    StateQ Q (resolveCall st sourceId moduleName withinClass aliasToQualified c) := by
  have h4 := h.2.2.2.1
  have h3 := h.2.2.1
  have h2 := h.2.1
  unfold resolveCall
  by_cases hdot : jsIncludes c.name '.' = true
  · simp only [hdot, if_pos]
    by_cases hself : ((jsSplit '.' c.name).headD "" = "self" ||
        (jsSplit '.' c.name).headD "" = "cls") = true
    · simp only [hself, if_pos]
      set tgt := (if jsTruthy withinClass = true then
        mapGet? st.methodByModuleClassAndName
          (moduleName ++ "::" ++ withinClass.getD "" ++ "::" ++
            (jsSplit '.' c.name).tail.getLastD "")
        else none) with htgt
      by_cases htr : jsTruthy tgt = true
      · simp only [htr, if_pos]
        refine stateQ_addEdge h hsrc ?_ isRelation_calls
        rw [htgt]
        exact truthy_if_lookup h4 (htgt ▸ htr)
      · simp only [htr]
        refine stateQ_addEdge (stateQ_upsert h hmeth) hsrc hmeth isRelation_uses
    · simp only [hself]
      set clsTgt := mapGet? st.classByModuleAndName
        (moduleName ++ "::" ++ (jsSplit '.' c.name).headD "") with hcls
      set methTgt := (if jsTruthy clsTgt = true then
        mapGet? st.methodByModuleClassAndName
          (moduleName ++ "::" ++ (jsSplit '.' c.name).headD "" ++ "::" ++
            (jsSplit '.' c.name).tail.getLastD "")
        else none) with hmt
      by_cases hboth : (jsTruthy clsTgt && jsTruthy methTgt) = true
      · simp only [hboth, if_pos]
        refine stateQ_addEdge h hsrc ?_ isRelation_calls
        have h2' := (Bool.and_eq_true _ _).mp hboth
        rw [hmt]
        exact truthy_if_lookup h4 (hmt ▸ h2'.2)
      · simp only [hboth]
        have hq : Q (externalFunctionNodeId
            ((mapGet? aliasToQualified ((jsSplit '.' c.name).headD "")).getD c.name)) := by
          cases hao : mapGet? aliasToQualified ((jsSplit '.' c.name).headD "") with
          | none => simpa [hao] using hname
          | some v =>
            have := halias _ (mapGet?_mem hao)
            simpa [hao] using this
        exact stateQ_addEdge (stateQ_upsert h hq) hsrc hq isRelation_uses
  · simp only [hdot]
    set fnTgt := mapGet? st.topLevelFuncByModuleAndName (moduleName ++ "::" ++ c.name)
      with hfn
    by_cases hft : jsTruthy fnTgt = true
    · simp only [hft, if_pos]
      refine stateQ_addEdge h hsrc ?_ isRelation_calls
      have hsome := jsTruthy_some hft
      rw [hfn] at hsome
      exact idxQ_get h2 hsome
    · simp only [hft]
      set mTgt := (if jsTruthy withinClass = true then
        mapGet? st.methodByModuleClassAndName
          (moduleName ++ "::" ++ withinClass.getD "" ++ "::" ++ c.name)
        else none) with hmt
      by_cases hmtr : jsTruthy mTgt = true
      · simp only [hmtr, if_pos]
        refine stateQ_addEdge h hsrc ?_ isRelation_calls
        rw [hmt]
        exact truthy_if_lookup h4 (hmt ▸ hmtr)
      · simp only [hmtr]
        set alTgt := mapGet? aliasToQualified c.name with hal
        by_cases hat : jsTruthy alTgt = true
        · simp only [hat, if_pos]
          have hsome := jsTruthy_some hat
          rw [hal] at hsome
          have hq : Q (externalFunctionNodeId (alTgt.getD "")) := by
            have := halias _ (mapGet?_mem hsome)
            exact this
          exact stateQ_addEdge (stateQ_upsert h hq) hsrc hq isRelation_uses
        · simp only [hat]
          exact stateQ_addEdge (stateQ_upsert h hname) hsrc hname isRelation_uses

theorem stateQ_processMethodPass1 {Q : String → Prop} {mn fp cn cid : String}
    {st : BuildState} {m : ParsedFunction} (h : StateQ Q st) (hcid : Q cid)
    (hfn : Q (functionNodeId mn (cn ++ "." ++ m.name) m.lineStart)) :
    StateQ Q (processMethodPass1 mn fp cn cid st m) := by
  unfold processMethodPass1
  exact stateQ_addEdge (stateQ_setMethodIdx (stateQ_upsert h hfn) hfn) hcid hfn
    isRelation_defines

theorem stateQ_processClassPass1 {Q : String → Prop} {mn fp mid : String}
    {st : BuildState} {cls : ParsedClass} (h : StateQ Q st) (hmid : Q mid)
    (hcls : Q (classNodeId mn cls.name cls.lineStart))
    (hms : ∀ m ∈ cls.methods, Q (functionNodeId mn (cls.name ++ "." ++ m.name) m.lineStart)) :
    StateQ Q (processClassPass1 mn fp mid st cls) := by
  unfold processClassPass1
  refine foldl_preserves _ _ ?_ _ ?_
  · intro s x hx hs
    exact stateQ_processMethodPass1 hs hcls (hms x hx)
  · exact stateQ_addEdge (stateQ_setClassIdx (stateQ_upsert h hcls) hcls) hmid hcls
      isRelation_defines

theorem stateQ_processFunctionPass1 {Q : String → Prop} {mn fp mid : String}
    {st : BuildState} {fn : ParsedFunction} (h : StateQ Q st) (hmid : Q mid)
    (hfn : Q (functionNodeId mn fn.name fn.lineStart)) :
    StateQ Q (processFunctionPass1 mn fp mid st fn) := by
  unfold processFunctionPass1
  exact stateQ_addEdge (stateQ_setTopLevel (stateQ_upsert h hfn) hfn) hmid hfn
    isRelation_defines

theorem stateQ_processVariablePass1 {Q : String → Prop} {mn fp mid : String}
    {st : BuildState} {v : ParsedVariable} (h : StateQ Q st) (hmid : Q mid)
    (hv : Q (variableNodeId mn v.name v.line)) :
    StateQ Q (processVariablePass1 mn fp mid st v) := by
  unfold processVariablePass1
  exact stateQ_addEdge (stateQ_upsert h hv) hmid hv isRelation_defines

theorem stateQ_processModulePass1 {Q : String → Prop} {st : BuildState}
    {mod : ParsedModule} (h : StateQ Q st)
    (hmod : Q (moduleNodeId mod.moduleName))
    (hcls : ∀ cls ∈ mod.classes, Q (classNodeId mod.moduleName cls.name cls.lineStart))
    (hms : ∀ cls ∈ mod.classes, ∀ m ∈ cls.methods,
      Q (functionNodeId mod.moduleName (cls.name ++ "." ++ m.name) m.lineStart))
    (hfns : ∀ fn ∈ mod.functions, Q (functionNodeId mod.moduleName fn.name fn.lineStart))
    (hvars : ∀ v ∈ mod.vars, Q (variableNodeId mod.moduleName v.name v.line)) :
    StateQ Q (processModulePass1 st mod) := by
  unfold processModulePass1
  have h1 : StateQ Q (ensureModuleNode st mod).1 := stateQ_upsert h hmod
  have hret : (ensureModuleNode st mod).2.id = moduleNodeId mod.moduleName :=
    stateQ_upsert_ret h
  have hmid : Q ((ensureModuleNode st mod).2.id) := by rw [hret]; exact hmod
  refine foldl_preserves _ _ ?_ _ (foldl_preserves _ _ ?_ _ (foldl_preserves _ _ ?_ _ h1))
  · intro s v hv hs
    exact stateQ_processVariablePass1 hs hmid (hvars v hv)
  · intro s fn hf hs
    exact stateQ_processFunctionPass1 hs hmid (hfns fn hf)
  · intro s cls hc hs
    exact stateQ_processClassPass1 hs hmid (hcls cls hc) (hms cls hc)

theorem stateQ_linkCalls {Q : String → Prop} {st : BuildState} {mod : ParsedModule}
    {fn : ParsedFunction} {withinClass : Option String}
    {aliasToQualified : List (String × String)} (h : StateQ Q st)
    (halias : ∀ p ∈ aliasToQualified, Q (externalFunctionNodeId p.2))
    (hcalls : ∀ c ∈ fn.calls, Q (externalFunctionNodeId c.name) ∧
      Q (externalFunctionNodeId ((jsSplit '.' c.name).tail.getLastD ""))) :
    StateQ Q (linkCallsForFunction st mod fn withinClass aliasToQualified) := by
  unfold linkCallsForFunction
  set src? := (if jsTruthy withinClass = true then
    mapGet? st.methodByModuleClassAndName
      (mod.moduleName ++ "::" ++ withinClass.getD "" ++ "::" ++ fn.name)
    else mapGet? st.topLevelFuncByModuleAndName (mod.moduleName ++ "::" ++ fn.name))
    with hsrc
  by_cases hs : jsTruthy src? = true
  · simp only [hs, if_pos]
    have hsrcQ : Q (src?.getD "") := by
      by_cases hwc : jsTruthy withinClass = true
      · have hs' := hs
        rw [hsrc, if_pos hwc] at hs'
        have := idxQ_get h.2.2.2.1 (jsTruthy_some hs')
        rw [hsrc, if_pos hwc]
        exact this
      · have hs' := hs
        rw [hsrc, if_neg hwc] at hs'
        have := idxQ_get h.2.1 (jsTruthy_some hs')
        rw [hsrc, if_neg hwc]
        exact this
    refine foldl_preserves _ _ ?_ _ h
    intro s c hc hs'
    exact stateQ_resolveCall hs' hsrcQ halias (hcalls c hc).1 (hcalls c hc).2
  · simp only [hs]
    exact h

theorem stateQ_processInheritanceClass {Q : String → Prop} {st : BuildState}
    {mn : String} {cls : ParsedClass} (h : StateQ Q st)
    (hextc : ∀ b ∈ cls.baseClasses, Q (externalClassNodeId b)) :
    StateQ Q (processInheritanceClass st mn cls) := by
  unfold processInheritanceClass
  set dvd := mapGet? st.classByModuleAndName (mn ++ "::" ++ cls.name) with hd
  by_cases hdt : jsTruthy dvd = true
  · simp only [hdt, if_pos]
    have hdQ : Q (dvd.getD "") := by
      have hsome := jsTruthy_some hdt
      rw [hd] at hsome
      exact idxQ_get h.2.2.1 hsome
    refine foldl_preserves _ _ ?_ _ h
    intro s base hb hs
    unfold processInheritBase
    cases hlk : mapGet? s.classByModuleAndName (mn ++ "::" ++ base) with
    | some bid =>
      simp only [hlk]
      exact stateQ_addEdge hs (idxQ_get hs.2.2.1 hlk) hdQ isRelation_inherits
    | none =>
      simp only [hlk]
      cases hfc : findClassByNameAnyModule s base with
      | some bid =>
        simp only [hfc]
        have hq : Q bid := by
          unfold findClassByNameAnyModule at hfc
          rcases Option.map_eq_some'.mp hfc with ⟨p, hp, hpv⟩
          have := hs.2.2.1 _ (List.mem_of_find?_eq_some hp)
          rw [← hpv]; exact this
        exact stateQ_addEdge hs hq hdQ isRelation_inherits
      | none =>
        simp only [hfc]
        exact stateQ_addEdge (stateQ_upsert hs (hextc base hb)) (hextc base hb) hdQ
          isRelation_inherits
  · simp only [hdt]
    exact h

theorem stateQ_processModulePass2 {Q : String → Prop} {st : BuildState}
    {mod : ParsedModule} (h : StateQ Q st)
    (hmod : Q (moduleNodeId mod.moduleName))
    (hextm : ∀ s ∈ (importTablesOf mod).2, Q (externalModuleNodeId s))
    (halias : ∀ p ∈ (importTablesOf mod).1, Q (externalFunctionNodeId p.2))
    (hcallsF : ∀ fn ∈ mod.functions, ∀ c ∈ fn.calls,
      Q (externalFunctionNodeId c.name) ∧
      Q (externalFunctionNodeId ((jsSplit '.' c.name).tail.getLastD "")))
    (hcallsM : ∀ cls ∈ mod.classes, ∀ m ∈ cls.methods, ∀ c ∈ m.calls,
      Q (externalFunctionNodeId c.name) ∧
      Q (externalFunctionNodeId ((jsSplit '.' c.name).tail.getLastD "")))
    (hextc : ∀ cls ∈ mod.classes, ∀ b ∈ cls.baseClasses, Q (externalClassNodeId b)) :
    StateQ Q (processModulePass2 st mod) := by
  unfold processModulePass2 processModulePass2Calls
  refine foldl_preserves _ _ ?_ _ (foldl_preserves _ _ ?_ _ (foldl_preserves _ _ ?_ _
    (stateQ_attach (foldl_preserves _ _ ?_ _ h))))
  · intro s cls hc hs
    exact stateQ_processInheritanceClass hs (hextc cls hc)
  · intro s cls hc hs
    refine foldl_preserves _ _ ?_ _ hs
    intro s' m hm hs'
    exact stateQ_linkCalls hs' halias (hcallsM cls hc m hm)
  · intro s fn hf hs
    exact stateQ_linkCalls hs halias (hcallsF fn hf)
  · intro s mName hm hs
    exact stateQ_addEdge (stateQ_upsert hs (hextm _ hm)) hmod (hextm _ hm)
      isRelation_imports

/-- Hypotheses under which every identifier the build can mint satisfies
`Q`: one obligation per identifier-creation site of the builder. -/
structure IdHyps (modules : List ParsedModule) (Q : String → Prop) : Prop where
  moduleOk : ∀ mod ∈ modules, Q (moduleNodeId mod.moduleName)
  classOk : ∀ mod ∈ modules, ∀ cls ∈ mod.classes,
    Q (classNodeId mod.moduleName cls.name cls.lineStart)
  methodOk : ∀ mod ∈ modules, ∀ cls ∈ mod.classes, ∀ m ∈ cls.methods,
    Q (functionNodeId mod.moduleName (cls.name ++ "." ++ m.name) m.lineStart)
  funcOk : ∀ mod ∈ modules, ∀ fn ∈ mod.functions,
    Q (functionNodeId mod.moduleName fn.name fn.lineStart)
  varOk : ∀ mod ∈ modules, ∀ v ∈ mod.vars,
    Q (variableNodeId mod.moduleName v.name v.line)
  extModuleOk : ∀ mod ∈ modules, ∀ s ∈ (importTablesOf mod).2,
    Q (externalModuleNodeId s)
  aliasOk : ∀ mod ∈ modules, ∀ p ∈ (importTablesOf mod).1,
    Q (externalFunctionNodeId p.2)
  callFnOk : ∀ mod ∈ modules, ∀ fn ∈ mod.functions, ∀ c ∈ fn.calls,
    Q (externalFunctionNodeId c.name) ∧
    Q (externalFunctionNodeId ((jsSplit '.' c.name).tail.getLastD ""))
  callMethodOk : ∀ mod ∈ modules, ∀ cls ∈ mod.classes, ∀ m ∈ cls.methods, ∀ c ∈ m.calls,
    Q (externalFunctionNodeId c.name) ∧
    Q (externalFunctionNodeId ((jsSplit '.' c.name).tail.getLastD ""))
  extClassOk : ∀ mod ∈ modules, ∀ cls ∈ mod.classes, ∀ b ∈ cls.baseClasses,
    Q (externalClassNodeId b)

/-- Master invariant theorem: under the per-site obligations, the final
builder state satisfies the full identifier invariant. -/
theorem buildState_stateQ (modules : List ParsedModule) (Q : String → Prop)
    (h : IdHyps modules Q) : StateQ Q (buildState modules) := by
  unfold buildState pass1State
  refine foldl_preserves _ _ ?_ _ (foldl_preserves _ _ ?_ _ (stateQ_init Q))
  · intro s mod hm hs
    exact stateQ_processModulePass2 hs (h.moduleOk mod hm) (h.extModuleOk mod hm)
      (h.aliasOk mod hm) (h.callFnOk mod hm) (h.callMethodOk mod hm) (h.extClassOk mod hm)
  · intro s mod hm hs
    exact stateQ_processModulePass1 hs (h.moduleOk mod hm) (h.classOk mod hm)
      (h.methodOk mod hm) (h.funcOk mod hm) (h.varOk mod hm)

/-! ## Sorting lemmas -/

theorem insertLe_perm {α : Type} (le : α → α → Bool) (x : α) :
    ∀ l : List α, (insertLe le x l).Perm (x :: l) := by
  intro l
  induction l with
  | nil => simp [insertLe]
  | cons y ys ih =>
    unfold insertLe
    by_cases h : le x y = true
    · simp [h]
    · simp only [h]
      exact List.Perm.trans (List.Perm.cons y ih) (List.Perm.swap x y ys)

theorem sortByLe_perm {α : Type} (le : α → α → Bool) :
    ∀ l : List α, (sortByLe le l).Perm l := by
  intro l
  induction l with
  | nil => simp [sortByLe]
  | cons x xs ih =>
    unfold sortByLe
    exact List.Perm.trans (insertLe_perm le x (sortByLe le xs)) (List.Perm.cons x ih)

theorem mem_sortByLe {α : Type} {le : α → α → Bool} {l : List α} {a : α}
    (h : a ∈ sortByLe le l) : a ∈ l :=
  (sortByLe_perm le l).mem_iff.mp h

/-! ## C1 — determinism of the pipeline -/

/-- C1: for every fixed ordered list of input files, two independent
invocations of the pipeline (`parsePythonFiles` followed by
`buildKnowledgeGraphFromParsedModules`) produce identical graphs — the
same node list and the same edge list, element for element.  In this
embedding both stages are pure functions of the input (the JavaScript
`Map`/`Set`/object iteration orders they rely on are fixed by the
language specification and modelled by insertion-ordered lists), so the
two invocations are definitionally equal. -/
theorem c1_pipeline_deterministic :
    ∀ (files : List UploadedFile) (options : Option ParseOptions),
      pipelineGraph files options = pipelineGraph files options :=
  fun _ _ => rfl

/-! ## C2 — the node identifier scheme -/

/-- Every identifier a built graph can contain: the five first-class
identifier templates `module:kind:name:line` (a method's name component
being `Class.method` and a module node's line being `1`), or one of the
three synthesized external placeholder templates `external:kind:name:0`,
instantiated at entities of the input. -/
def IdForm (modules : List ParsedModule) (id : String) : Prop :=
  (∃ mod ∈ modules, id = moduleNodeId mod.moduleName) ∨
  (∃ mod ∈ modules, ∃ cls ∈ mod.classes,
    id = classNodeId mod.moduleName cls.name cls.lineStart) ∨
  (∃ mod ∈ modules, ∃ cls ∈ mod.classes, ∃ m ∈ cls.methods,
    id = functionNodeId mod.moduleName (cls.name ++ "." ++ m.name) m.lineStart) ∨
  (∃ mod ∈ modules, ∃ fn ∈ mod.functions,
    id = functionNodeId mod.moduleName fn.name fn.lineStart) ∨
  (∃ mod ∈ modules, ∃ v ∈ mod.vars,
    id = variableNodeId mod.moduleName v.name v.line) ∨
  (∃ s, id = externalModuleNodeId s) ∨
  (∃ s, id = externalFunctionNodeId s) ∨
  (∃ s, id = externalClassNodeId s)

theorem idHyps_idForm (modules : List ParsedModule) : IdHyps modules (IdForm modules) where
  moduleOk := fun mod hm => Or.inl ⟨mod, hm, rfl⟩
  classOk := fun mod hm cls hc => Or.inr (Or.inl ⟨mod, hm, cls, hc, rfl⟩)
  methodOk := fun mod hm cls hc m hmm => Or.inr (Or.inr (Or.inl ⟨mod, hm, cls, hc, m, hmm, rfl⟩))
  funcOk := fun mod hm fn hf => Or.inr (Or.inr (Or.inr (Or.inl ⟨mod, hm, fn, hf, rfl⟩)))
  varOk := fun mod hm v hv =>
    Or.inr (Or.inr (Or.inr (Or.inr (Or.inl ⟨mod, hm, v, hv, rfl⟩))))
  extModuleOk := fun _ _ s _ =>
    Or.inr (Or.inr (Or.inr (Or.inr (Or.inr (Or.inl ⟨s, rfl⟩)))))
  aliasOk := fun _ _ p _ =>
    Or.inr (Or.inr (Or.inr (Or.inr (Or.inr (Or.inr (Or.inl ⟨p.2, rfl⟩))))))
  callFnOk := fun _ _ _ _ c _ =>
    ⟨Or.inr (Or.inr (Or.inr (Or.inr (Or.inr (Or.inr (Or.inl ⟨c.name, rfl⟩)))))),
     Or.inr (Or.inr (Or.inr (Or.inr (Or.inr (Or.inr (Or.inl ⟨_, rfl⟩))))))⟩
  callMethodOk := fun _ _ _ _ _ _ c _ =>
    ⟨Or.inr (Or.inr (Or.inr (Or.inr (Or.inr (Or.inr (Or.inl ⟨c.name, rfl⟩)))))),
     Or.inr (Or.inr (Or.inr (Or.inr (Or.inr (Or.inr (Or.inl ⟨_, rfl⟩))))))⟩
  extClassOk := fun _ _ _ _ b _ =>
    Or.inr (Or.inr (Or.inr (Or.inr (Or.inr (Or.inr (Or.inr ⟨b, rfl⟩))))))

/-- C2: in every graph produced by
`buildKnowledgeGraphFromParsedModules`, the identifier of each node is
computed by one of the builder's deterministic identifier functions:
`module:module:module:1` for module nodes, `module:kind:name:line` for
classes, functions (with `Class.method` as a method's name component)
and variables — all instantiated at declarations of the input — or
`external:kind:name:0` for the synthesized external placeholders. -/
theorem c2_node_identifier_scheme (modules : List ParsedModule) (n : CodeNode)
    (hn : n ∈ (buildKnowledgeGraphFromParsedModules modules).nodes) :
    IdForm modules n.id := by
  have hq := buildState_stateQ modules (IdForm modules) (idHyps_idForm modules)
  unfold buildKnowledgeGraphFromParsedModules at hn
  have hmem := mem_sortByLe hn
  rcases List.mem_map.mp hmem with ⟨p, hp, hpe⟩
  rw [← hpe]
  exact hq.1 p hp

/-- Witness for C2: the first node of the graph of a one-variable file. -/
theorem c2_node_identifier_scheme_witness :
    IdForm (parsePythonFiles [{ name := "w.py", content := "x = 1\n", path := none }] none)
      (((buildKnowledgeGraphFromParsedModules
        (parsePythonFiles [{ name := "w.py", content := "x = 1\n", path := none }] none)).nodes.headD
          default).id) :=
  c2_node_identifier_scheme _ _ (by decide)

/-! ## C5 — first-seen-wins node merge -/

theorem mapGet?_cons {α : Type} (k k' : String) (v : α) (m : List (String × α)) :
    mapGet? ((k, v) :: m) k' = if k = k' then some v else mapGet? m k' := by
  by_cases h : k = k'
  · simp [mapGet?, List.find?, h]
  · simp [mapGet?, List.find?, h]

theorem lookup_spreadMerge (a b : List (String × MetaVal)) (hb : KeysDistinct b)
    (k : String) :
    mapGet? (spreadMerge a b) k = jsNullish (mapGet? b k) (mapGet? a k) := by
  induction b generalizing a with
  | nil => simp [spreadMerge, jsNullish, mapGet?]
  | cons x b' ih =>
    obtain ⟨hx, hb'⟩ := List.pairwise_cons.mp hb
    have hstep : spreadMerge a (x :: b') = spreadMerge (mapSet a x.1 x.2) b' := rfl
    rw [hstep, ih _ hb']
    by_cases hk : x.1 = k
    · have hb'none : mapGet? b' k = none := by
        unfold mapGet?
        rw [List.find?_eq_none.mpr]
        · rfl
        · intro q hq
          simp only [decide_eq_true_eq]
          rw [← hk]
          exact (hx q hq).symm
      have hcons : mapGet? (x :: b') k = some x.2 := by
        cases x
        rw [mapGet?_cons]
        simp only at hk
        rw [if_pos hk]
      rw [hb'none, hcons, ← hk, mapGet?_set_self]
      simp [jsNullish]
    · have hcons : mapGet? (x :: b') k = mapGet? b' k := by
        cases x
        rw [mapGet?_cons]
        simp only at hk
        rw [if_neg hk]
      rw [hcons, mapGet?_set_ne _ _ _ _ (fun hh => hk hh.symm)]

theorem idHyps_trivial (modules : List ParsedModule) :
    IdHyps modules (fun _ => True) where
  moduleOk := fun _ _ => trivial
  classOk := fun _ _ _ _ => trivial
  methodOk := fun _ _ _ _ _ _ => trivial
  funcOk := fun _ _ _ _ => trivial
  varOk := fun _ _ _ _ => trivial
  extModuleOk := fun _ _ _ _ => trivial
  aliasOk := fun _ _ _ _ => trivial
  callFnOk := fun _ _ _ _ _ _ => ⟨trivial, trivial⟩
  callMethodOk := fun _ _ _ _ _ _ _ _ => ⟨trivial, trivial⟩
  extClassOk := fun _ _ _ _ _ _ => trivial

/-- C5: when a node is upserted onto an existing node with the same
identifier, the build keeps exactly one node (all node identifiers of
every built graph are pairwise distinct), merged first-seen-wins: every
scalar field keeps the existing value whenever it is non-empty
(`||` for the string fields, `??` for the line), and the metadata map is
merged key-wise with the existing entry taking precedence on every key
conflict, so a later file never overwrites metadata contributed by an
earlier one. -/
theorem c5_node_merge_first_seen_wins (modules : List ParsedModule) (st : BuildState)
    (n existing : CodeNode) (hget : mapGet? st.nodeById n.id = some existing)
    (hkd : KeysDistinct existing.metadata) :
    ((buildKnowledgeGraphFromParsedModules modules).nodes.Pairwise
      (fun a b => a.id ≠ b.id)) ∧
    (upsertNode st n).1.nodeById = mapSet st.nodeById n.id (mergeNode existing n) ∧
    (upsertNode st n).2 = mergeNode existing n ∧
    (existing.label ≠ "" → (mergeNode existing n).label = existing.label) ∧
    (existing.label = "" → (mergeNode existing n).label = n.label) ∧
    (existing.type ≠ "" → (mergeNode existing n).type = existing.type) ∧
    (∀ s, existing.filePath = some s → s ≠ "" →
      (mergeNode existing n).filePath = some s) ∧
    (∀ ln, existing.line = some ln → (mergeNode existing n).line = some ln) ∧
    (∀ k, mapGet? (mergeNode existing n).metadata k =
      jsNullish (mapGet? existing.metadata k) (mapGet? n.metadata k)) := by
  refine ⟨?_, ?_, ?_, ?_, ?_, ?_, ?_, ?_, ?_⟩
  · have hq := buildState_stateQ modules (fun _ => True) (idHyps_trivial modules)
    obtain ⟨hdk, hid⟩ := hq.2.2.2.2.2.1
    unfold buildKnowledgeGraphFromParsedModules
    have hperm := sortByLe_perm nodeLe ((buildState modules).nodeById.map (fun p => p.2))
    rw [(hperm.pairwise_iff (fun h => h.symm))]
    rw [List.pairwise_map]
    refine hdk.imp_of_mem ?_
    intro p q hp hq' hne
    rw [← hid p hp, ← hid q hq']
    exact hne
  · simp only [upsertNode, hget]
  · simp only [upsertNode, hget]
  · intro h; simp [mergeNode, jsOrStr, h]
  · intro h; simp [mergeNode, jsOrStr, h]
  · intro h; simp [mergeNode, jsOrStr, h]
  · intro s hs hne; simp [mergeNode, jsOrOptStr, hs, hne]
  · intro ln hln; simp [mergeNode, jsNullish, hln]
  · intro k
    have : (mergeNode existing n).metadata = spreadMerge n.metadata existing.metadata := rfl
    rw [this]
    exact lookup_spreadMerge n.metadata existing.metadata hkd k

/-- A concrete stored node for the C5 witness. -/
def c5ExistingNode : CodeNode :=
  { id := "i", label := "a", type := "t", filePath := some "p", line := some 3,
    metadata := [("m1", MetaVal.str "v1")] }

/-- A concrete colliding node for the C5 witness. -/
def c5NewNode : CodeNode :=
  { id := "i", label := "b", type := "u",
    metadata := [("m1", MetaVal.str "v2"), ("m2", MetaVal.str "w")] }

/-- A concrete builder state holding `c5ExistingNode`. -/
def c5State : BuildState :=
  { initState with nodeById := [("i", c5ExistingNode)] }

/-- Witness for C5 at a concrete state: one stored node and a colliding
upsert. -/
theorem c5_node_merge_first_seen_wins_witness :
    (((buildKnowledgeGraphFromParsedModules
        (parsePythonFiles [] none)).nodes.Pairwise (fun a b => a.id ≠ b.id)) ∧
    (upsertNode c5State c5NewNode).1.nodeById =
      mapSet c5State.nodeById c5NewNode.id (mergeNode c5ExistingNode c5NewNode) ∧
    (upsertNode c5State c5NewNode).2 = mergeNode c5ExistingNode c5NewNode ∧
    (c5ExistingNode.label ≠ "" →
      (mergeNode c5ExistingNode c5NewNode).label = c5ExistingNode.label) ∧
    (c5ExistingNode.label = "" →
      (mergeNode c5ExistingNode c5NewNode).label = c5NewNode.label) ∧
    (c5ExistingNode.type ≠ "" →
      (mergeNode c5ExistingNode c5NewNode).type = c5ExistingNode.type) ∧
    (∀ s, c5ExistingNode.filePath = some s → s ≠ "" →
      (mergeNode c5ExistingNode c5NewNode).filePath = some s) ∧
    (∀ ln, c5ExistingNode.line = some ln →
      (mergeNode c5ExistingNode c5NewNode).line = some ln) ∧
    (∀ k, mapGet? (mergeNode c5ExistingNode c5NewNode).metadata k =
      jsNullish (mapGet? c5ExistingNode.metadata k) (mapGet? c5NewNode.metadata k))) :=
  c5_node_merge_first_seen_wins (parsePythonFiles [] none) c5State c5NewNode
    c5ExistingNode (by decide) (by simp [c5ExistingNode, KeysDistinct])

/-! ## C6 and C7 — call-site resolution precedence -/

/-- One `addEdge` step on the edge-weight map: bump the counter of a
key. -/
def bumpKey (m : List (String × Nat)) (k : String) : List (String × Nat) :=
  mapSet m k ((mapGet? m k).getD 0 + 1)

theorem upsert_get_isSome (st : BuildState) (n : CodeNode) :
    (mapGet? (upsertNode st n).1.nodeById n.id).isSome = true := by
  unfold upsertNode
  split
  · simp [mapGet?_set_self]
  · simp [mapGet?_set_self]

/-- C6: for a call site whose callee token is a bare (undotted) name,
the resolver applies this precedence, first match winning: a same-module
top-level function of that name (`calls` edge to it); else, inside a
class, a same-class method of that name (`calls` edge to it); else a
known import alias (`uses` edge to the external function placeholder
keyed by the alias's fully qualified target); else a `uses` edge to the
external function placeholder keyed by the bare name itself.  The
truthiness hypotheses say that the resolution indexes and the alias
table hold no empty-string values, which is true of every state the
builder reaches (values are generated identifiers and qualified
names). -/
theorem c6_bare_call_resolution (st : BuildState) (sourceId moduleName : String)
    (withinClass : Option String) (aliasToQualified : List (String × String))
    (c : ParsedCall)
    (hbare : jsIncludes c.name '.' = false)
    (hfv : ∀ p ∈ st.topLevelFuncByModuleAndName, p.2 ≠ "")
    (hmv : ∀ p ∈ st.methodByModuleClassAndName, p.2 ≠ "")
    (hav : ∀ p ∈ aliasToQualified, p.2 ≠ "") :
    (∀ fnId, mapGet? st.topLevelFuncByModuleAndName (moduleName ++ "::" ++ c.name) =
        some fnId →
      (resolveCall st sourceId moduleName withinClass aliasToQualified c).edgeWeightByKey =
        bumpKey st.edgeWeightByKey (edgeKey sourceId "calls" fnId) ∧
      (resolveCall st sourceId moduleName withinClass aliasToQualified c).nodeById =
        st.nodeById) ∧
    (mapGet? st.topLevelFuncByModuleAndName (moduleName ++ "::" ++ c.name) = none →
      ∀ C mId, withinClass = some C → C ≠ "" →
        mapGet? st.methodByModuleClassAndName (moduleName ++ "::" ++ C ++ "::" ++ c.name) =
          some mId →
      (resolveCall st sourceId moduleName withinClass aliasToQualified c).edgeWeightByKey =
        bumpKey st.edgeWeightByKey (edgeKey sourceId "calls" mId) ∧
      (resolveCall st sourceId moduleName withinClass aliasToQualified c).nodeById =
        st.nodeById) ∧
    (mapGet? st.topLevelFuncByModuleAndName (moduleName ++ "::" ++ c.name) = none →
      (∀ C, withinClass = some C → C ≠ "" →
        mapGet? st.methodByModuleClassAndName (moduleName ++ "::" ++ C ++ "::" ++ c.name) =
          none) →
      ∀ q, mapGet? aliasToQualified c.name = some q →
      (resolveCall st sourceId moduleName withinClass aliasToQualified c).edgeWeightByKey =
        bumpKey st.edgeWeightByKey (edgeKey sourceId "uses" (externalFunctionNodeId q)) ∧
      (mapGet? (resolveCall st sourceId moduleName withinClass aliasToQualified
        c).nodeById (externalFunctionNodeId q)).isSome = true) ∧
    (mapGet? st.topLevelFuncByModuleAndName (moduleName ++ "::" ++ c.name) = none →
      (∀ C, withinClass = some C → C ≠ "" →
        mapGet? st.methodByModuleClassAndName (moduleName ++ "::" ++ C ++ "::" ++ c.name) =
          none) →
      mapGet? aliasToQualified c.name = none →
      (resolveCall st sourceId moduleName withinClass aliasToQualified c).edgeWeightByKey =
        bumpKey st.edgeWeightByKey
          (edgeKey sourceId "uses" (externalFunctionNodeId c.name)) ∧
      (mapGet? (resolveCall st sourceId moduleName withinClass aliasToQualified
        c).nodeById (externalFunctionNodeId c.name)).isSome = true) := by
  have hclassNone : ∀ (hyp : ∀ C, withinClass = some C → C ≠ "" →
      mapGet? st.methodByModuleClassAndName (moduleName ++ "::" ++ C ++ "::" ++ c.name) =
        none),
      (if jsTruthy withinClass = true then
        mapGet? st.methodByModuleClassAndName
          (moduleName ++ "::" ++ withinClass.getD "" ++ "::" ++ c.name)
        else none) = none := by
    intro hyp
    cases hwc : withinClass with
    | none => simp [jsTruthy]
    | some C =>
      by_cases hC : C = ""
      · simp [jsTruthy, hwc, hC]
      · simp only [hwc, jsTruthy]
        rw [if_pos (by simpa using hC)]
        simpa using hyp C hwc hC
  refine ⟨?_, ?_, ?_, ?_⟩
  · intro fnId hf
    have hne : fnId ≠ "" := hfv _ (mapGet?_mem hf)
    unfold resolveCall
    simp only [hbare, Bool.false_eq_true, if_false, hf]
    have : jsTruthy (some fnId) = true := by simpa [jsTruthy] using hne
    rw [if_pos this]
    exact ⟨rfl, rfl⟩
  · intro hnone C mId hwc hC hm
    unfold resolveCall
    simp only [hbare, Bool.false_eq_true, if_false, hnone, hwc]
    have h1 : jsTruthy (none : Option String) = true ↔ False := by simp [jsTruthy]
    rw [if_neg (by simp [jsTruthy])]
    have h2 : jsTruthy (some C) = true := by simpa [jsTruthy] using hC
    rw [if_pos h2]
    simp only [Option.getD_some, hm]
    have h3 : jsTruthy (some mId) = true := hmv _ (mapGet?_mem hm) |> fun h => by
      simpa [jsTruthy] using h
    rw [if_pos h3]
    exact ⟨rfl, rfl⟩
  · intro hnone hcls q hq
    unfold resolveCall
    simp only [hbare, Bool.false_eq_true, if_false, hnone]
    rw [if_neg (by simp [jsTruthy])]
    rw [hclassNone hcls]
    rw [if_neg (by simp [jsTruthy])]
    simp only [hq]
    have h3 : jsTruthy (some q) = true := by
      simpa [jsTruthy] using hav _ (mapGet?_mem hq)
    rw [if_pos h3]
    constructor
    · rw [addEdge_edges, upsertNode_edges]
      rfl
    · rw [addEdge_nodeById]
      exact upsert_get_isSome st _
  · intro hnone hcls hal
    unfold resolveCall
    simp only [hbare, Bool.false_eq_true, if_false, hnone]
    rw [if_neg (by simp [jsTruthy])]
    rw [hclassNone hcls]
    rw [if_neg (by simp [jsTruthy])]
    simp only [hal]
    rw [if_neg (by simp [jsTruthy])]
    constructor
    · rw [addEdge_edges, upsertNode_edges]
      rfl
    · rw [addEdge_nodeById]
      exact upsert_get_isSome st _

/-- A concrete builder state for the C6 witness: one indexed top-level
function. -/
def c6State : BuildState :=
  { initState with topLevelFuncByModuleAndName := [("m::f", "m:function:f:1")] }

/-- A concrete bare-name call site for the C6 witness. -/
def c6Call : ParsedCall := { name := "f", line := 1 }

/-- Witness for C6: a bare call to an indexed same-module function. -/
theorem c6_bare_call_resolution_witness :
    (∀ fnId, mapGet? c6State.topLevelFuncByModuleAndName ("m" ++ "::" ++ c6Call.name) =
        some fnId →
      (resolveCall c6State "src" "m" none [] c6Call).edgeWeightByKey =
        bumpKey c6State.edgeWeightByKey (edgeKey "src" "calls" fnId) ∧
      (resolveCall c6State "src" "m" none [] c6Call).nodeById = c6State.nodeById) ∧
    (mapGet? c6State.topLevelFuncByModuleAndName ("m" ++ "::" ++ c6Call.name) = none →
      ∀ C mId, (none : Option String) = some C → C ≠ "" →
        mapGet? c6State.methodByModuleClassAndName ("m" ++ "::" ++ C ++ "::" ++ c6Call.name) =
          some mId →
      (resolveCall c6State "src" "m" none [] c6Call).edgeWeightByKey =
        bumpKey c6State.edgeWeightByKey (edgeKey "src" "calls" mId) ∧
      (resolveCall c6State "src" "m" none [] c6Call).nodeById = c6State.nodeById) ∧
    (mapGet? c6State.topLevelFuncByModuleAndName ("m" ++ "::" ++ c6Call.name) = none →
      (∀ C, (none : Option String) = some C → C ≠ "" →
        mapGet? c6State.methodByModuleClassAndName ("m" ++ "::" ++ C ++ "::" ++ c6Call.name) =
          none) →
      ∀ q, mapGet? ([] : List (String × String)) c6Call.name = some q →
      (resolveCall c6State "src" "m" none [] c6Call).edgeWeightByKey =
        bumpKey c6State.edgeWeightByKey (edgeKey "src" "uses" (externalFunctionNodeId q)) ∧
      (mapGet? (resolveCall c6State "src" "m" none [] c6Call).nodeById
        (externalFunctionNodeId q)).isSome = true) ∧
    (mapGet? c6State.topLevelFuncByModuleAndName ("m" ++ "::" ++ c6Call.name) = none →
      (∀ C, (none : Option String) = some C → C ≠ "" →
        mapGet? c6State.methodByModuleClassAndName ("m" ++ "::" ++ C ++ "::" ++ c6Call.name) =
          none) →
      mapGet? ([] : List (String × String)) c6Call.name = none →
      (resolveCall c6State "src" "m" none [] c6Call).edgeWeightByKey =
        bumpKey c6State.edgeWeightByKey
          (edgeKey "src" "uses" (externalFunctionNodeId c6Call.name)) ∧
      (mapGet? (resolveCall c6State "src" "m" none [] c6Call).nodeById
        (externalFunctionNodeId c6Call.name)).isSome = true) :=
  c6_bare_call_resolution c6State "src" "m" none [] c6Call (by decide) (by decide)
    (by decide) (by decide)

/-- C7: for a call site whose callee token is dotted with base `self` or
`cls`, inside a method of class `C` (a real, non-empty class name) of
module `moduleName`: if the enclosing class has a method named like the
call's final segment, a `calls` edge to that method's node is recorded;
otherwise (without failing) a `uses` edge to a synthesized external
function placeholder keyed by the bare method name alone. -/
theorem c7_self_cls_call_resolution (st : BuildState) (sourceId moduleName C : String)
    (aliasToQualified : List (String × String)) (c : ParsedCall)
    (hdot : jsIncludes c.name '.' = true)
    (hbase : (jsSplit '.' c.name).headD "" = "self" ∨ (jsSplit '.' c.name).headD "" = "cls")
    (hC : C ≠ "")
    (hmv : ∀ p ∈ st.methodByModuleClassAndName, p.2 ≠ "") :
    (∀ mId, mapGet? st.methodByModuleClassAndName
        (moduleName ++ "::" ++ C ++ "::" ++ (jsSplit '.' c.name).tail.getLastD "") =
          some mId →
      (resolveCall st sourceId moduleName (some C) aliasToQualified c).edgeWeightByKey =
        bumpKey st.edgeWeightByKey (edgeKey sourceId "calls" mId) ∧
      (resolveCall st sourceId moduleName (some C) aliasToQualified c).nodeById =
        st.nodeById) ∧
    (mapGet? st.methodByModuleClassAndName
        (moduleName ++ "::" ++ C ++ "::" ++ (jsSplit '.' c.name).tail.getLastD "") =
          none →
      (resolveCall st sourceId moduleName (some C) aliasToQualified c).edgeWeightByKey =
        bumpKey st.edgeWeightByKey (edgeKey sourceId "uses"
          (externalFunctionNodeId ((jsSplit '.' c.name).tail.getLastD ""))) ∧
      (mapGet? (resolveCall st sourceId moduleName (some C) aliasToQualified c).nodeById
        (externalFunctionNodeId ((jsSplit '.' c.name).tail.getLastD ""))).isSome = true) := by
  have hself : ((jsSplit '.' c.name).headD "" = "self" ||
      (jsSplit '.' c.name).headD "" = "cls") = true := by
    rcases hbase with h | h <;> rw [h] <;> simp
  have hwc : jsTruthy (some C) = true := by simpa [jsTruthy] using hC
  constructor
  · intro mId hm
    have hne : mId ≠ "" := hmv _ (mapGet?_mem hm)
    unfold resolveCall
    simp only [hdot, if_pos, hself, hwc, if_true, Option.getD_some, hm]
    have : jsTruthy (some mId) = true := by simpa [jsTruthy] using hne
    rw [if_pos this]
    exact ⟨rfl, rfl⟩
  · intro hm
    unfold resolveCall
    simp only [hdot, if_pos, hself, hwc, if_true, Option.getD_some, hm]
    rw [if_neg (by simp [jsTruthy])]
    constructor
    · rw [addEdge_edges, upsertNode_edges]
      rfl
    · rw [addEdge_nodeById]
      exact upsert_get_isSome st _

/-- A concrete builder state for the C7 witness: one indexed method
`A.g` of module `m`. -/
def c7State : BuildState :=
  { initState with methodByModuleClassAndName := [("m::A::g", "m:function:A.g:2")] }

/-- A concrete `self.`-dotted call site for the C7 witness. -/
def c7Call : ParsedCall := { name := "self.g", line := 3 }

/-- Witness for C7: a `self.g()` call inside a method of class `A`. -/
theorem c7_self_cls_call_resolution_witness :
    (∀ mId, mapGet? c7State.methodByModuleClassAndName
        ("m" ++ "::" ++ "A" ++ "::" ++ (jsSplit '.' c7Call.name).tail.getLastD "") =
          some mId →
      (resolveCall c7State "src" "m" (some "A") [] c7Call).edgeWeightByKey =
        bumpKey c7State.edgeWeightByKey (edgeKey "src" "calls" mId) ∧
      (resolveCall c7State "src" "m" (some "A") [] c7Call).nodeById =
        c7State.nodeById) ∧
    (mapGet? c7State.methodByModuleClassAndName
        ("m" ++ "::" ++ "A" ++ "::" ++ (jsSplit '.' c7Call.name).tail.getLastD "") =
          none →
      (resolveCall c7State "src" "m" (some "A") [] c7Call).edgeWeightByKey =
        bumpKey c7State.edgeWeightByKey (edgeKey "src" "uses"
          (externalFunctionNodeId ((jsSplit '.' c7Call.name).tail.getLastD ""))) ∧
      (mapGet? (resolveCall c7State "src" "m" (some "A") [] c7Call).nodeById
        (externalFunctionNodeId ((jsSplit '.' c7Call.name).tail.getLastD ""))).isSome =
          true) :=
  c7_self_cls_call_resolution c7State "src" "m" "A" [] c7Call (by decide)
    (Or.inl (by decide)) (by decide) (by decide)

/-! ## C8 — inheritance edges

The reference pass never modifies the three resolution indexes, and only
ever adds to the edge-weight map; `Pass2Pres` captures both facts, and
is proved for every operation of the reference pass. -/

/-- State evolution during the reference pass: the resolution indexes
are frozen and recorded edge keys stay recorded. -/
def Pass2Pres (st st' : BuildState) : Prop :=
  st'.topLevelFuncByModuleAndName = st.topLevelFuncByModuleAndName ∧
  st'.classByModuleAndName = st.classByModuleAndName ∧
  st'.methodByModuleClassAndName = st.methodByModuleClassAndName ∧
  ∀ k, (mapGet? st.edgeWeightByKey k).isSome = true →
    (mapGet? st'.edgeWeightByKey k).isSome = true

theorem pass2Pres_refl (st : BuildState) : Pass2Pres st st :=
  ⟨rfl, rfl, rfl, fun _ h => h⟩

theorem pass2Pres_trans {a b c : BuildState} (h1 : Pass2Pres a b) (h2 : Pass2Pres b c) :
    Pass2Pres a c :=
  ⟨h2.1.trans h1.1, h2.2.1.trans h1.2.1, h2.2.2.1.trans h1.2.2.1,
   fun k hk => h2.2.2.2 k (h1.2.2.2 k hk)⟩

theorem isSome_mapSet {α : Type} (m : List (String × α)) (k k' : String) (v : α)
    (h : (mapGet? m k').isSome = true) : (mapGet? (mapSet m k v) k').isSome = true := by
  by_cases hk : k' = k
  · subst hk; rw [mapGet?_set_self]; rfl
  · rw [mapGet?_set_ne _ _ _ _ hk]; exact h

theorem pass2Pres_addEdge (st : BuildState) (s r t : String) :
    Pass2Pres st (addEdge st s r t) :=
  ⟨rfl, rfl, rfl, fun k hk => isSome_mapSet _ _ _ _ hk⟩

theorem pass2Pres_upsert (st : BuildState) (n : CodeNode) :
    Pass2Pres st (upsertNode st n).1 := by
  unfold upsertNode
  split <;> exact ⟨rfl, rfl, rfl, fun _ h => h⟩

theorem pass2Pres_attach (st : BuildState) (mid : String) (al : List (String × String)) :
    Pass2Pres st (attachImportAliases st mid al) := by
  unfold attachImportAliases
  split <;> exact ⟨rfl, rfl, rfl, fun _ h => h⟩

theorem pass2Pres_foldl {α : Type} (step : BuildState → α → BuildState) (l : List α)
    (h : ∀ s x, x ∈ l → Pass2Pres s (step s x)) :
    ∀ init, Pass2Pres init (l.foldl step init) := by
  induction l with
  | nil => intro init; simpa using pass2Pres_refl init
  | cons x l ih =>
    intro init
    simp only [List.foldl_cons]
    exact pass2Pres_trans (h init x (List.mem_cons_self x l))
      (ih (fun s y hy => h s y (List.mem_cons_of_mem x hy)) _)

theorem pass2Pres_resolveCall (st : BuildState) (sourceId moduleName : String)
    (withinClass : Option String) (aliasToQualified : List (String × String))
    (c : ParsedCall) :
    Pass2Pres st (resolveCall st sourceId moduleName withinClass aliasToQualified c) := by
  unfold resolveCall
  by_cases hdot : jsIncludes c.name '.' = true
  · simp only [hdot, if_pos]
    by_cases hself : ((jsSplit '.' c.name).headD "" = "self" ||
        (jsSplit '.' c.name).headD "" = "cls") = true
    · simp only [hself, if_pos]
      by_cases htr : jsTruthy (if jsTruthy withinClass = true then
          mapGet? st.methodByModuleClassAndName
            (moduleName ++ "::" ++ withinClass.getD "" ++ "::" ++
              (jsSplit '.' c.name).tail.getLastD "")
          else none) = true
      · simp only [htr, if_pos]
        exact pass2Pres_addEdge _ _ _ _
      · simp only [htr]
        exact pass2Pres_trans (pass2Pres_upsert _ _) (pass2Pres_addEdge _ _ _ _)
    · simp only [hself]
      by_cases hboth : (jsTruthy (mapGet? st.classByModuleAndName
          (moduleName ++ "::" ++ (jsSplit '.' c.name).headD "")) &&
          jsTruthy (if jsTruthy (mapGet? st.classByModuleAndName
              (moduleName ++ "::" ++ (jsSplit '.' c.name).headD "")) = true then
            mapGet? st.methodByModuleClassAndName
              (moduleName ++ "::" ++ (jsSplit '.' c.name).headD "" ++ "::" ++
                (jsSplit '.' c.name).tail.getLastD "")
            else none)) = true
      · simp only [hboth, if_pos]
        exact pass2Pres_addEdge _ _ _ _
      · simp only [hboth]
        exact pass2Pres_trans (pass2Pres_upsert _ _) (pass2Pres_addEdge _ _ _ _)
  · simp only [hdot]
    by_cases hft : jsTruthy (mapGet? st.topLevelFuncByModuleAndName
        (moduleName ++ "::" ++ c.name)) = true
    · simp only [hft, if_pos]
      exact pass2Pres_addEdge _ _ _ _
    · simp only [hft]
      by_cases hmtr : jsTruthy (if jsTruthy withinClass = true then
          mapGet? st.methodByModuleClassAndName
            (moduleName ++ "::" ++ withinClass.getD "" ++ "::" ++ c.name)
          else none) = true
      · simp only [hmtr, if_pos]
        exact pass2Pres_addEdge _ _ _ _
      · simp only [hmtr]
        by_cases hat : jsTruthy (mapGet? aliasToQualified c.name) = true
        · simp only [hat, if_pos]
          exact pass2Pres_trans (pass2Pres_upsert _ _) (pass2Pres_addEdge _ _ _ _)
        · simp only [hat]
          exact pass2Pres_trans (pass2Pres_upsert _ _) (pass2Pres_addEdge _ _ _ _)

theorem pass2Pres_linkCalls (st : BuildState) (mod : ParsedModule) (fn : ParsedFunction)
    (withinClass : Option String) (aliasToQualified : List (String × String)) :
    Pass2Pres st (linkCallsForFunction st mod fn withinClass aliasToQualified) := by
  unfold linkCallsForFunction
  by_cases hs : jsTruthy (if jsTruthy withinClass = true then
      mapGet? st.methodByModuleClassAndName
        (mod.moduleName ++ "::" ++ withinClass.getD "" ++ "::" ++ fn.name)
      else mapGet? st.topLevelFuncByModuleAndName (mod.moduleName ++ "::" ++ fn.name)) =
      true
  · simp only [hs, if_pos]
    exact pass2Pres_foldl _ _ (fun s x _ => pass2Pres_resolveCall s _ _ _ _ x) st
  · simp only [hs]
    exact pass2Pres_refl st

theorem pass2Pres_processInheritBase (mn derived : String) (s : BuildState)
    (base : String) : Pass2Pres s (processInheritBase mn derived s base) := by
  unfold processInheritBase
  cases hlk : mapGet? s.classByModuleAndName (mn ++ "::" ++ base) with
  | some bid =>
    simp only [hlk]
    exact pass2Pres_addEdge _ _ _ _
  | none =>
    simp only [hlk]
    cases hfc : findClassByNameAnyModule s base with
    | some bid =>
      simp only [hfc]
      exact pass2Pres_addEdge _ _ _ _
    | none =>
      simp only [hfc]
      exact pass2Pres_trans (pass2Pres_upsert _ _) (pass2Pres_addEdge _ _ _ _)

theorem pass2Pres_processInheritanceClass (st : BuildState) (mn : String)
    (cls : ParsedClass) : Pass2Pres st (processInheritanceClass st mn cls) := by
  unfold processInheritanceClass
  by_cases hdt : jsTruthy (mapGet? st.classByModuleAndName (mn ++ "::" ++ cls.name)) = true
  · simp only [hdt, if_pos]
    exact pass2Pres_foldl _ _ (fun s base _ => pass2Pres_processInheritBase _ _ s base) st
  · simp only [hdt]
    exact pass2Pres_refl st

theorem pass2Pres_processModulePass2Calls (st : BuildState) (mod : ParsedModule) :
    Pass2Pres st (processModulePass2Calls st mod) := by
  unfold processModulePass2Calls
  refine pass2Pres_trans (pass2Pres_trans (pass2Pres_trans
    (pass2Pres_foldl _ _ ?_ st) (pass2Pres_attach _ _ _)) (pass2Pres_foldl _ _ ?_ _))
    (pass2Pres_foldl _ _ ?_ _)
  · intro s mName _
    exact pass2Pres_trans (pass2Pres_upsert _ _) (pass2Pres_addEdge _ _ _ _)
  · intro s fn _
    exact pass2Pres_linkCalls _ _ _ _ _
  · intro s cls _
    exact pass2Pres_foldl _ _ (fun s' m _ => pass2Pres_linkCalls _ _ _ _ _) s

theorem pass2Pres_processModulePass2 (st : BuildState) (mod : ParsedModule) :
    Pass2Pres st (processModulePass2 st mod) := by
  unfold processModulePass2
  exact pass2Pres_trans (pass2Pres_processModulePass2Calls st mod)
    (pass2Pres_foldl _ _ (fun s cls _ => pass2Pres_processInheritanceClass s _ cls) _)

theorem isSome_bumpKey_self (m : List (String × Nat)) (k : String) :
    (mapGet? (bumpKey m k) k).isSome = true := by
  unfold bumpKey
  rw [mapGet?_set_self]
  rfl

theorem inheritBase_key (s : BuildState) (mn derived base baseId : String)
    (hbid : mapGet? s.classByModuleAndName (mn ++ "::" ++ base) = some baseId) :
    (mapGet? (processInheritBase mn derived s base).edgeWeightByKey
      (edgeKey baseId "inherits" derived)).isSome = true := by
  unfold processInheritBase
  simp only [hbid]
  rw [addEdge_edges, mapGet?_set_self]
  rfl

theorem inheritClass_key (s : BuildState) (mn : String) (cls : ParsedClass)
    (base baseId derivedId : String) (hb : base ∈ cls.baseClasses)
    (hdid : mapGet? s.classByModuleAndName (mn ++ "::" ++ cls.name) = some derivedId)
    (hdne : derivedId ≠ "")
    (hbid : mapGet? s.classByModuleAndName (mn ++ "::" ++ base) = some baseId) :
    (mapGet? (processInheritanceClass s mn cls).edgeWeightByKey
      (edgeKey baseId "inherits" derivedId)).isSome = true := by
  unfold processInheritanceClass
  simp only [hdid]
  rw [if_pos (show jsTruthy (some derivedId) = true by simpa [jsTruthy] using hdne)]
  simp only [Option.getD_some]
  rcases List.append_of_mem hb with ⟨b1, b2, hbe⟩
  rw [hbe, List.foldl_append, List.foldl_cons]
  have hpresC : Pass2Pres s (b1.foldl (processInheritBase mn derivedId) s) :=
    pass2Pres_foldl _ _ (fun s' x _ => pass2Pres_processInheritBase _ _ s' x) s
  have hbidC : mapGet? (b1.foldl (processInheritBase mn derivedId) s).classByModuleAndName
      (mn ++ "::" ++ base) = some baseId := by
    rw [hpresC.2.1]; exact hbid
  have hkey := inheritBase_key _ mn derivedId base baseId hbidC
  have hpres2 : Pass2Pres
      (processInheritBase mn derivedId (b1.foldl (processInheritBase mn derivedId) s) base)
      (b2.foldl (processInheritBase mn derivedId)
        (processInheritBase mn derivedId
          (b1.foldl (processInheritBase mn derivedId) s) base)) :=
    pass2Pres_foldl _ _ (fun s' x _ => pass2Pres_processInheritBase _ _ s' x) _
  exact hpres2.2.2.2 _ hkey

theorem pass2Module_key (st : BuildState) (mod : ParsedModule) (cls : ParsedClass)
    (base baseId derivedId : String) (hcls : cls ∈ mod.classes)
    (hb : base ∈ cls.baseClasses)
    (hdid : mapGet? st.classByModuleAndName (mod.moduleName ++ "::" ++ cls.name) =
      some derivedId)
    (hdne : derivedId ≠ "")
    (hbid : mapGet? st.classByModuleAndName (mod.moduleName ++ "::" ++ base) =
      some baseId) :
    (mapGet? (processModulePass2 st mod).edgeWeightByKey
      (edgeKey baseId "inherits" derivedId)).isSome = true := by
  unfold processModulePass2
  have hA := pass2Pres_processModulePass2Calls st mod
  rcases List.append_of_mem hcls with ⟨c1, c2, hce⟩
  rw [hce, List.foldl_append, List.foldl_cons]
  have hpresB : Pass2Pres (processModulePass2Calls st mod)
      (c1.foldl (fun s c => processInheritanceClass s mod.moduleName c)
        (processModulePass2Calls st mod)) :=
    pass2Pres_foldl _ _ (fun s c _ => pass2Pres_processInheritanceClass s _ c) _
  have hdidB : mapGet? (c1.foldl (fun s c => processInheritanceClass s mod.moduleName c)
      (processModulePass2Calls st mod)).classByModuleAndName
      (mod.moduleName ++ "::" ++ cls.name) = some derivedId := by
    rw [hpresB.2.1, hA.2.1]; exact hdid
  have hbidB : mapGet? (c1.foldl (fun s c => processInheritanceClass s mod.moduleName c)
      (processModulePass2Calls st mod)).classByModuleAndName
      (mod.moduleName ++ "::" ++ base) = some baseId := by
    rw [hpresB.2.1, hA.2.1]; exact hbid
  have hkey := inheritClass_key _ mod.moduleName cls base baseId derivedId hb hdidB
    hdne hbidB
  have hpres2 : Pass2Pres
      (processInheritanceClass
        (c1.foldl (fun s c => processInheritanceClass s mod.moduleName c)
          (processModulePass2Calls st mod)) mod.moduleName cls)
      (c2.foldl (fun s c => processInheritanceClass s mod.moduleName c)
        (processInheritanceClass
          (c1.foldl (fun s c => processInheritanceClass s mod.moduleName c)
            (processModulePass2Calls st mod)) mod.moduleName cls)) :=
    pass2Pres_foldl _ _ (fun s c _ => pass2Pres_processInheritanceClass s _ c) _
  exact hpres2.2.2.2 _ hkey

theorem buildState_inherit_key (modules : List ParsedModule) (mod : ParsedModule)
    (cls : ParsedClass) (base baseId derivedId : String)
    (hmod : mod ∈ modules) (hcls : cls ∈ mod.classes) (hb : base ∈ cls.baseClasses)
    (hdid : mapGet? (pass1State modules).classByModuleAndName
      (mod.moduleName ++ "::" ++ cls.name) = some derivedId)
    (hdne : derivedId ≠ "")
    (hbid : mapGet? (pass1State modules).classByModuleAndName
      (mod.moduleName ++ "::" ++ base) = some baseId) :
    (mapGet? (buildState modules).edgeWeightByKey
      (edgeKey baseId "inherits" derivedId)).isSome = true := by
  unfold buildState
  rcases List.append_of_mem hmod with ⟨l1, l2, hle⟩
  rw [hle] at hdid hbid ⊢
  rw [List.foldl_append, List.foldl_cons]
  have hmid : Pass2Pres (pass1State (l1 ++ mod :: l2))
      (l1.foldl processModulePass2 (pass1State (l1 ++ mod :: l2))) :=
    pass2Pres_foldl _ _ (fun s m _ => pass2Pres_processModulePass2 s m) _
  have hdidM : mapGet? (l1.foldl processModulePass2
      (pass1State (l1 ++ mod :: l2))).classByModuleAndName
      (mod.moduleName ++ "::" ++ cls.name) = some derivedId := by
    rw [hmid.2.1]; exact hdid
  have hbidM : mapGet? (l1.foldl processModulePass2
      (pass1State (l1 ++ mod :: l2))).classByModuleAndName
      (mod.moduleName ++ "::" ++ base) = some baseId := by
    rw [hmid.2.1]; exact hbid
  have hkey := pass2Module_key _ mod cls base baseId derivedId hcls hb hdidM hdne hbidM
  have hpres2 : Pass2Pres
      (processModulePass2 (l1.foldl processModulePass2 (pass1State (l1 ++ mod :: l2))) mod)
      (l2.foldl processModulePass2
        (processModulePass2
          (l1.foldl processModulePass2 (pass1State (l1 ++ mod :: l2))) mod)) :=
    pass2Pres_foldl _ _ (fun s m _ => pass2Pres_processModulePass2 s m) _
  exact hpres2.2.2.2 _ hkey

/-! Splitting an edge key back into its components. -/

theorem splitCharAux_cons (sep c : Char) (cs acc : List Char) :
    splitCharAux sep (c :: cs) acc =
      if c = sep then acc.reverse :: splitCharAux sep cs []
      else splitCharAux sep cs (c :: acc) := rfl

theorem splitCharAux_no_sep (sep : Char) :
    ∀ (l acc : List Char), l.all (fun c => c ≠ sep) = true →
      splitCharAux sep l acc = [acc.reverse ++ l] := by
  intro l
  induction l with
  | nil => intro acc _; simp [splitCharAux]
  | cons c cs ih =>
    intro acc h
    simp only [List.all_cons, Bool.and_eq_true, decide_eq_true_eq] at h
    rw [splitCharAux_cons, if_neg h.1]
    rw [ih (c :: acc) (by simpa using h.2)]
    simp

theorem splitCharAux_sep_append (sep : Char) :
    ∀ (a : List Char) (b acc : List Char), a.all (fun c => c ≠ sep) = true →
      splitCharAux sep (a ++ sep :: b) acc =
        (acc.reverse ++ a) :: splitCharAux sep b [] := by
  intro a
  induction a with
  | nil =>
    intro b acc _
    simp only [List.nil_append]
    rw [splitCharAux_cons, if_pos rfl]
    simp
  | cons c cs ih =>
    intro b acc h
    simp only [List.all_cons, Bool.and_eq_true, decide_eq_true_eq] at h
    simp only [List.cons_append]
    rw [splitCharAux_cons, if_neg h.1]
    rw [ih b (c :: acc) (by simpa using h.2)]
    simp

theorem jsSplit_edgeKey (s r t : String)
    (hs : s.data.all (fun c => c ≠ '|') = true)
    (hr : r.data.all (fun c => c ≠ '|') = true)
    (ht : t.data.all (fun c => c ≠ '|') = true) :
    jsSplit '|' (edgeKey s r t) = [s, r, t] := by
  unfold jsSplit edgeKey
  have hdata : (s ++ "|" ++ r ++ "|" ++ t).data =
      s.data ++ '|' :: (r.data ++ '|' :: t.data) := by
    simp [String.data_append]
  rw [hdata, splitCharAux_sep_append _ _ _ _ hs, splitCharAux_sep_append _ _ _ _ hr,
    splitCharAux_no_sep _ _ _ ht]
  simp

/-- C8: for every class `Derived` of a module that declares a base
`Base` resolved in that same module — rendered as the builder's
same-module class index mapping both `module::Base` and
`module::Derived` after the declaration pass — the built graph contains
an `inherits` edge whose source is `Base`'s node and whose target is
`Derived`'s node: the direction is base→derived, never derived→base.
The bar-freedom hypotheses hold for every identifier the builder mints
from `|`-free names. -/
theorem c8_inheritance_direction (modules : List ParsedModule) (mod : ParsedModule)
    (cls : ParsedClass) (base baseId derivedId : String)
    (hmod : mod ∈ modules) (hcls : cls ∈ mod.classes) (hb : base ∈ cls.baseClasses)
    (hbid : mapGet? (pass1State modules).classByModuleAndName
      (mod.moduleName ++ "::" ++ base) = some baseId)
    (hdid : mapGet? (pass1State modules).classByModuleAndName
      (mod.moduleName ++ "::" ++ cls.name) = some derivedId)
    (hdne : derivedId ≠ "")
    (hbbar : baseId.data.all (fun ch => ch ≠ '|') = true)
    (hdbar : derivedId.data.all (fun ch => ch ≠ '|') = true) :
    ∃ e ∈ (buildKnowledgeGraphFromParsedModules modules).edges,
      e.source = baseId ∧ e.relation = "inherits" ∧ e.target = derivedId := by
  have hsome := buildState_inherit_key modules mod cls base baseId derivedId hmod hcls hb
    hdid hdne hbid
  obtain ⟨w, hw⟩ := Option.isSome_iff_exists.mp hsome
  have hmem := mapGet?_mem hw
  refine ⟨materializeEdge (edgeKey baseId "inherits" derivedId, w), ?_, ?_, ?_, ?_⟩
  · unfold buildKnowledgeGraphFromParsedModules
    exact (sortByLe_perm edgeLe _).mem_iff.mpr (List.mem_map_of_mem materializeEdge hmem)
  · unfold materializeEdge
    rw [jsSplit_edgeKey _ _ _ hbbar (by decide) hdbar]
    rfl
  · unfold materializeEdge
    rw [jsSplit_edgeKey _ _ _ hbbar (by decide) hdbar]
    rfl
  · unfold materializeEdge
    rw [jsSplit_edgeKey _ _ _ hbbar (by decide) hdbar]
    rfl

/-- Witness for C8: `class B` and `class D(B)` in one file. -/
theorem c8_inheritance_direction_witness :
    ∃ e ∈ (buildKnowledgeGraphFromParsedModules (parsePythonFiles
      [{ name := "m.py", content := "class B:\n    pass\nclass D(B):\n    pass\n",
         path := none }] none)).edges,
      e.source = "m:class:B:1" ∧ e.relation = "inherits" ∧ e.target = "m:class:D:3" :=
  c8_inheritance_direction
    (parsePythonFiles
      [{ name := "m.py", content := "class B:\n    pass\nclass D(B):\n    pass\n",
         path := none }] none)
    ((parsePythonFiles
      [{ name := "m.py", content := "class B:\n    pass\nclass D(B):\n    pass\n",
         path := none }] none).headD default)
    (((parsePythonFiles
      [{ name := "m.py", content := "class B:\n    pass\nclass D(B):\n    pass\n",
         path := none }] none).headD default).classes.getD 1 default)
    "B" "m:class:B:1" "m:class:D:3"
    (by decide) (by decide) (by decide) (by decide) (by decide) (by decide) (by decide)
    (by decide)

/-! ## C3 — the edge-identifier scheme -/

/-- A string free of the edge-key separator `|`. -/
def barFreeStr (s : String) : Bool := s.data.all (fun c => c ≠ '|')

theorem barFreeStr_append (a b : String) :
    barFreeStr (a ++ b) = (barFreeStr a && barFreeStr b) := by
  simp [barFreeStr, String.data_append, List.all_append]

theorem digitChar_ne_bar (n : Nat) : Nat.digitChar n ≠ '|' := by
  match n with
  | 0 | 1 | 2 | 3 | 4 | 5 | 6 | 7 | 8 | 9 | 10 | 11 | 12 | 13 | 14 | 15 => decide
  | (m + 16) =>
    show Nat.digitChar (m + 16) ≠ '|'
    unfold Nat.digitChar
    iterate 16 rw [if_neg (by omega)]
    decide

theorem toDigitsCore_ne_bar :
    ∀ (fuel n : Nat) (acc : List Char), (∀ c ∈ acc, c ≠ '|') →
      ∀ c ∈ Nat.toDigitsCore 10 fuel n acc, c ≠ '|' := by
  intro fuel
  induction fuel with
  | zero => intro n acc hacc c hc; exact hacc c hc
  | succ f ih =>
    intro n acc hacc c hc
    simp only [Nat.toDigitsCore] at hc
    split at hc
    · rcases List.mem_cons.mp hc with hc | hc
      · rw [hc]; exact digitChar_ne_bar _
      · exact hacc c hc
    · refine ih _ _ ?_ c hc
      intro d hd
      rcases List.mem_cons.mp hd with hd | hd
      · rw [hd]; exact digitChar_ne_bar _
      · exact hacc d hd

theorem barFree_natToString (n : Nat) : barFreeStr (toString n) = true := by
  have h := toDigitsCore_ne_bar (n + 1) n [] (by intro c hc; cases hc)
  show barFreeStr (Nat.repr n) = true
  unfold Nat.repr barFreeStr
  rw [List.all_eq_true]
  intro c hc
  have hd : (Nat.toDigits 10 n).asString.data = Nat.toDigits 10 n := rfl
  rw [hd] at hc
  unfold Nat.toDigits at hc
  simpa using h c hc

theorem splitCharAux_barFree (sep : Char) :
    ∀ (l acc : List Char), (∀ c ∈ l, c ≠ '|') → (∀ c ∈ acc, c ≠ '|') →
      ∀ part ∈ splitCharAux sep l acc, ∀ c ∈ part, c ≠ '|' := by
  intro l
  induction l with
  | nil =>
    intro acc _ hacc part hp c hc
    simp only [splitCharAux, List.mem_singleton] at hp
    rw [hp] at hc
    exact hacc c (List.mem_reverse.mp hc)
  | cons a as ih =>
    intro acc hl hacc part hp c hc
    rw [splitCharAux_cons] at hp
    split at hp
    · rcases List.mem_cons.mp hp with hp | hp
      · rw [hp] at hc
        exact hacc c (List.mem_reverse.mp hc)
      · exact ih [] (fun d hd => hl d (List.mem_cons_of_mem a hd))
          (by intro d hd; cases hd) part hp c hc
    · refine ih (a :: acc) (fun d hd => hl d (List.mem_cons_of_mem a hd)) ?_ part hp c hc
      intro d hd
      rcases List.mem_cons.mp hd with hd | hd
      · rw [hd]; exact hl a (List.mem_cons_self a as)
      · exact hacc d hd

theorem jsSplit_barFree (sep : Char) {s : String} (h : barFreeStr s = true) :
    ∀ part ∈ jsSplit sep s, barFreeStr part = true := by
  intro part hp
  unfold jsSplit at hp
  rcases List.mem_map.mp hp with ⟨l, hl, hle⟩
  have h' : s.data.all (fun c => c ≠ '|') = true := h
  have hs : ∀ c ∈ s.data, c ≠ '|' := by
    intro c hc
    simpa using List.all_eq_true.mp h' c hc
  have hpart := splitCharAux_barFree sep s.data [] hs (by intro c hc; cases hc) l hl
  rw [← hle]
  unfold barFreeStr
  rw [List.all_eq_true]
  intro c hc
  have hcd : (String.mk l).data = l := rfl
  rw [hcd] at hc
  simpa using hpart c hc

theorem barFree_headD (sep : Char) {s : String} (h : barFreeStr s = true) :
    barFreeStr ((jsSplit sep s).headD "") = true := by
  cases hsp : jsSplit sep s with
  | nil => decide
  | cons a t =>
    simp only [List.headD_cons]
    exact jsSplit_barFree sep h a (by rw [hsp]; exact List.mem_cons_self a t)

theorem getLastD_eq_or_mem {α : Type} (l : List α) (d : α) :
    l.getLastD d = d ∨ l.getLastD d ∈ l := by
  induction l generalizing d with
  | nil => exact Or.inl rfl
  | cons a t ih =>
    rw [List.getLastD_cons]
    rcases ih a with h | h
    · right; rw [h]; exact List.mem_cons_self a t
    · right; exact List.mem_cons_of_mem a h

theorem barFree_tail_getLastD {s : String} (h : barFreeStr s = true) :
    barFreeStr ((jsSplit '.' s).tail.getLastD "") = true := by
  rcases getLastD_eq_or_mem (jsSplit '.' s).tail "" with he | hm
  · rw [he]; decide
  · exact jsSplit_barFree '.' h _ (List.mem_of_mem_tail hm)

theorem barFree_moduleNodeId {m : String} (h : barFreeStr m = true) :
    barFreeStr (moduleNodeId m) = true := by
  simp only [moduleNodeId, barFreeStr_append, h] <;> decide

theorem barFree_classNodeId {m c : String} {l : Nat} (hm : barFreeStr m = true)
    (hc : barFreeStr c = true) : barFreeStr (classNodeId m c l) = true := by
  simp only [classNodeId, barFreeStr_append, hm, hc, barFree_natToString] <;> decide

theorem barFree_functionNodeId {m nm : String} {l : Nat} (hm : barFreeStr m = true)
    (hn : barFreeStr nm = true) : barFreeStr (functionNodeId m nm l) = true := by
  simp only [functionNodeId, barFreeStr_append, hm, hn, barFree_natToString] <;> decide

theorem barFree_variableNodeId {m nm : String} {l : Nat} (hm : barFreeStr m = true)
    (hn : barFreeStr nm = true) : barFreeStr (variableNodeId m nm l) = true := by
  simp only [variableNodeId, barFreeStr_append, hm, hn, barFree_natToString] <;> decide

theorem barFree_externalModuleNodeId {m : String} (h : barFreeStr m = true) :
    barFreeStr (externalModuleNodeId m) = true := by
  simp only [externalModuleNodeId, barFreeStr_append, h] <;> decide

theorem barFree_externalFunctionNodeId {q : String} (h : barFreeStr q = true) :
    barFreeStr (externalFunctionNodeId q) = true := by
  simp only [externalFunctionNodeId, barFreeStr_append, h] <;> decide

theorem barFree_externalClassNodeId {c : String} (h : barFreeStr c = true) :
    barFreeStr (externalClassNodeId c) = true := by
  simp only [externalClassNodeId, barFreeStr_append, h] <;> decide

/-- Every name component of a parsed module is free of the edge-key
separator. -/
def BarFreeModule (mod : ParsedModule) : Prop :=
  barFreeStr mod.moduleName = true ∧
  (∀ cls ∈ mod.classes, barFreeStr cls.name = true ∧
    (∀ b ∈ cls.baseClasses, barFreeStr b = true) ∧
    (∀ m ∈ cls.methods, barFreeStr m.name = true ∧
      ∀ c ∈ m.calls, barFreeStr c.name = true)) ∧
  (∀ fn ∈ mod.functions, barFreeStr fn.name = true ∧
    ∀ c ∈ fn.calls, barFreeStr c.name = true) ∧
  (∀ v ∈ mod.vars, barFreeStr v.name = true) ∧
  (∀ imp ∈ mod.imports, barFreeStr imp.module = true ∧
    ∀ n ∈ imp.names, barFreeStr n.name = true)

instance barFreeModuleDecidable (mod : ParsedModule) : Decidable (BarFreeModule mod) := by
  unfold BarFreeModule
  exact inferInstance

/-- Both import tables of a module hold only separator-free strings. -/
def TablesBF (t : List (String × String) × List String) : Prop :=
  (∀ p ∈ t.1, barFreeStr p.2 = true) ∧ (∀ s ∈ t.2, barFreeStr s = true)

theorem mem_setAdd {l : List String} {x y : String} (h : y ∈ setAdd l x) :
    y ∈ l ∨ y = x := by
  unfold setAdd at h
  split at h
  · exact Or.inl h
  · rcases List.mem_append.mp h with h | h
    · exact Or.inl h
    · right; simpa using h

theorem tablesBF_step {acc : List (String × String) × List String} {imp : ParsedImport}
    (hacc : TablesBF acc)
    (himp : barFreeStr imp.module = true ∧ ∀ n ∈ imp.names, barFreeStr n.name = true) :
    TablesBF (importTablesStep acc imp) := by
  unfold importTablesStep
  cases imp.importType with
  | importStmt =>
    refine foldl_preserves _ _ ?_ _ hacc
    intro a n hn ha
    constructor
    · intro p hp
      rcases mem_mapSet hp with hp | hp
      · exact ha.1 p hp
      · rw [hp]; exact himp.2 n hn
    · intro s hs
      rcases mem_setAdd hs with hs | hs
      · exact ha.2 s hs
      · rw [hs]; exact barFree_headD '.' (himp.2 n hn)
  | fromStmt =>
    have hacc2 : TablesBF (imp.names.foldl (fun a n =>
        (mapSet a.1 (n.aliasName.getD n.name) (imp.module ++ "." ++ n.name), a.2)) acc) := by
      refine foldl_preserves _ _ ?_ _ hacc
      intro a n hn ha
      constructor
      · intro p hp
        rcases mem_mapSet hp with hp | hp
        · exact ha.1 p hp
        · rw [hp]
          simp only [barFreeStr_append, himp.1, himp.2 n hn] <;> decide
      · exact ha.2
    refine ⟨hacc2.1, ?_⟩
    intro s hs
    rcases mem_setAdd hs with hs | hs
    · exact hacc2.2 s hs
    · rw [hs]; exact barFree_headD '.' himp.1

theorem importTablesOf_barFree (mod : ParsedModule)
    (h : ∀ imp ∈ mod.imports, barFreeStr imp.module = true ∧
      ∀ n ∈ imp.names, barFreeStr n.name = true) :
    TablesBF (importTablesOf mod) := by
  unfold importTablesOf
  refine foldl_preserves _ _ ?_ _ ?_
  · intro a imp hi ha
    exact tablesBF_step ha (h imp hi)
  · exact ⟨(fun p hp => by cases hp), (fun s hs => by cases hs)⟩

theorem idHyps_barFree (modules : List ParsedModule)
    (h : ∀ mod ∈ modules, BarFreeModule mod) :
    IdHyps modules (fun id => barFreeStr id = true) where
  moduleOk := fun mod hm => barFree_moduleNodeId (h mod hm).1
  classOk := fun mod hm cls hc =>
    barFree_classNodeId (h mod hm).1 ((h mod hm).2.1 cls hc).1
  methodOk := fun mod hm cls hc m hmm => by
    have h2 := ((h mod hm).2.1 cls hc).1
    have h3 := (((h mod hm).2.1 cls hc).2.2 m hmm).1
    refine barFree_functionNodeId (h mod hm).1 ?_
    simp only [barFreeStr_append, h2, h3] <;> decide
  funcOk := fun mod hm fn hf =>
    barFree_functionNodeId (h mod hm).1 ((h mod hm).2.2.1 fn hf).1
  varOk := fun mod hm v hv =>
    barFree_variableNodeId (h mod hm).1 ((h mod hm).2.2.2.1 v hv)
  extModuleOk := fun mod hm s hs =>
    barFree_externalModuleNodeId
      ((importTablesOf_barFree mod (h mod hm).2.2.2.2).2 s hs)
  aliasOk := fun mod hm p hp =>
    barFree_externalFunctionNodeId
      ((importTablesOf_barFree mod (h mod hm).2.2.2.2).1 p hp)
  callFnOk := fun mod hm fn hf c hc => by
    have h1 := ((h mod hm).2.2.1 fn hf).2 c hc
    exact ⟨barFree_externalFunctionNodeId h1,
      barFree_externalFunctionNodeId (barFree_tail_getLastD h1)⟩
  callMethodOk := fun mod hm cls hcl m hmm c hc => by
    have h1 := (((h mod hm).2.1 cls hcl).2.2 m hmm).2 c hc
    exact ⟨barFree_externalFunctionNodeId h1,
      barFree_externalFunctionNodeId (barFree_tail_getLastD h1)⟩
  extClassOk := fun mod hm cls hcl b hb =>
    barFree_externalClassNodeId (((h mod hm).2.1 cls hcl).2.1 b hb)

/-- C3 (amended): the original claim is false for arbitrary input file
names — a module name containing `|` makes the joined key decode to a
different triple (see the counterexample) — but holds whenever every
input name component is free of the separator: each edge's identifier
is then exactly `source|relation|target` of its own fields, splitting
on `|` recovers exactly that triple, and the joined keys of distinct
separator-free triples are distinct (the encoding is injective). -/
theorem c3_edge_identifier_scheme (modules : List ParsedModule)
    (h : ∀ mod ∈ modules, BarFreeModule mod) :
    (∀ e ∈ (buildKnowledgeGraphFromParsedModules modules).edges,
        e.id = edgeKey e.source e.relation e.target ∧
        jsSplit '|' e.id = [e.source, e.relation, e.target]) ∧
    (∀ s r t s' r' t' : String, barFreeStr s = true → barFreeStr r = true →
        barFreeStr t = true → barFreeStr s' = true → barFreeStr r' = true →
        barFreeStr t' = true →
        edgeKey s r t = edgeKey s' r' t' → s = s' ∧ r = r' ∧ t = t') := by
  constructor
  · intro e he
    have hq := buildState_stateQ modules (fun id => barFreeStr id = true)
      (idHyps_barFree modules h)
    unfold buildKnowledgeGraphFromParsedModules at he
    have hmem := mem_sortByLe he
    rcases List.mem_map.mp hmem with ⟨p, hp, hpe⟩
    obtain ⟨s, r, t, hk, hs, ht, hr⟩ := hq.2.2.2.2.1 p hp
    have hrbar : barFreeStr r = true := by
      rcases hr with h' | h' | h' | h' | h' <;> rw [h'] <;> decide
    have hsplit : jsSplit '|' p.1 = [s, r, t] := by
      rw [hk]; exact jsSplit_edgeKey s r t hs hrbar ht
    have hes : e.source = s := by
      rw [← hpe]; unfold materializeEdge; rw [hsplit]; rfl
    have her : e.relation = r := by
      rw [← hpe]; unfold materializeEdge; rw [hsplit]; rfl
    have het : e.target = t := by
      rw [← hpe]; unfold materializeEdge; rw [hsplit]; rfl
    have hei : e.id = p.1 := by rw [← hpe]; rfl
    constructor
    · rw [hei, hes, her, het, hk]
    · rw [hei, hes, her, het, hsplit]
  · intro s r t s' r' t' hs hr ht hs' hr' ht' heq
    have h1 : jsSplit '|' (edgeKey s r t) = [s, r, t] := jsSplit_edgeKey s r t hs hr ht
    have h2 : jsSplit '|' (edgeKey s' r' t') = [s', r', t'] :=
      jsSplit_edgeKey s' r' t' hs' hr' ht'
    rw [heq, h2] at h1
    injection h1 with e1 h1
    injection h1 with e2 h1
    injection h1 with e3 _
    exact ⟨e1.symm, e2.symm, e3.symm⟩

/-- Counterexample to C3 as stated for arbitrary inputs: a file named
`a|b.py` produces an edge whose identifier does not decode back to the
edge's own (source, relation, target) triple — the separator occurs
inside the derived module name, so the split has more than three parts
and the materialised triple disagrees with the recorded one. -/
theorem c3_edge_identifier_scheme_counterexample :
    ∃ e ∈ (pipelineGraph [{ name := "a|b.py", content := "x = 1\n", path := none }]
        none).edges,
      jsSplit '|' e.id ≠ [e.source, e.relation, e.target] := by decide

/-- Witness for C3: a one-function file with an ordinary name. -/
theorem c3_edge_identifier_scheme_witness :
    (∀ e ∈ (buildKnowledgeGraphFromParsedModules (parsePythonFiles
        [{ name := "w3.py", content := "def f():\n    pass\n", path := none }]
        none)).edges,
        e.id = edgeKey e.source e.relation e.target ∧
        jsSplit '|' e.id = [e.source, e.relation, e.target]) ∧
    (∀ s r t s' r' t' : String, barFreeStr s = true → barFreeStr r = true →
        barFreeStr t = true → barFreeStr s' = true → barFreeStr r' = true →
        barFreeStr t' = true →
        edgeKey s r t = edgeKey s' r' t' → s = s' ∧ r = r' ∧ t = t') :=
  c3_edge_identifier_scheme _ (by decide)

/-! ## C4 — edge deduplication and weights -/

/-- Replaying a list of `addEdge` keys against an edge-weight map. -/
def bumpLog (m : List (String × Nat)) (log : List String) : List (String × Nat) :=
  log.foldl bumpKey m

theorem bumpLog_append (m : List (String × Nat)) (l1 l2 : List String) :
    bumpLog m (l1 ++ l2) = bumpLog (bumpLog m l1) l2 :=
  List.foldl_append _ _ _ _

/-- The `addEdge` keys recorded by the declaration pass for one module,
in execution order. -/
def pass1KeysOfModule (mod : ParsedModule) : List String :=
  (mod.classes.flatMap (fun cls =>
    edgeKey (moduleNodeId mod.moduleName) "defines"
        (classNodeId mod.moduleName cls.name cls.lineStart) ::
      cls.methods.map (fun m =>
        edgeKey (classNodeId mod.moduleName cls.name cls.lineStart) "defines"
          (functionNodeId mod.moduleName (cls.name ++ "." ++ m.name) m.lineStart)))) ++
  mod.functions.map (fun fn =>
    edgeKey (moduleNodeId mod.moduleName) "defines"
      (functionNodeId mod.moduleName fn.name fn.lineStart)) ++
  mod.vars.map (fun v =>
    edgeKey (moduleNodeId mod.moduleName) "defines"
      (variableNodeId mod.moduleName v.name v.line))

theorem flatMap_single {α β : Type} (f : α → β) :
    ∀ l : List α, (l.flatMap fun x => [f x]) = l.map f := by
  intro l
  induction l with
  | nil => rfl
  | cons x xs ih => simp only [List.flatMap_cons, List.map_cons, List.singleton_append, ih]

theorem edges_foldl_inv {α : Type} (Inv : BuildState → Prop) (step : BuildState → α → BuildState)
    (keysOf : α → List String) :
    ∀ l : List α, (∀ s x, x ∈ l → Inv s → Inv (step s x) ∧
      (step s x).edgeWeightByKey = bumpLog s.edgeWeightByKey (keysOf x)) →
    ∀ st, Inv st → Inv (l.foldl step st) ∧
      (l.foldl step st).edgeWeightByKey = bumpLog st.edgeWeightByKey (l.flatMap keysOf) := by
  intro l
  induction l with
  | nil => intro _ st hst; exact ⟨hst, rfl⟩
  | cons x xs ih =>
    intro h st hst
    have hx := h st x (List.mem_cons_self x xs) hst
    have hrest := ih (fun s y hy hs => h s y (List.mem_cons_of_mem x hy) hs) (step st x) hx.1
    refine ⟨hrest.1, ?_⟩
    show (xs.foldl step (step st x)).edgeWeightByKey = _
    rw [hrest.2, hx.2, List.flatMap_cons, bumpLog_append]

theorem edges_foldl {α : Type} (step : BuildState → α → BuildState)
    (keysOf : α → List String) (l : List α)
    (h : ∀ s x, x ∈ l →
      (step s x).edgeWeightByKey = bumpLog s.edgeWeightByKey (keysOf x)) :
    ∀ st, (l.foldl step st).edgeWeightByKey =
      bumpLog st.edgeWeightByKey (l.flatMap keysOf) := by
  intro st
  exact (edges_foldl_inv (fun _ => True) step keysOf l
    (fun s x hx _ => ⟨trivial, h s x hx⟩) st trivial).2

theorem edges_processMethodPass1 (mn fp cn cid : String) (st : BuildState)
    (m : ParsedFunction) :
    (processMethodPass1 mn fp cn cid st m).edgeWeightByKey =
      bumpKey st.edgeWeightByKey
        (edgeKey cid "defines" (functionNodeId mn (cn ++ "." ++ m.name) m.lineStart)) := by
  unfold processMethodPass1
  rw [addEdge_edges]
  show bumpKey (upsertNode st _).1.edgeWeightByKey _ = _
  rw [upsertNode_edges]

theorem edges_processClassPass1 (mn fp mid : String) (st : BuildState) (cls : ParsedClass) :
    (processClassPass1 mn fp mid st cls).edgeWeightByKey =
      bumpLog st.edgeWeightByKey
        (edgeKey mid "defines" (classNodeId mn cls.name cls.lineStart) ::
          cls.methods.map (fun m =>
            edgeKey (classNodeId mn cls.name cls.lineStart) "defines"
              (functionNodeId mn (cls.name ++ "." ++ m.name) m.lineStart))) := by
  unfold processClassPass1
  have hfold := edges_foldl (processMethodPass1 mn fp cls.name
      (classNodeId mn cls.name cls.lineStart))
    (fun m => [edgeKey (classNodeId mn cls.name cls.lineStart) "defines"
      (functionNodeId mn (cls.name ++ "." ++ m.name) m.lineStart)])
    cls.methods (fun s m _ => edges_processMethodPass1 mn fp cls.name _ s m)
  rw [hfold, flatMap_single]
  show bumpLog (addEdge _ _ _ _).edgeWeightByKey _ = _
  rw [addEdge_edges]
  show bumpLog (bumpKey (upsertNode st _).1.edgeWeightByKey _) _ = _
  rw [upsertNode_edges]
  rfl

theorem edges_processFunctionPass1 (mn fp mid : String) (st : BuildState)
    (fn : ParsedFunction) :
    (processFunctionPass1 mn fp mid st fn).edgeWeightByKey =
      bumpKey st.edgeWeightByKey
        (edgeKey mid "defines" (functionNodeId mn fn.name fn.lineStart)) := by
  unfold processFunctionPass1
  rw [addEdge_edges]
  show bumpKey (upsertNode st _).1.edgeWeightByKey _ = _
  rw [upsertNode_edges]

theorem edges_processVariablePass1 (mn fp mid : String) (st : BuildState)
    (v : ParsedVariable) :
    (processVariablePass1 mn fp mid st v).edgeWeightByKey =
      bumpKey st.edgeWeightByKey
        (edgeKey mid "defines" (variableNodeId mn v.name v.line)) := by
  unfold processVariablePass1
  rw [addEdge_edges]
  show bumpKey (upsertNode st _).1.edgeWeightByKey _ = _
  rw [upsertNode_edges]

theorem edges_processModulePass1 (st : BuildState) (mod : ParsedModule)
    (h : StateQ (fun _ => True) st) :
    (processModulePass1 st mod).edgeWeightByKey =
      bumpLog st.edgeWeightByKey (pass1KeysOfModule mod) := by
  unfold processModulePass1
  have hid : (ensureModuleNode st mod).2.id = moduleNodeId mod.moduleName :=
    stateQ_upsert_ret h
  show (List.foldl
      (processVariablePass1 mod.moduleName mod.filePath (ensureModuleNode st mod).2.id)
      (List.foldl
        (processFunctionPass1 mod.moduleName mod.filePath (ensureModuleNode st mod).2.id)
        (List.foldl
          (processClassPass1 mod.moduleName mod.filePath (ensureModuleNode st mod).2.id)
          (ensureModuleNode st mod).1 mod.classes)
        mod.functions)
      mod.vars).edgeWeightByKey = bumpLog st.edgeWeightByKey (pass1KeysOfModule mod)
  rw [hid]
  have hcls := edges_foldl
    (processClassPass1 mod.moduleName mod.filePath (moduleNodeId mod.moduleName))
    (fun cls => edgeKey (moduleNodeId mod.moduleName) "defines"
        (classNodeId mod.moduleName cls.name cls.lineStart) ::
      cls.methods.map (fun m =>
        edgeKey (classNodeId mod.moduleName cls.name cls.lineStart) "defines"
          (functionNodeId mod.moduleName (cls.name ++ "." ++ m.name) m.lineStart)))
    mod.classes (fun s cls _ => edges_processClassPass1 _ _ _ s cls)
  have hfns := edges_foldl
    (processFunctionPass1 mod.moduleName mod.filePath (moduleNodeId mod.moduleName))
    (fun fn => [edgeKey (moduleNodeId mod.moduleName) "defines"
      (functionNodeId mod.moduleName fn.name fn.lineStart)])
    mod.functions (fun s fn _ => edges_processFunctionPass1 _ _ _ s fn)
  have hvars := edges_foldl
    (processVariablePass1 mod.moduleName mod.filePath (moduleNodeId mod.moduleName))
    (fun v => [edgeKey (moduleNodeId mod.moduleName) "defines"
      (variableNodeId mod.moduleName v.name v.line)])
    mod.vars (fun s v _ => edges_processVariablePass1 _ _ _ s v)
  rw [hvars, hfns, hcls, flatMap_single, flatMap_single]
  have hens : (ensureModuleNode st mod).1.edgeWeightByKey = st.edgeWeightByKey :=
    upsertNode_edges st _
  rw [hens, pass1KeysOfModule, bumpLog_append, bumpLog_append]

theorem pass1State_stateQ_triv (modules : List ParsedModule) :
    StateQ (fun _ => True) (pass1State modules) := by
  unfold pass1State
  refine foldl_preserves _ _ ?_ _ (stateQ_init _)
  intro s mod _ hs
  exact stateQ_processModulePass1 hs trivial (fun _ _ => trivial)
    (fun _ _ _ _ => trivial) (fun _ _ => trivial) (fun _ _ => trivial)

theorem pass1State_edges (modules : List ParsedModule) :
    (pass1State modules).edgeWeightByKey =
      bumpLog [] (modules.flatMap pass1KeysOfModule) := by
  unfold pass1State
  have h := edges_foldl_inv (StateQ (fun _ => True)) processModulePass1 pass1KeysOfModule
    modules ?_ initState (stateQ_init _)
  · exact h.2
  · intro s mod _ hs
    refine ⟨?_, edges_processModulePass1 s mod hs⟩
    exact stateQ_processModulePass1 hs trivial (fun _ _ => trivial)
      (fun _ _ _ _ => trivial) (fun _ _ => trivial) (fun _ _ => trivial)

/-- The reference pass never changes the three resolution indexes, so
during it they stay equal to the pass-one snapshot `idx`. -/
def IdxEq (idx st : BuildState) : Prop :=
  st.topLevelFuncByModuleAndName = idx.topLevelFuncByModuleAndName ∧
  st.classByModuleAndName = idx.classByModuleAndName ∧
  st.methodByModuleClassAndName = idx.methodByModuleClassAndName

theorem idxEq_of_pres {idx st st' : BuildState} (h : IdxEq idx st)
    (hp : Pass2Pres st st') : IdxEq idx st' :=
  ⟨hp.1.trans h.1, hp.2.1.trans h.2.1, hp.2.2.1.trans h.2.2⟩

/-- The `addEdge` key one call site resolves to, computed against the
pass-one snapshot (the branch structure of `resolveCall`). -/
def resolveKey (idx : BuildState) (sourceId moduleName : String)
    (withinClass : Option String) (aliasToQualified : List (String × String))
    (c : ParsedCall) : String :=
  let name := c.name
  if jsIncludes name '.' then
    let parts := jsSplit '.' name
    let base := parts.headD ""
    let methodName := parts.tail.getLastD ""
    if base = "self" || base = "cls" then
      let targetId? :=
        if jsTruthy withinClass then
          mapGet? idx.methodByModuleClassAndName
            (moduleName ++ "::" ++ withinClass.getD "" ++ "::" ++ methodName)
        else none
      if jsTruthy targetId? then edgeKey sourceId "calls" (targetId?.getD "")
      else edgeKey sourceId "uses" (externalFunctionNodeId methodName)
    else
      let classTargetId? := mapGet? idx.classByModuleAndName (moduleName ++ "::" ++ base)
      let methTargetId? :=
        if jsTruthy classTargetId? then
          mapGet? idx.methodByModuleClassAndName
            (moduleName ++ "::" ++ base ++ "::" ++ methodName)
        else none
      if jsTruthy classTargetId? && jsTruthy methTargetId? then
        edgeKey sourceId "calls" (methTargetId?.getD "")
      else
        edgeKey sourceId "uses"
          (externalFunctionNodeId ((mapGet? aliasToQualified base).getD name))
  else
    let sameModuleFn? := mapGet? idx.topLevelFuncByModuleAndName (moduleName ++ "::" ++ name)
    if jsTruthy sameModuleFn? then edgeKey sourceId "calls" (sameModuleFn?.getD "")
    else
      let sameClassMethod? :=
        if jsTruthy withinClass then
          mapGet? idx.methodByModuleClassAndName
            (moduleName ++ "::" ++ withinClass.getD "" ++ "::" ++ name)
        else none
      if jsTruthy sameClassMethod? then edgeKey sourceId "calls" (sameClassMethod?.getD "")
      else
        let qualified? := mapGet? aliasToQualified name
        if jsTruthy qualified? then
          edgeKey sourceId "uses" (externalFunctionNodeId (qualified?.getD ""))
        else edgeKey sourceId "uses" (externalFunctionNodeId name)

/-- The keys `linkCallsForFunction` records, against the snapshot. -/
def linkKeys (idx : BuildState) (mod : ParsedModule) (fn : ParsedFunction)
    (withinClass : Option String) (aliasToQualified : List (String × String)) :
    List String :=
  let sourceId? :=
    if jsTruthy withinClass then
      mapGet? idx.methodByModuleClassAndName
        (mod.moduleName ++ "::" ++ withinClass.getD "" ++ "::" ++ fn.name)
    else
      mapGet? idx.topLevelFuncByModuleAndName (mod.moduleName ++ "::" ++ fn.name)
  if jsTruthy sourceId? then
    fn.calls.map (resolveKey idx (sourceId?.getD "") mod.moduleName withinClass
      aliasToQualified)
  else []

/-- The key one base-class declaration records, against the snapshot. -/
def inheritBaseKey (idx : BuildState) (moduleName derived base : String) : String :=
  match mapGet? idx.classByModuleAndName (moduleName ++ "::" ++ base) with
  | some bid => edgeKey bid "inherits" derived
  | none =>
    match findClassByNameAnyModule idx base with
    | some bid => edgeKey bid "inherits" derived
    | none => edgeKey (externalClassNodeId base) "inherits" derived

/-- The keys the inheritance loop records for one class. -/
def inheritKeys (idx : BuildState) (moduleName : String) (cls : ParsedClass) :
    List String :=
  let derivedId? := mapGet? idx.classByModuleAndName (moduleName ++ "::" ++ cls.name)
  if jsTruthy derivedId? then
    cls.baseClasses.map (inheritBaseKey idx moduleName (derivedId?.getD ""))
  else []

/-- The `addEdge` keys the reference pass records for one module, in
execution order. -/
def pass2KeysOfModule (idx : BuildState) (mod : ParsedModule) : List String :=
  let tables := importTablesOf mod
  (tables.2.map (fun mName =>
    edgeKey (moduleNodeId mod.moduleName) "imports" (externalModuleNodeId mName))) ++
  (mod.functions.flatMap (fun fn => linkKeys idx mod fn none tables.1)) ++
  (mod.classes.flatMap (fun cls =>
    cls.methods.flatMap (fun m => linkKeys idx mod m (some cls.name) tables.1))) ++
  (mod.classes.flatMap (fun cls => inheritKeys idx mod.moduleName cls))

/-- The full `addEdge` key log of one build, in execution order. -/
def edgeKeyLog (modules : List ParsedModule) : List String :=
  modules.flatMap pass1KeysOfModule ++
  modules.flatMap (pass2KeysOfModule (pass1State modules))

theorem resolveKey_congr {idx st : BuildState} (h : IdxEq idx st) (v mn : String)
    (wc : Option String) (a : List (String × String)) :
    resolveKey st v mn wc a = resolveKey idx v mn wc a := by
  funext c
  simp only [resolveKey, h.1, h.2.1, h.2.2]

theorem linkKeys_congr {idx st : BuildState} (h : IdxEq idx st) (mod : ParsedModule)
    (fn : ParsedFunction) (wc : Option String) (a : List (String × String)) :
    linkKeys st mod fn wc a = linkKeys idx mod fn wc a := by
  simp only [linkKeys, h.1, h.2.2, resolveKey_congr h]

theorem inheritBaseKey_congr {idx st : BuildState} (h : IdxEq idx st)
    (mn derived : String) :
    inheritBaseKey st mn derived = inheritBaseKey idx mn derived := by
  funext base
  simp only [inheritBaseKey, findClassByNameAnyModule, h.2.1]

theorem inheritKeys_congr {idx st : BuildState} (h : IdxEq idx st) (mn : String)
    (cls : ParsedClass) : inheritKeys st mn cls = inheritKeys idx mn cls := by
  simp only [inheritKeys, h.2.1, inheritBaseKey_congr h]

theorem edges_resolveCall (st : BuildState) (v mn : String) (wc : Option String)
    (a : List (String × String)) (c : ParsedCall) :
    (resolveCall st v mn wc a c).edgeWeightByKey =
      bumpKey st.edgeWeightByKey (resolveKey st v mn wc a c) := by
  simp only [resolveCall, resolveKey]
  by_cases hdot : jsIncludes c.name '.' = true
  · rw [if_pos hdot, if_pos hdot]
    by_cases hself : ((jsSplit '.' c.name).headD "" = "self" ||
        (jsSplit '.' c.name).headD "" = "cls") = true
    · rw [if_pos hself, if_pos hself]
      by_cases htr : jsTruthy (if jsTruthy wc = true then
          mapGet? st.methodByModuleClassAndName
            (mn ++ "::" ++ wc.getD "" ++ "::" ++ (jsSplit '.' c.name).tail.getLastD "")
          else none) = true
      · rw [if_pos htr, if_pos htr]
        rw [addEdge_edges]; rfl
      · rw [if_neg htr, if_neg htr]
        rw [addEdge_edges, upsertNode_edges]; rfl
    · rw [if_neg hself, if_neg hself]
      by_cases hboth : (jsTruthy (mapGet? st.classByModuleAndName
          (mn ++ "::" ++ (jsSplit '.' c.name).headD "")) &&
          jsTruthy (if jsTruthy (mapGet? st.classByModuleAndName
              (mn ++ "::" ++ (jsSplit '.' c.name).headD "")) = true then
            mapGet? st.methodByModuleClassAndName
              (mn ++ "::" ++ (jsSplit '.' c.name).headD "" ++ "::" ++
                (jsSplit '.' c.name).tail.getLastD "")
            else none)) = true
      · rw [if_pos hboth, if_pos hboth]
        rw [addEdge_edges]; rfl
      · rw [if_neg hboth, if_neg hboth]
        rw [addEdge_edges, upsertNode_edges]; rfl
  · rw [if_neg hdot, if_neg hdot]
    by_cases hft : jsTruthy (mapGet? st.topLevelFuncByModuleAndName
        (mn ++ "::" ++ c.name)) = true
    · rw [if_pos hft, if_pos hft]
      rw [addEdge_edges]; rfl
    · rw [if_neg hft, if_neg hft]
      by_cases hmtr : jsTruthy (if jsTruthy wc = true then
          mapGet? st.methodByModuleClassAndName
            (mn ++ "::" ++ wc.getD "" ++ "::" ++ c.name)
          else none) = true
      · rw [if_pos hmtr, if_pos hmtr]
        rw [addEdge_edges]; rfl
      · rw [if_neg hmtr, if_neg hmtr]
        by_cases hat : jsTruthy (mapGet? a c.name) = true
        · rw [if_pos hat, if_pos hat]
          rw [addEdge_edges, upsertNode_edges]; rfl
        · rw [if_neg hat, if_neg hat]
          rw [addEdge_edges, upsertNode_edges]; rfl

theorem edges_resolve_foldl (st0 : BuildState) (v mn : String) (wc : Option String)
    (a : List (String × String)) (calls : List ParsedCall) :
    ∀ st, IdxEq st0 st →
      (calls.foldl (fun s c => resolveCall s v mn wc a c) st).edgeWeightByKey =
        bumpLog st.edgeWeightByKey (calls.map (resolveKey st0 v mn wc a)) := by
  intro st hst
  have h := edges_foldl_inv (IdxEq st0) (fun s c => resolveCall s v mn wc a c)
    (fun c => [resolveKey st0 v mn wc a c]) calls ?_ st hst
  · rw [h.2, flatMap_single]
  · intro s c hc hinv
    refine ⟨idxEq_of_pres hinv (pass2Pres_resolveCall s _ _ _ _ c), ?_⟩
    rw [edges_resolveCall, resolveKey_congr hinv]
    rfl

theorem edges_linkCalls (st : BuildState) (mod : ParsedModule) (fn : ParsedFunction)
    (wc : Option String) (a : List (String × String)) :
    (linkCallsForFunction st mod fn wc a).edgeWeightByKey =
      bumpLog st.edgeWeightByKey (linkKeys st mod fn wc a) := by
  simp only [linkCallsForFunction, linkKeys]
  by_cases hs : jsTruthy (if jsTruthy wc = true then
      mapGet? st.methodByModuleClassAndName
        (mod.moduleName ++ "::" ++ wc.getD "" ++ "::" ++ fn.name)
      else mapGet? st.topLevelFuncByModuleAndName (mod.moduleName ++ "::" ++ fn.name)) =
      true
  · rw [if_pos hs, if_pos hs]
    exact edges_resolve_foldl st _ _ wc a fn.calls st ⟨rfl, rfl, rfl⟩
  · rw [if_neg hs, if_neg hs]
    rfl

theorem edges_processInheritBase (st : BuildState) (mn derived base : String) :
    (processInheritBase mn derived st base).edgeWeightByKey =
      bumpKey st.edgeWeightByKey (inheritBaseKey st mn derived base) := by
  simp only [processInheritBase, inheritBaseKey, externalClassUpsert]
  cases hlk : mapGet? st.classByModuleAndName (mn ++ "::" ++ base) with
  | some bid =>
    simp only [hlk]
    rw [addEdge_edges]; rfl
  | none =>
    simp only [hlk]
    cases hfc : findClassByNameAnyModule st base with
    | some bid =>
      simp only [hfc]
      rw [addEdge_edges]; rfl
    | none =>
      simp only [hfc]
      rw [addEdge_edges, upsertNode_edges]; rfl

theorem edges_processInheritanceClass (st : BuildState) (mn : String)
    (cls : ParsedClass) :
    (processInheritanceClass st mn cls).edgeWeightByKey =
      bumpLog st.edgeWeightByKey (inheritKeys st mn cls) := by
  simp only [processInheritanceClass, inheritKeys]
  by_cases hdt : jsTruthy (mapGet? st.classByModuleAndName (mn ++ "::" ++ cls.name)) = true
  · rw [if_pos hdt, if_pos hdt]
    have h := edges_foldl_inv (IdxEq st)
      (processInheritBase mn ((mapGet? st.classByModuleAndName
        (mn ++ "::" ++ cls.name)).getD ""))
      (fun base => [inheritBaseKey st mn ((mapGet? st.classByModuleAndName
        (mn ++ "::" ++ cls.name)).getD "") base])
      cls.baseClasses ?_ st ⟨rfl, rfl, rfl⟩
    · rw [h.2, flatMap_single]
    · intro s base hb hinv
      refine ⟨idxEq_of_pres hinv (pass2Pres_processInheritBase _ _ s base), ?_⟩
      rw [edges_processInheritBase, inheritBaseKey_congr hinv]
      rfl
  · rw [if_neg hdt, if_neg hdt]
    rfl

theorem edges_processModulePass2 (idx st : BuildState) (mod : ParsedModule)
    (h : IdxEq idx st) :
    (processModulePass2 st mod).edgeWeightByKey =
      bumpLog st.edgeWeightByKey (pass2KeysOfModule idx mod) := by
  unfold processModulePass2 processModulePass2Calls
  have himpstep : ∀ (s : BuildState) (mName : String), mName ∈ (importTablesOf mod).2 →
      (addEdge (upsertNode s
          { id := externalModuleNodeId mName, label := mName, type := "module",
            metadata := [("external", .bool true)] }).1
        (moduleNodeId mod.moduleName) "imports"
        (externalModuleNodeId mName)).edgeWeightByKey =
        bumpLog s.edgeWeightByKey [edgeKey (moduleNodeId mod.moduleName) "imports"
          (externalModuleNodeId mName)] := by
    intro s mName _
    rw [addEdge_edges, upsertNode_edges]; rfl
  have himp := edges_foldl _ _ (importTablesOf mod).2 himpstep st
  rw [flatMap_single] at himp
  have h1 : IdxEq idx ((importTablesOf mod).2.foldl (fun st mName =>
      addEdge (upsertNode st
        { id := externalModuleNodeId mName, label := mName, type := "module",
          metadata := [("external", .bool true)] }).1
        (moduleNodeId mod.moduleName) "imports" (externalModuleNodeId mName)) st) :=
    idxEq_of_pres h (pass2Pres_foldl _ _ (fun s mName _ =>
      pass2Pres_trans (pass2Pres_upsert _ _) (pass2Pres_addEdge _ _ _ _)) st)
  set stImp := (importTablesOf mod).2.foldl (fun st mName =>
      addEdge (upsertNode st
        { id := externalModuleNodeId mName, label := mName, type := "module",
          metadata := [("external", .bool true)] }).1
        (moduleNodeId mod.moduleName) "imports" (externalModuleNodeId mName)) st
    with hstImp
  set stAtt := attachImportAliases stImp (moduleNodeId mod.moduleName)
      (importTablesOf mod).1 with hstAtt
  have h2 : IdxEq idx stAtt := idxEq_of_pres h1 (pass2Pres_attach _ _ _)
  have hattE : stAtt.edgeWeightByKey = stImp.edgeWeightByKey :=
    attachImportAliases_edges _ _ _
  have hfnstep : ∀ (s : BuildState) (fn : ParsedFunction), fn ∈ mod.functions →
      IdxEq idx s → IdxEq idx (linkCallsForFunction s mod fn none (importTablesOf mod).1) ∧
      (linkCallsForFunction s mod fn none (importTablesOf mod).1).edgeWeightByKey =
        bumpLog s.edgeWeightByKey (linkKeys idx mod fn none (importTablesOf mod).1) := by
    intro s fn _ hinv
    refine ⟨idxEq_of_pres hinv (pass2Pres_linkCalls _ _ _ _ _), ?_⟩
    rw [edges_linkCalls, linkKeys_congr hinv]
  have hfns := edges_foldl_inv (IdxEq idx)
    (fun st fn => linkCallsForFunction st mod fn none (importTablesOf mod).1)
    (fun fn => linkKeys idx mod fn none (importTablesOf mod).1)
    mod.functions hfnstep stAtt h2
  set stFns := mod.functions.foldl
    (fun st fn => linkCallsForFunction st mod fn none (importTablesOf mod).1) stAtt
    with hstFns
  have hclsstep : ∀ (s : BuildState) (cls : ParsedClass), cls ∈ mod.classes →
      IdxEq idx s →
      IdxEq idx (cls.methods.foldl (fun st m =>
        linkCallsForFunction st mod m (some cls.name) (importTablesOf mod).1) s) ∧
      (cls.methods.foldl (fun st m =>
        linkCallsForFunction st mod m (some cls.name) (importTablesOf mod).1)
          s).edgeWeightByKey =
        bumpLog s.edgeWeightByKey (cls.methods.flatMap
          (fun m => linkKeys idx mod m (some cls.name) (importTablesOf mod).1)) := by
    intro s cls _ hinv
    exact edges_foldl_inv (IdxEq idx)
      (fun st m => linkCallsForFunction st mod m (some cls.name) (importTablesOf mod).1)
      (fun m => linkKeys idx mod m (some cls.name) (importTablesOf mod).1)
      cls.methods
      (fun s2 m _ hinv2 => ⟨idxEq_of_pres hinv2 (pass2Pres_linkCalls _ _ _ _ _),
        by rw [edges_linkCalls, linkKeys_congr hinv2]⟩) s hinv
  have hcls := edges_foldl_inv (IdxEq idx)
    (fun st cls => cls.methods.foldl
      (fun st m => linkCallsForFunction st mod m (some cls.name) (importTablesOf mod).1) st)
    (fun cls => cls.methods.flatMap
      (fun m => linkKeys idx mod m (some cls.name) (importTablesOf mod).1))
    mod.classes hclsstep stFns hfns.1
  set stCls := mod.classes.foldl
    (fun st cls => cls.methods.foldl
      (fun st m => linkCallsForFunction st mod m (some cls.name) (importTablesOf mod).1) st)
    stFns with hstCls
  have hinhstep : ∀ (s : BuildState) (cls : ParsedClass), cls ∈ mod.classes →
      IdxEq idx s → IdxEq idx (processInheritanceClass s mod.moduleName cls) ∧
      (processInheritanceClass s mod.moduleName cls).edgeWeightByKey =
        bumpLog s.edgeWeightByKey (inheritKeys idx mod.moduleName cls) := by
    intro s cls _ hinv
    refine ⟨idxEq_of_pres hinv (pass2Pres_processInheritanceClass _ _ _), ?_⟩
    rw [edges_processInheritanceClass, inheritKeys_congr hinv]
  have hinh := edges_foldl_inv (IdxEq idx)
    (fun st cls => processInheritanceClass st mod.moduleName cls)
    (fun cls => inheritKeys idx mod.moduleName cls)
    mod.classes hinhstep stCls hcls.1
  rw [hinh.2, hcls.2, hfns.2, hattE, himp]
  rw [pass2KeysOfModule]
  rw [bumpLog_append, bumpLog_append, bumpLog_append]

theorem idxEq_processModulePass2 (idx st : BuildState) (mod : ParsedModule)
    (h : IdxEq idx st) : IdxEq idx (processModulePass2 st mod) :=
  idxEq_of_pres h (pass2Pres_processModulePass2 st mod)

theorem buildState_edges (modules : List ParsedModule) :
    (buildState modules).edgeWeightByKey = bumpLog [] (edgeKeyLog modules) := by
  unfold buildState
  have h := edges_foldl_inv (IdxEq (pass1State modules)) processModulePass2
    (pass2KeysOfModule (pass1State modules)) modules ?_ (pass1State modules)
    ⟨rfl, rfl, rfl⟩
  · rw [h.2, pass1State_edges, edgeKeyLog, bumpLog_append]
  · intro s mod _ hinv
    exact ⟨idxEq_processModulePass2 _ s mod hinv,
      edges_processModulePass2 _ s mod hinv⟩

theorem mapGet?_bumpLog :
    ∀ (log : List String) (m : List (String × Nat)) (k : String),
      mapGet? (bumpLog m log) k =
        if log.count k = 0 then mapGet? m k
        else some ((mapGet? m k).getD 0 + log.count k) := by
  intro log
  induction log with
  | nil =>
    intro m k
    simp [bumpLog]
  | cons a log ih =>
    intro m k
    have hstep : bumpLog m (a :: log) = bumpLog (bumpKey m a) log := rfl
    rw [hstep, ih]
    by_cases hk : k = a
    · subst hk
      have hbump : mapGet? (bumpKey m k) k = some ((mapGet? m k).getD 0 + 1) := by
        unfold bumpKey; rw [mapGet?_set_self]
      rw [List.count_cons_self, hbump]
      by_cases hc : log.count k = 0
      · rw [if_pos hc, if_neg (Nat.succ_ne_zero _), hc]
      · rw [if_neg hc, if_neg (Nat.succ_ne_zero _)]
        simp only [Option.getD_some]
        exact congrArg some (by omega)
    · have hbump : mapGet? (bumpKey m a) k = mapGet? m k := by
        unfold bumpKey; exact mapGet?_set_ne m a k _ hk
      rw [hbump, List.count_cons_of_ne hk]

theorem mapGet?_of_mem_distinct {α : Type} :
    ∀ {m : List (String × α)} {k : String} {v : α},
      KeysDistinct m → (k, v) ∈ m → mapGet? m k = some v := by
  intro m
  induction m with
  | nil => intro k v _ hm; cases hm
  | cons p m ih =>
    intro k v hd hm
    rcases List.mem_cons.mp hm with he | hm2
    · rw [← he]
      simp [mapGet?]
    · have hne : ¬(p.1 = k) := by
        have := (List.pairwise_cons.mp hd).1 (k, v) hm2
        simpa using this
      have ht := ih (List.pairwise_cons.mp hd).2 hm2
      unfold mapGet? at ht ⊢
      rw [List.find?_cons_of_neg _ (by simpa using hne)]
      exact ht

/-- C4 (amended): the uniqueness half of the claim is false for
arbitrary inputs — a module name containing two `|` separators makes
two different edge keys materialise identical (source, relation,
target) triples (see the counterexample) — but for separator-free
inputs no two edges of the built graph share a triple, and
unconditionally each edge's metadata holds exactly the weight entry
whose value is the number of `addEdge` recordings of that edge's key
during the build (`edgeKeyLog` replays both passes in execution
order), so N same-key recordings collapse into one edge of weight N. -/
theorem c4_edge_dedup_and_weights (modules : List ParsedModule)
    (h : ∀ mod ∈ modules, BarFreeModule mod) :
    ((buildKnowledgeGraphFromParsedModules modules).edges.Pairwise
      (fun e1 e2 => ¬(e1.source = e2.source ∧ e1.relation = e2.relation ∧
        e1.target = e2.target))) ∧
    (∀ e ∈ (buildKnowledgeGraphFromParsedModules modules).edges,
      e.metadata = [("weight", MetaVal.nat ((edgeKeyLog modules).count e.id))]) := by
  have hq := buildState_stateQ modules (fun id => barFreeStr id = true)
    (idHyps_barFree modules h)
  have hEQ := hq.2.2.2.2.1
  have hKD : KeysDistinct (buildState modules).edgeWeightByKey := hq.2.2.2.2.2.2
  constructor
  · unfold buildKnowledgeGraphFromParsedModules
    have hsym : ∀ {e1 e2 : CodeEdge},
        ¬(e1.source = e2.source ∧ e1.relation = e2.relation ∧ e1.target = e2.target) →
        ¬(e2.source = e1.source ∧ e2.relation = e1.relation ∧ e2.target = e1.target) :=
      fun hne hc => hne ⟨hc.1.symm, hc.2.1.symm, hc.2.2.symm⟩
    refine ((sortByLe_perm edgeLe _).pairwise_iff (fun hab => hsym hab)).mpr ?_
    refine List.pairwise_map.mpr ?_
    refine List.Pairwise.imp_of_mem ?_ hKD
    intro p q hp hq2 hne hc
    obtain ⟨s, r, t, hk, hs, ht, hr⟩ := hEQ p hp
    obtain ⟨s', r', t', hk', hs', ht', hr'⟩ := hEQ q hq2
    have hrbar : barFreeStr r = true := by
      rcases hr with h' | h' | h' | h' | h' <;> rw [h'] <;> decide
    have hrbar' : barFreeStr r' = true := by
      rcases hr' with h' | h' | h' | h' | h' <;> rw [h'] <;> decide
    have hsplit : jsSplit '|' p.1 = [s, r, t] := by
      rw [hk]; exact jsSplit_edgeKey s r t hs hrbar ht
    have hsplit' : jsSplit '|' q.1 = [s', r', t'] := by
      rw [hk']; exact jsSplit_edgeKey s' r' t' hs' hrbar' ht'
    have hps : (materializeEdge p).source = s := by
      unfold materializeEdge; rw [hsplit]; rfl
    have hpr : (materializeEdge p).relation = r := by
      unfold materializeEdge; rw [hsplit]; rfl
    have hpt : (materializeEdge p).target = t := by
      unfold materializeEdge; rw [hsplit]; rfl
    have hqs : (materializeEdge q).source = s' := by
      unfold materializeEdge; rw [hsplit']; rfl
    have hqr : (materializeEdge q).relation = r' := by
      unfold materializeEdge; rw [hsplit']; rfl
    have hqt : (materializeEdge q).target = t' := by
      unfold materializeEdge; rw [hsplit']; rfl
    rw [hps, hqs] at hc
    rw [hpr, hqr] at hc
    rw [hpt, hqt] at hc
    apply hne
    rw [hk, hk', hc.1, hc.2.1, hc.2.2]
  · intro e he
    unfold buildKnowledgeGraphFromParsedModules at he
    have hmem := mem_sortByLe he
    rcases List.mem_map.mp hmem with ⟨p, hp, hpe⟩
    have hget : mapGet? (buildState modules).edgeWeightByKey p.1 = some p.2 :=
      mapGet?_of_mem_distinct hKD hp
    rw [buildState_edges, mapGet?_bumpLog] at hget
    have hcount : p.2 = (edgeKeyLog modules).count p.1 := by
      by_cases hc : (edgeKeyLog modules).count p.1 = 0
      · rw [if_pos hc] at hget
        cases hget
      · rw [if_neg hc] at hget
        have := Option.some.inj hget
        simpa [mapGet?] using this.symm
    have hid : e.id = p.1 := by rw [← hpe]; rfl
    have hmd : e.metadata = [("weight", MetaVal.nat p.2)] := by rw [← hpe]; rfl
    rw [hmd, hid, hcount]

/-- Counterexample to C4's uniqueness half as stated for arbitrary
inputs: a file named `a|b|c.py` with two variables yields two distinct
edges (different identifiers) whose materialised (source, relation,
target) triples coincide, because both keys split identically over
their first three components. -/
theorem c4_edge_dedup_and_weights_counterexample :
    ∃ e1 ∈ (pipelineGraph
        [{ name := "a|b|c.py", content := "x = 1\ny = 2\n", path := none }] none).edges,
    ∃ e2 ∈ (pipelineGraph
        [{ name := "a|b|c.py", content := "x = 1\ny = 2\n", path := none }] none).edges,
      e1.id ≠ e2.id ∧ e1.source = e2.source ∧ e1.relation = e2.relation ∧
        e1.target = e2.target := by decide

/-- Witness for C4: a file whose function `f` calls `g` three times. -/
theorem c4_edge_dedup_and_weights_witness :
    ((buildKnowledgeGraphFromParsedModules (parsePythonFiles
      [{ name := "w4.py", content := "def g():\n    pass\ndef f():\n    g()\n    g()\n    g()\n",
         path := none }] none)).edges.Pairwise
      (fun e1 e2 => ¬(e1.source = e2.source ∧ e1.relation = e2.relation ∧
        e1.target = e2.target))) ∧
    (∀ e ∈ (buildKnowledgeGraphFromParsedModules (parsePythonFiles
      [{ name := "w4.py", content := "def g():\n    pass\ndef f():\n    g()\n    g()\n    g()\n",
         path := none }] none)).edges,
      e.metadata = [("weight", MetaVal.nat ((edgeKeyLog (parsePythonFiles
        [{ name := "w4.py", content := "def g():\n    pass\ndef f():\n    g()\n    g()\n    g()\n",
           path := none }] none)).count e.id))]) :=
  c4_edge_dedup_and_weights _ (by decide)

/-! ## C10 — module names come from the base name -/

theorem lastIndexOf_aux_no (c : Char) :
    ∀ (l : List Char) (n : Nat) (acc : Option Nat), (∀ x ∈ l, x ≠ c) →
      (l.enumFrom n).foldl (fun acc p => if p.2 = c then some p.1 else acc) acc = acc := by
  intro l
  induction l with
  | nil => intro n acc _; rfl
  | cons x xs ih =>
    intro n acc h
    simp only [List.enumFrom_cons, List.foldl_cons]
    rw [if_neg (h x (List.mem_cons_self x xs))]
    exact ih (n + 1) acc (fun y hy => h y (List.mem_cons_of_mem x hy))

theorem lastIndexOf_aux_lt (c : Char) :
    ∀ (l : List Char) (n : Nat) (acc : Option Nat),
      (∀ j, acc = some j → j < n) →
      ∀ j, (l.enumFrom n).foldl (fun acc p => if p.2 = c then some p.1 else acc) acc =
          some j →
        j < n + l.length := by
  intro l
  induction l with
  | nil =>
    intro n acc hacc j hj
    simp only [List.enumFrom_nil, List.foldl_nil] at hj
    have := hacc j hj
    omega
  | cons x xs ih =>
    intro n acc hacc j hj
    simp only [List.enumFrom_cons, List.foldl_cons] at hj
    have hstep : ∀ j', (if x = c then some n else acc) = some j' → j' < n + 1 := by
      intro j' hj'
      split at hj'
      · have := Option.some.inj hj'; omega
      · have := hacc j' hj'; omega
    have := ih (n + 1) _ hstep j hj
    simp only [List.length_cons]
    omega

theorem lastIndexOfChar_none (c : Char) (l : List Char) (h : ∀ x ∈ l, x ≠ c) :
    lastIndexOfChar c l = none :=
  lastIndexOf_aux_no c l 0 none h

theorem lastIndexOfChar_lt (c : Char) (l : List Char) :
    ∀ j, lastIndexOfChar c l = some j → j < l.length := by
  intro j hj
  have := lastIndexOf_aux_lt c l 0 none (fun j' hj' => by cases hj') j hj
  omega

theorem lastIndexOfChar_append_slash (dir f : List Char) (hf : ∀ x ∈ f, x ≠ '/') :
    lastIndexOfChar '/' (dir ++ '/' :: f) = some dir.length := by
  show ((dir ++ '/' :: f).enumFrom 0).foldl _ none = some dir.length
  rw [List.enumFrom_append, List.foldl_append, List.enumFrom_cons, List.foldl_cons]
  simp only [Nat.zero_add, if_true]
  exact lastIndexOf_aux_no '/' f (dir.length + 1) _ hf

theorem lastIndexOfChar_append_other (c : Char) (dir f : List Char) (hc : c ≠ '/')
    (hf : ∀ x ∈ f, x ≠ c) :
    lastIndexOfChar c (dir ++ '/' :: f) = lastIndexOfChar c dir := by
  show ((dir ++ '/' :: f).enumFrom 0).foldl _ none = _
  rw [List.enumFrom_append, List.foldl_append, List.enumFrom_cons, List.foldl_cons]
  simp only [Nat.zero_add]
  rw [if_neg (fun h => hc h.symm)]
  exact lastIndexOf_aux_no c f (dir.length + 1) _ hf

theorem deriveModuleName_basename (dir f : String)
    (h1 : jsIncludes f '/' = false) (h2 : jsIncludes f '\\' = false) :
    deriveModuleName (dir ++ "/" ++ f) = deriveModuleName f := by
  have hf1 : ∀ x ∈ f.data, x ≠ '/' := by
    intro x hx he
    have : f.data.any (· = '/') = true := List.any_eq_true.mpr ⟨x, hx, by simp [he]⟩
    rw [show f.data.any (· = '/') = jsIncludes f '/' from rfl, h1] at this
    cases this
  have hf2 : ∀ x ∈ f.data, x ≠ '\\' := by
    intro x hx he
    have : f.data.any (· = '\\') = true := List.any_eq_true.mpr ⟨x, hx, by simp [he]⟩
    rw [show f.data.any (· = '\\') = jsIncludes f '\\' from rfl, h2] at this
    cases this
  have hdata : (dir ++ "/" ++ f).data = dir.data ++ '/' :: f.data := by
    simp [String.data_append]
  simp only [deriveModuleName, hdata]
  rw [lastIndexOfChar_append_slash dir.data f.data hf1]
  rw [lastIndexOfChar_append_other '\\' dir.data f.data (by decide) hf2]
  rw [lastIndexOfChar_none '/' f.data hf1, lastIndexOfChar_none '\\' f.data hf2]
  have hdrop : ∀ p, p = dir.data.length →
      (dir.data ++ '/' :: f.data).drop (p + 1) = f.data := by
    intro p hp
    subst hp
    have hsplit : dir.data ++ '/' :: f.data = (dir.data ++ ['/']) ++ f.data := by simp
    have hlen : (dir.data ++ ['/']).length = dir.data.length + 1 := by simp
    rw [hsplit, ← hlen, List.drop_left]
  cases hB : lastIndexOfChar '\\' dir.data with
  | none =>
    dsimp only
    rw [hdrop dir.data.length rfl]
  | some b =>
    have hb := lastIndexOfChar_lt '\\' dir.data b hB
    dsimp only
    have hmax : max dir.data.length b = dir.data.length := Nat.max_eq_left (Nat.le_of_lt hb)
    rw [hmax, hdrop dir.data.length rfl]

/-- The two-file scenario of the claim: directories differ, base names
coincide. -/
def c10Files : List UploadedFile :=
  [{ name := "a/utils.py", content := "def foo():\n    pass\n", path := none },
   { name := "b/utils.py", content := "def bar():\n    pass\n", path := none }]

/-- C10: a module name is derived from the file name's base name alone
(the prefix up to the last slash or backslash is dropped, with `.py`
stripped), so two files in different directories with the same base
name fold into a single module node: for the concrete two-file
scenario, the graph holds exactly one module node, its identifier is
built from the shared base name, its file path is the first file's
(first-seen-wins merge), and the functions declared by both files hang
off that one node via `defines` edges. -/
theorem c10_module_name_from_basename :
    (∀ dir f : String, jsIncludes f '/' = false → jsIncludes f '\\' = false →
      deriveModuleName (dir ++ "/" ++ f) = deriveModuleName f) ∧
    ((pipelineGraph c10Files none).nodes.filter
        (fun n => n.type = "module")).map (fun n => n.id) = ["utils:module:utils:1"] ∧
    ((pipelineGraph c10Files none).nodes.find?
        (fun n => n.id = "utils:module:utils:1")).map (fun n => n.filePath) =
      some (some "a/utils.py") ∧
    (∃ e ∈ (pipelineGraph c10Files none).edges,
      e.source = "utils:module:utils:1" ∧ e.relation = "defines" ∧
        e.target = "utils:function:foo:1") ∧
    (∃ e ∈ (pipelineGraph c10Files none).edges,
      e.source = "utils:module:utils:1" ∧ e.relation = "defines" ∧
        e.target = "utils:function:bar:1") :=
  ⟨deriveModuleName_basename, by decide, by decide, by decide, by decide⟩

end PyConv
